import Mathlib

/-!
# scdetect: the linker (multi-channel association of template results)

A shallow embedding of `src/apps/cc/detector/linker.{h,cpp}`.

Modelling conventions

* `Core::Time` and `Core::TimeSpan` are integers counting microseconds, so time
  arithmetic is exact.
* Correlation coefficients and scores (`double` in the source) are rationals:
  every value is finite and arithmetic is exact (no rounding, no NaN).
* `Core::Time::GMT()` is an input: `process` receives the instant `now` it reads.
* The result callback is observed through the sequence of associations handed to
  `emitResult`, in call order; every operation returns the new linker state
  together with that sequence.
* `std::unordered_map` is an association list with unique keys (`AList`);
  iteration order is the list order.
-/

namespace Scdetect

/-- `Core::Time`, in microseconds since the epoch. -/
abbrev Time := Int

/-- `Core::TimeSpan`, in microseconds. -/
abbrev TimeSpan := Int

/-- `detail::ProcessorIdType`. -/
abbrev ProcessorIdType := String

/-- Modelled from the spec: `arrival.h` is missing; a pick carries its time and
the waveform stream identifier (the two fields the linker reads). -/
structure Pick where
  time : Time
  waveformStreamId : String
  deriving DecidableEq, Repr

/-- Modelled from the spec: `arrival.h` is missing; an arrival is a pick with a
phase hint and a weight. -/
structure Arrival where
  pick : Pick
  phase : String
  weight : ℚ
  deriving DecidableEq, Repr

/-- Modelled from the spec: one local maximum of a match result
(`LocalMax { lagSeconds, coefficient }`), the element a `resultIt` points to. -/
structure LocalMaxima where
  coefficient : ℚ
  lag : TimeSpan
  deriving DecidableEq, Repr

/-- `Core::TimeWindow`. -/
structure TimeWindow where
  startTime : Time
  endTime : Time
  deriving DecidableEq, Repr

/-- Modelled from the spec: `TemplateWaveformProcessor::MatchResult` (its header is
missing): the local maxima found in a time window. -/
structure MatchResult where
  localMaxima : List LocalMaxima
  timeWindow : TimeWindow
  deriving DecidableEq, Repr

/-- Modelled from the spec: what the linker reads of a `TemplateWaveformProcessor`
(its header is missing): `id()` and `templateWaveform().startTime()`. -/
structure TemplateWaveformProcessor where
  id : ProcessorIdType
  templateWaveformStartTime : Time
  deriving DecidableEq, Repr

/-- Modelled from the spec: `linker::Association::TemplateResult`
(`linker/association.h` is missing). The iterator `resultIt` is represented by the
local maximum it refers to. -/
structure TemplateResult where
  arrival : Arrival
  resultIt : LocalMaxima
  matchResult : MatchResult
  deriving DecidableEq, Repr

/-- Equality of two maps is decided on their lists of entries. -/
instance (priority := 2000) decEqMap {β : Type} [DecidableEq β] :
    DecidableEq (AList (fun _ : ProcessorIdType => β)) :=
  fun a b => decidable_of_iff (a.entries = b.entries) ⟨AList.ext, fun h => by rw [h]⟩

/-- Modelled from the spec: `linker::Association::TemplateResults`, a mapping from
processor id to template result with at most one entry per processor. -/
abbrev TemplateResults := AList (fun _ : ProcessorIdType => TemplateResult)

/-- Modelled from the spec: `linker::Association` (`linker/association.h` is
missing): the results per processor and the score. -/
structure Association where
  results : TemplateResults
  score : ℚ
  deriving DecidableEq

/-- `Association::processorCount()`: the number of entries of `results`. -/
def Association.processorCount (a : Association) : Nat :=
  a.results.entries.length

/-- `std::unordered_map::emplace`: inserts the pair unless the key is present; an
existing entry is left as it is. -/
def emplace {β : Type} (k : ProcessorIdType) (v : β)
    (m : AList (fun _ : ProcessorIdType => β)) : AList (fun _ : ProcessorIdType => β) :=
  match m.lookup k with
  | some _ => m
  | none => m.insert k v

/-- The loop of `util::cma`: `cma += (samples[i] - cma) / (i + 1)`. -/
def cmaLoop (cma : ℚ) (i : Nat) : List ℚ → ℚ
  | [] => cma
  | x :: xs => cmaLoop (cma + (x - cma) / ((i : ℚ) + 1)) (i + 1) xs

/-- Modelled from the spec: `util::cma` (`../util/math.h` is missing), the
cumulative mean of the samples, computed as a cumulative moving average
starting from 0. -/
def cma (samples : List ℚ) : ℚ :=
  cmaLoop 0 0 samples

/-- `Linker::Processor`. -/
structure Processor where
  proc : TemplateWaveformProcessor
  arrival : Arrival
  mergingThreshold : Option ℚ
  deriving DecidableEq

/-- `Linker::Processors`. -/
abbrev Processors := AList (fun _ : ProcessorIdType => Processor)

/-- `Linker::Candidate`. -/
structure Candidate where
  association : Association
  expired : Time
  deriving DecidableEq

/-- `Linker::Candidate::Candidate(expired)`: no results yet. The score of an
association without results is never read; it is taken as 0. -/
def Candidate.create (expired : Time) : Candidate :=
  { association := { results := ∅, score := 0 }, expired := expired }

/-- `Linker::Candidate::feed`. -/
def Candidate.feed (c : Candidate) (procId : ProcessorIdType) (res : TemplateResult) :
    Candidate :=
  let templateResults := emplace procId res c.association.results
  let scores := templateResults.entries.map (fun p => p.2.resultIt.coefficient)
  { c with association := { results := templateResults, score := cma scores } }

/-- `Linker::Candidate::associatedProcessorCount`. -/
def Candidate.associatedProcessorCount (c : Candidate) : Nat :=
  c.association.processorCount

/-- `Linker::Candidate::isExpired`. -/
def Candidate.isExpired (c : Candidate) (now : Time) : Bool :=
  decide (now ≥ c.expired)

namespace POT

/-- `linker::POT::Entry`: arrival time, processor id, enabled flag. -/
structure Entry where
  arrivalTime : Time
  processorId : ProcessorIdType
  enabled : Bool
  deriving DecidableEq, Repr

end POT

/-- Modelled from the spec: `linker::POT` (`linker/pot.h` is missing), the
pick-offset table built from a list of entries. The table is kept as the entries
it was built from; `offset` computes a cell. -/
structure POT where
  entries : List POT.Entry
  deriving DecidableEq, Repr

namespace POT

/-- Modelled from the spec: `POT::enable()` enables every row/column. -/
def enable (p : POT) : POT :=
  { entries := p.entries.map (fun e => { e with enabled := true }) }

/-- Arrival time of the enabled entry of processor `id`, if there is one. -/
def enabledArrivalTime (p : POT) (id : ProcessorIdType) : Option Time :=
  (p.entries.find? (fun e => e.processorId == id && e.enabled)).map (fun e => e.arrivalTime)

/-- Modelled from the spec: the cell `pot[i][j] = arrival[j].pick.time −
arrival[i].pick.time`; a cell of a disabled (or absent) row or column has no
value. -/
def offset (p : POT) (i j : ProcessorIdType) : Option TimeSpan :=
  match p.enabledArrivalTime i, p.enabledArrivalTime j with
  | some ti, some tj => some (tj - ti)
  | _, _ => none

/-- Modelled from the spec: `POT::validateEnabledOffsets(other, thres)`: for every
pair of distinct entries enabled in both tables the two cells differ by at most
`thres`; disabled rows and columns are skipped. -/
def validateEnabledOffsets (p other : POT) (thres : TimeSpan) : Bool :=
  other.entries.all fun ei =>
    other.entries.all fun ej =>
      if ei.processorId = ej.processorId then true
      else
        match p.offset ei.processorId ej.processorId,
              other.offset ei.processorId ej.processorId with
        | some a, some b => decide (|b - a| ≤ thres)
        | _, _ => true

end POT

/-- `Linker::MergingStrategy`. -/
abbrev MergingStrategy := TemplateResult → ℚ → ℚ → Bool

/-- The default value of `Linker::_mergingStrategy` (linker.h):
`result.resultIt->coefficient >= associationThreshold`. -/
def defaultMergingStrategy : MergingStrategy :=
  fun result associationThreshold _ => decide (result.resultIt.coefficient ≥ associationThreshold)

/-- The state of a `Linker` (the data members of linker.h, the result callback
apart). -/
structure Linker where
  processors : Processors
  queue : List Candidate
  pot : POT
  potValid : Bool
  thresArrivalOffset : Option TimeSpan
  thresAssociation : Option ℚ
  minArrivals : Option Nat
  onHold : TimeSpan
  mergingStrategy : Option MergingStrategy

namespace Linker

/-- `Linker::Linker(onHold, arrivalOffsetThres)` with the member defaults. -/
def create (onHold : TimeSpan) (arrivalOffsetThres : TimeSpan) : Linker :=
  { processors := ∅
    queue := []
    pot := { entries := [] }
    potValid := false
    thresArrivalOffset := some arrivalOffsetThres
    thresAssociation := none
    minArrivals := none
    onHold := onHold
    mergingStrategy := some defaultMergingStrategy }

/-- `Linker::setThresArrivalOffset`. -/
def setThresArrivalOffset (l : Linker) (thres : Option TimeSpan) : Linker :=
  { l with thresArrivalOffset := thres }

/-- `Linker::setThresAssociation`. -/
def setThresAssociation (l : Linker) (thres : Option ℚ) : Linker :=
  { l with thresAssociation := thres }

/-- `Linker::setMinArrivals`. -/
def setMinArrivals (l : Linker) (n : Option Nat) : Linker :=
  let v := match n with
    | some k => if 1 > k then none else some k
    | none => none
  { l with minArrivals := v }

/-- `Linker::setOnHold`. -/
def setOnHold (l : Linker) (duration : TimeSpan) : Linker :=
  { l with onHold := duration }

/-- `Linker::setMergingStrategy`. -/
def setMergingStrategy (l : Linker) (mergingStrategy : Option MergingStrategy) : Linker :=
  { l with mergingStrategy := mergingStrategy }

/-- `Linker::processorCount`. -/
def processorCount (l : Linker) : Nat :=
  l.processors.entries.length

/-- `Linker::add`; a null `proc` is `none`. -/
def add (l : Linker) (proc : Option TemplateWaveformProcessor) (arrival : Arrival)
    (mergingThreshold : Option ℚ) : Linker :=
  match proc with
  | some p =>
    { l with
      processors := emplace p.id
        { proc := p, arrival := arrival, mergingThreshold := mergingThreshold } l.processors
      potValid := false }
  | none => l

/-- `Linker::remove`. -/
def remove (l : Linker) (procId : ProcessorIdType) : Linker :=
  { l with processors := l.processors.erase procId, potValid := false }

/-- `Linker::reset`. -/
def reset (l : Linker) : Linker :=
  { l with queue := [], potValid := false }

/-- The condition under which `Linker::flush` emits the front candidate. -/
def flushEmits (l : Linker) (event : Candidate) : Bool :=
  decide (event.associatedProcessorCount ≥ l.minArrivals.getD l.processorCount) &&
    (match l.thresAssociation with
     | none => true
     | some thres => decide (event.association.score ≥ thres))

/-- The `while (!_queue.empty())` loop of `Linker::flush`, on the queue and the
associations emitted so far. -/
def flushLoop (l : Linker) : List Candidate → List Association → List Candidate × List Association
  | [], out => ([], out)
  | event :: rest, out =>
    flushLoop l rest (if l.flushEmits event then out ++ [event.association] else out)

/-- `Linker::flush`. -/
def flush (l : Linker) : Linker × List Association :=
  let r := flushLoop l l.queue []
  ({ l with queue := r.1 }, r.2)

/-- `Linker::createPot`. -/
def createPot (l : Linker) : Linker :=
  { l with
    pot := { entries := l.processors.entries.map fun p =>
      { arrivalTime := p.2.arrival.pick.time, processorId := p.2.proc.id, enabled := true } }
    potValid := true }

/-- `Linker::createCandidatePOT`: the new result first, then the results of the
other processors of the candidate, then one disabled entry (with the default time)
for every registered processor that takes no part. -/
def createCandidatePOT (l : Linker) (candidate : Candidate) (processorId : ProcessorIdType)
    (newResult : TemplateResult) : POT :=
  let allProcessorIds := l.processors.keys
  let associatedProcessorId := processorId :: candidate.association.results.keys
  let additionalProcessorIds := allProcessorIds.filter (fun p => !associatedProcessorId.contains p)
  let candidatePOTEntries : List POT.Entry :=
    [{ arrivalTime := newResult.arrival.pick.time, processorId := processorId, enabled := true }]
  let candidatePOTEntries := candidatePOTEntries ++
    (candidate.association.results.entries.filter (fun p => processorId != p.1)).map fun p =>
      { arrivalTime := p.2.arrival.pick.time, processorId := p.1, enabled := true }
  let candidatePOTEntries := candidatePOTEntries ++
    additionalProcessorIds.map fun p => { arrivalTime := 0, processorId := p, enabled := false }
  { entries := candidatePOTEntries }

/-- The body of the merge loop of `Linker::process` for one candidate. -/
def mergeCandidate (l : Linker) (procId : ProcessorIdType) (result : TemplateResult)
    (candidate : Candidate) : Candidate :=
  if candidate.associatedProcessorCount < l.processorCount then
    let newPick := (candidate.association.results.lookup procId).isNone
    let better := match candidate.association.results.lookup procId with
      | some stored => decide (result.resultIt.coefficient > stored.resultIt.coefficient)
      | none => false
    if newPick || better then
      match l.thresArrivalOffset with
      | some thres =>
        let cmp := l.createCandidatePOT candidate procId result
        if !l.pot.validateEnabledOffsets cmp thres then candidate
        else candidate.feed procId result
      | none => candidate.feed procId result
    else candidate
  else candidate

/-- Whether the sweep of `Linker::process` may emit the candidate: it is complete,
or expired with enough arrivals. -/
def sweepReady (l : Linker) (now : Time) (c : Candidate) : Bool :=
  c.associatedProcessorCount == l.processorCount ||
    (decide (now ≥ c.expired) &&
      decide (c.associatedProcessorCount ≥ l.minArrivals.getD l.processorCount))

/-- The association threshold test of the sweep and of `flush`. -/
def surpassesThreshold (l : Linker) (c : Candidate) : Bool :=
  match l.thresAssociation with
  | none => true
  | some thres => decide (c.association.score ≥ thres)

/-- The sweep loop of `Linker::process` with the clean up that follows: the
associations emitted, in order, and the candidates that are not erased. -/
def sweepLoop (l : Linker) (now : Time) : List Candidate → List Association × List Candidate
  | [] => ([], [])
  | c :: rest =>
    let r := sweepLoop l now rest
    if l.sweepReady now c then
      ((if l.surpassesThreshold c then [c.association] else []) ++ r.1, r.2)
    else if decide (now ≥ c.expired) then (r.1, r.2)
    else (r.1, c :: r.2)

/-- The first lines of `Linker::process`: the POT is recreated when it is not
valid, then every entry is enabled. -/
def prepare (l : Linker) : Linker :=
  let l1 := if !l.potValid then l.createPot else l
  { l1 with pot := l1.pot.enable }

/-- The new candidate association of `Linker::process`: it expires at
`now + _onHold` and holds only `result`. -/
def seed (l : Linker) (now : Time) (procId : ProcessorIdType) (result : TemplateResult) :
    Candidate :=
  (Candidate.create (now + l.onHold)).feed procId result

/-- The queue of `Linker::process` when the sweep starts: the merge loop has run
over the existing candidates and the new candidate is at the back. -/
def sweepQueue (l : Linker) (now : Time) (procId : ProcessorIdType) (result : TemplateResult) :
    List Candidate :=
  l.prepare.queue.map (l.prepare.mergeCandidate procId result) ++ [l.seed now procId result]

/-- `Linker::process`, reading the clock as `now`. -/
def process (l : Linker) (now : Time) (proc : TemplateWaveformProcessor)
    (result : TemplateResult) : Linker × List Association :=
  if l.processors.entries.isEmpty then (l, [])
  else
    let r := l.prepare.sweepLoop now (l.sweepQueue now proc.id result)
    ({ l.prepare with queue := r.2 }, r.1)

/-- The template result `Linker::feed` builds for one local maximum. -/
def templateResultOf (linkerProc : Processor) (matchResult : MatchResult)
    (value : LocalMaxima) : TemplateResult :=
  let currentPickOffset := linkerProc.arrival.pick.time - linkerProc.proc.templateWaveformStartTime
  let time := matchResult.timeWindow.startTime + value.lag + currentPickOffset
  let newArrival := { linkerProc.arrival with pick := { linkerProc.arrival.pick with time := time } }
  { arrival := newArrival, resultIt := value, matchResult := matchResult }

/-- Whether the merging strategy drops the template result in `Linker::feed`. -/
def dropped (l : Linker) (linkerProc : Processor) (templateResult : TemplateResult) : Bool :=
  match l.mergingStrategy, l.thresAssociation with
  | some strategy, some thres =>
    !strategy templateResult thres (linkerProc.mergingThreshold.getD thres)
  | _, _ => false

/-- The loop of `Linker::feed` over the local maxima; the `i`-th local maximum that
is processed reads the clock as `clock i`. -/
def feedLoop (proc : TemplateWaveformProcessor) (linkerProc : Processor)
    (matchResult : MatchResult) (clock : Nat → Time) :
    Nat → List LocalMaxima → Linker × List Association → Linker × List Association
  | _, [], s => s
  | i, value :: rest, s =>
    let templateResult := templateResultOf linkerProc matchResult value
    if s.1.dropped linkerProc templateResult then
      feedLoop proc linkerProc matchResult clock (i + 1) rest s
    else
      let r := s.1.process (clock i) proc templateResult
      feedLoop proc linkerProc matchResult clock (i + 1) rest (r.1, s.2 ++ r.2)

/-- `Linker::feed`. -/
def feed (l : Linker) (clock : Nat → Time) (proc : TemplateWaveformProcessor)
    (matchResult : MatchResult) : Linker × List Association :=
  match l.processors.lookup proc.id with
  | none => (l, [])
  | some linkerProc =>
    feedLoop proc linkerProc matchResult clock 0 matchResult.localMaxima (l, [])

/-- One call of the public interface of the linker. -/
inductive Op where
  | setThresArrivalOffset (thres : Option TimeSpan)
  | setThresAssociation (thres : Option ℚ)
  | setMinArrivals (n : Option Nat)
  | setOnHold (duration : TimeSpan)
  | setMergingStrategy (mergingStrategy : Option MergingStrategy)
  | add (proc : Option TemplateWaveformProcessor) (arrival : Arrival)
      (mergingThreshold : Option ℚ)
  | remove (procId : ProcessorIdType)
  | reset
  | flush
  | feed (clock : Nat → Time) (proc : TemplateWaveformProcessor) (matchResult : MatchResult)

/-- The effect of one call: the new state and the associations it emits. -/
def step (l : Linker) : Op → Linker × List Association
  | .setThresArrivalOffset thres => (l.setThresArrivalOffset thres, [])
  | .setThresAssociation thres => (l.setThresAssociation thres, [])
  | .setMinArrivals n => (l.setMinArrivals n, [])
  | .setOnHold duration => (l.setOnHold duration, [])
  | .setMergingStrategy mergingStrategy => (l.setMergingStrategy mergingStrategy, [])
  | .add proc arrival mergingThreshold => (l.add proc arrival mergingThreshold, [])
  | .remove procId => (l.remove procId, [])
  | .reset => (l.reset, [])
  | .flush => l.flush
  | .feed clock proc matchResult => l.feed clock proc matchResult

/-- A sequence of calls, from left to right, with everything emitted on the way. -/
def run (l : Linker) : List Op → Linker × List Association
  | [] => (l, [])
  | op :: ops =>
    let r := l.step op
    let r2 := run r.1 ops
    (r2.1, r.2 ++ r2.2)

end Linker

/-- The arithmetic mean of a list of coefficients. -/
def mean (xs : List ℚ) : ℚ :=
  xs.sum / xs.length

/-- The coefficients of the member results of an association. -/
def Association.coefficients (a : Association) : List ℚ :=
  a.results.entries.map (fun p => p.2.resultIt.coefficient)

/-! # Relations between queue states -/

/-- The candidate `c'` is a later state of the candidate `c`: same expiry time, and
every result stored in `c` is stored unchanged, under the same processor, in `c'`. -/
def Candidate.Evolves (c c' : Candidate) : Prop :=
  c'.expired = c.expired ∧
    ∀ (procId : ProcessorIdType) (res : TemplateResult),
      c.association.results.lookup procId = some res →
        c'.association.results.lookup procId = some res

/-- The queue `q'` comes from the queue `q` by dropping some candidates, letting the
others evolve in place, and appending new candidates that satisfy `isSeed`: `kept` are
the candidates of `q` that stay, in order, and `evolved` their states in `q'`. -/
def Candidate.Tracks (isSeed : Candidate → Prop) (q q' : List Candidate) : Prop :=
  ∃ kept evolved seeds : List Candidate,
    kept.Sublist q ∧ List.Forall₂ Candidate.Evolves kept evolved ∧ q' = evolved ++ seeds ∧
      ∀ s ∈ seeds, isSeed s

/-! # Pick-offset consistency -/

namespace Linker

/-- The pick time of the template arrival registered for `procId`, if any. -/
def templatePick (l : Linker) (procId : ProcessorIdType) : Option Time :=
  (l.processors.lookup procId).map (fun p => p.arrival.pick.time)

/-- The observed pick times `ti` of processor `i` and `tj` of processor `j` agree with
the template picks of the two processors within `thres`: the observed difference
deviates from the template difference by at most `thres`. -/
def OffsetOk (l : Linker) (thres : TimeSpan) (i j : ProcessorIdType) (ti tj : Time) : Prop :=
  ∀ (templateI templateJ : Time), l.templatePick i = some templateI →
    l.templatePick j = some templateJ → |(tj - ti) - (templateJ - templateI)| ≤ thres

/-- The results are pairwise consistent with the template picks within `thres`. -/
def PairwiseConsistent (l : Linker) (thres : TimeSpan) (results : TemplateResults) : Prop :=
  ∀ (i j : ProcessorIdType) (ri rj : TemplateResult), i ≠ j →
    results.lookup i = some ri → results.lookup j = some rj →
      l.OffsetOk thres i j ri.arrival.pick.time rj.arrival.pick.time

/-- The registrations are keyed by the id of the registered processor (as `add`
makes them), and a POT marked valid is the one `createPot` builds from the
registrations. -/
def WellFormed (l : Linker) : Prop :=
  (∀ (procId : ProcessorIdType) (p : Processor),
    l.processors.lookup procId = some p → p.proc.id = procId) ∧
  (l.potValid = true → l.pot.enable = l.createPot.pot)

end Linker

namespace Linker

/-- Whether the call leaves the arrival offset threshold and the set of registered
processors as they are. -/
def Op.keepsGate : Op → Bool
  | .setThresArrivalOffset _ => false
  | .add _ _ _ => false
  | .remove _ => false
  | _ => true

end Linker

/-! # Sequences of single feeds -/

/-- One call of `feed` with a match result that has a single local maximum, at the
instant `now`. -/
structure SingleFeed where
  now : Time
  proc : TemplateWaveformProcessor
  timeWindow : TimeWindow
  value : LocalMaxima

/-- The match result of a single feed. -/
def SingleFeed.matchResult (f : SingleFeed) : MatchResult :=
  { localMaxima := [f.value], timeWindow := f.timeWindow }

/-- The call of a single feed. -/
def SingleFeed.op (f : SingleFeed) : Linker.Op :=
  .feed (fun _ => f.now) f.proc f.matchResult

namespace Linker

/-- The template result `feed` builds for a single feed, when its processor is
registered. -/
def feedResult (l : Linker) (f : SingleFeed) : Option TemplateResult :=
  (l.processors.lookup f.proc.id).map (fun linkerProc =>
    templateResultOf linkerProc f.matchResult f.value)

/-- The state `s` of the linker `l` after the single feeds `fed`, all of different
processors, consistent with each other and less than `onHold` apart, while fewer feeds
than registered processors have been made: the configuration is that of `l`; every
queued candidate holds results of feeds of `fed`, expires `onHold` after one of them,
is pairwise consistent and has the mean of its coefficients as score; and the queue is
empty when nothing was fed, and otherwise starts with a candidate that holds one
result per feed and is followed by candidates that hold fewer. -/
def ChainInv (l : Linker) (fed : List SingleFeed) (s : Linker) : Prop :=
  s.processors = l.processors ∧ s.thresArrivalOffset = l.thresArrivalOffset ∧
  s.thresAssociation = l.thresAssociation ∧ s.onHold = l.onHold ∧
  s.mergingStrategy = l.mergingStrategy ∧ s.WellFormed ∧
  (∀ c ∈ s.queue,
    (∀ procId res, c.association.results.lookup procId = some res →
      ∃ f ∈ fed, f.proc.id = procId ∧ l.feedResult f = some res) ∧
    (∃ f ∈ fed, c.expired = f.now + l.onHold) ∧
    (∀ thres, l.thresArrivalOffset = some thres →
      l.PairwiseConsistent thres c.association.results) ∧
    c.association.score = mean c.association.coefficients) ∧
  ((fed = [] ∧ s.queue = []) ∨
    ∃ c0 rest, s.queue = c0 :: rest ∧ c0.associatedProcessorCount = fed.length ∧
      ∀ c ∈ rest, c.associatedProcessorCount < fed.length)

end Linker

/-! # Scenario data

Two (or three) processors `A`, `B`, `C` whose template picks are at `t0 = 0`,
`t0 + 2 s` and `t0 + 3 s`; the template waveforms start at `t0`. -/

namespace Scenario

/-- The template arrival of processor `A`: pick at `t0`. -/
def arrivalA : Arrival := { pick := { time := 0, waveformStreamId := "A" }, phase := "P", weight := 1 }

/-- The template arrival of processor `B`: pick at `t0 + 2 s`. -/
def arrivalB : Arrival :=
  { pick := { time := 2000000, waveformStreamId := "B" }, phase := "P", weight := 1 }

/-- The template arrival of processor `C`: pick at `t0 + 3 s`. -/
def arrivalC : Arrival :=
  { pick := { time := 3000000, waveformStreamId := "C" }, phase := "P", weight := 1 }

/-- Processor `A`. -/
def procA : TemplateWaveformProcessor := { id := "A", templateWaveformStartTime := 0 }

/-- Processor `B`. -/
def procB : TemplateWaveformProcessor := { id := "B", templateWaveformStartTime := 0 }

/-- Processor `C`. -/
def procC : TemplateWaveformProcessor := { id := "C", templateWaveformStartTime := 0 }

/-- A match result with one local maximum of the given coefficient at lag 0 of a
window of 10 s starting at `start`. -/
def matchAt (start : Time) (coefficient : ℚ) : MatchResult :=
  { localMaxima := [{ coefficient := coefficient, lag := 0 }]
    timeWindow := { startTime := start, endTime := start + 10000000 } }

/-- A linker with the processors `A` and `B` registered. -/
def linkerAB (onHold : TimeSpan) (thresArrivalOffset : Option TimeSpan)
    (minArrivals : Option Nat) : Linker :=
  ((((Linker.create onHold 2).setThresArrivalOffset thresArrivalOffset).setMinArrivals
    minArrivals).add (some procA) arrivalA none).add (some procB) arrivalB none

/-- A clock that reads `now` at every call. -/
def clockAt (now : Time) : Nat → Time := fun _ => now

/-- The template result `feed` builds for `A` from `matchAt start coefficient`. -/
def resultA (start : Time) (coefficient : ℚ) : TemplateResult :=
  Linker.templateResultOf { proc := procA, arrival := arrivalA, mergingThreshold := none }
    (matchAt start coefficient) { coefficient := coefficient, lag := 0 }

/-- The template result `feed` builds for `B` from `matchAt start coefficient`. -/
def resultB (start : Time) (coefficient : ℚ) : TemplateResult :=
  Linker.templateResultOf { proc := procB, arrival := arrivalB, mergingThreshold := none }
    (matchAt start coefficient) { coefficient := coefficient, lag := 0 }

/-- The template result `feed` builds for `C` from `matchAt start coefficient`. -/
def resultC (start : Time) (coefficient : ℚ) : TemplateResult :=
  Linker.templateResultOf { proc := procC, arrival := arrivalC, mergingThreshold := none }
    (matchAt start coefficient) { coefficient := coefficient, lag := 0 }

/-- Scenario S6 before the flush: `onHold = 5 s`, `minArrivals = 1`, no association
threshold; `A` has fed one result at `now = 100`, which is on hold. -/
def s6Linker : Linker :=
  ((linkerAB 5000000 (some 1000) (some 1)).feed (clockAt 100) procA (matchAt 7 (3 / 5))).1

/-- The partial candidate of scenario S6. -/
def s6Candidate : Candidate :=
  (linkerAB 5000000 (some 1000) (some 1)).seed 100 "A" (resultA 7 (3 / 5))

/-- A linker whose association threshold was raised to 0.7 while a candidate holding
a result of `A` with coefficient 0.6 was on hold. -/
def lowScoreLinker : Linker :=
  ((linkerAB 5000000 (some 1000) none).feed (clockAt 100) procA
    (matchAt 7 (3 / 5))).1.setThresAssociation (some (7 / 10))

/-- The candidate of `lowScoreLinker` once `B` has merged a result with coefficient
0.75: it is complete and its score is 0.675. -/
def lowScoreCandidate : Candidate :=
  (lowScoreLinker.seed 100 "A" (resultA 7 (3 / 5))).feed "B" (resultB 7 (3 / 4))

end Scenario

namespace Scenario

/-- Scenario S5 after the first feed: `onHold = 5 s`, arrival offset threshold 1 ms;
`A` has fed a result with coefficient 0.6 at `now = 100`. -/
def s5Linker : Linker :=
  ((linkerAB 5000000 (some 1000) none).feed (clockAt 100) procA (matchAt 7 (3 / 5))).1

/-- The candidate of scenario S5 that holds the result of `A` with coefficient 0.6. -/
def s5Candidate : Candidate :=
  (linkerAB 5000000 (some 1000) none).seed 100 "A" (resultA 7 (3 / 5))

/-- A linker with `minArrivals = 3` for two processors and `onHold = 1 s`, after `A`
has fed a result at `now = 100`. -/
def lateLinker : Linker :=
  ((linkerAB 1000000 (some 1000) (some 3)).feed (clockAt 100) procA (matchAt 7 (3 / 5))).1

/-- The candidate of `lateLinker`, seeded by `A` and expiring at `now = 1000100`. -/
def lateCandidate : Candidate :=
  (linkerAB 1000000 (some 1000) (some 3)).seed 100 "A" (resultA 7 (3 / 5))

end Scenario

namespace Scenario

/-- The candidate of `lateLinker` after the merge step of the call in which `B` feeds
a consistent result: it holds the results of `A` and `B`. -/
def lateMerged : Candidate :=
  lateCandidate.feed "B" (resultB 7 (4 / 5))

/-- A linker with `minArrivals = 2` for the processors `A`, `B`, `C` and
`onHold = 1 s`, after `A` has fed a result at `now = 100`. -/
def staleLinker : Linker :=
  (((linkerAB 1000000 (some 1000) (some 2)).add (some procC) arrivalC none).feed (clockAt 100)
    procA (matchAt 7 (3 / 5))).1

/-- The candidate of `staleLinker`, seeded by `A` and expiring at `now = 1000100`. -/
def staleCandidate : Candidate :=
  (linkerAB 1000000 (some 1000) (some 2)).seed 100 "A" (resultA 7 (3 / 5))

end Scenario

namespace Linker

/-- Whether the call is `remove`. -/
def Op.isRemove : Op → Bool
  | .remove _ => true
  | _ => false

end Linker

namespace Scenario

/-- Register `A`, `B` and `C`; `A` and `B` feed consistent results, which leaves a
candidate with two results on hold (three processors are registered). -/
def buildOps : List Linker.Op :=
  [.add (some procA) arrivalA none, .add (some procB) arrivalB none,
    .add (some procC) arrivalC none,
    .feed (clockAt 100) procA (matchAt 7 (3 / 5)),
    .feed (clockAt 200) procB (matchAt 7 (4 / 5))]

/-- The calls of `buildOps`; then `B` and `C` are removed. -/
def removalOps : List Linker.Op :=
  buildOps ++ [.remove "B", .remove "C"]

/-- A single processor is registered. -/
def singleOps : List Linker.Op :=
  [.add (some procA) arrivalA none]

/-- The linker after `removalOps`, with `onHold = 5 s`: only `A` is registered. -/
def removalLinker : Linker :=
  ((Linker.create 5000000 1000).run removalOps).1

/-- The candidate of `removalLinker` that holds the results of `A` and `B`. -/
def removalCandidate : Candidate :=
  ((Linker.create 5000000 1000).seed 100 "A" (resultA 7 (3 / 5))).feed "B" (resultB 7 (4 / 5))

end Scenario

namespace Scenario

/-- The calls of scenario S3: `A` feeds a result whose pick is `u0 = 7`, `B` feeds a
result whose pick is `u0 + 2.5 s` (the template offset is 2 s), at any time and with
any coefficient; or the linker is flushed or reset. -/
def s3Call (op : Linker.Op) : Prop :=
  op = .flush ∨ op = .reset ∨
    (∃ (clock : Nat → Time) (coefficient : ℚ), op = .feed clock procA (matchAt 7 coefficient)) ∨
    (∃ (clock : Nat → Time) (coefficient : ℚ),
      op = .feed clock procB (matchAt 500007 coefficient))

/-- The candidates of scenario S3: a single result, either of `A` with its pick at
`u0 = 7` or of `B` with its pick at `u0 + 2.5 s`. -/
def s3Candidate (c : Candidate) : Prop :=
  c.associatedProcessorCount = 1 ∧
    ((∃ res, c.association.results.lookup "A" = some res ∧ res.arrival.pick.time = 7) ∨
      (∃ res, c.association.results.lookup "B" = some res ∧ res.arrival.pick.time = 2500007))

/-- The states of scenario S3: the registrations and the thresholds are those of
`linkerAB onHold (some 1000) (some 2)` and every queued candidate is an S3
candidate. -/
def s3State (s : Linker) : Prop :=
  s.processors = (linkerAB 0 (some 1000) (some 2)).processors ∧
    s.thresArrivalOffset = some 1000 ∧ s.minArrivals = some 2 ∧ s.WellFormed ∧
      ∀ c ∈ s.queue, s3Candidate c

end Scenario

namespace Scenario

/-- The configuration of scenarios S2 and S3 as calls on a fresh linker: arrival
offset threshold 1 ms, `minArrivals = 2`, processors `A` and `B`. -/
def setupAB : List Linker.Op :=
  [.setThresArrivalOffset (some 1000), .setMinArrivals (some 2),
    .add (some procA) arrivalA none, .add (some procB) arrivalB none]

end Scenario

namespace Scenario

/-- Scenario S2, the feed of `A`: one local maximum with coefficient 0.6 whose pick is
`u0 = 7`, fed at `now`. -/
def feedA (now : Time) : SingleFeed :=
  { now := now, proc := procA, timeWindow := { startTime := 7, endTime := 10000007 },
    value := { coefficient := 3 / 5, lag := 0 } }

/-- Scenario S2, the feed of `B`: one local maximum with coefficient 0.8 whose pick is
`u0 + 2 s`, fed at `now`. -/
def feedB (now : Time) : SingleFeed :=
  { now := now, proc := procB, timeWindow := { startTime := 7, endTime := 10000007 },
    value := { coefficient := 4 / 5, lag := 0 } }

/-- The linker of scenario S2 with `onHold = 5 s`. -/
def s2Linker : Linker := linkerAB 5000000 (some 1000) (some 2)

/-- The feeds of scenario S2, 100 µs apart. -/
def s2Feeds : List SingleFeed := [feedA 100, feedB 200]

/-- The feeds of scenario S2 made at the same instant. -/
def s2FeedsAtOnce : List SingleFeed := [feedA 100, feedB 100]

end Scenario

namespace Linker

/-- The template result of a local maximum in the words of the specification: the pick
time is `window.start + lag + currentPickOffset` with
`currentPickOffset = arrival.pick.time − template.startTime`; everything else of the
arrival is the registered template arrival. -/
def projectedResult (templateArrival : Arrival) (templateStartTime : Time)
    (matchResult : MatchResult) (localMax : LocalMaxima) : TemplateResult :=
  ⟨⟨⟨matchResult.timeWindow.startTime + localMax.lag +
        (templateArrival.pick.time - templateStartTime),
      templateArrival.pick.waveformStreamId⟩,
    templateArrival.phase, templateArrival.weight⟩, localMax, matchResult⟩

end Linker

namespace Scenario

/-- A linker with the processors `A` and `B`, `onHold = 5 s`, no arrival offset
threshold; `A` has fed a result with its pick at `u0 = 7` at `now = 100`. -/
def noPotLinker : Linker :=
  ((linkerAB 5000000 none (some 2)).feed (clockAt 100) procA (matchAt 7 (3 / 5))).1

/-- A linker with the processors `A` and `B`, `onHold = 5 s` and the association
threshold 0.7 (default merging strategy). -/
def thresholdLinker : Linker :=
  (linkerAB 5000000 (some 1000) none).setThresAssociation (some (7 / 10))

end Scenario

namespace Scenario

/-- A merging strategy that accepts every template result. -/
def acceptAll : MergingStrategy :=
  fun _ _ _ => true

/-- A linker with the single processor `A`, `onHold = 5 s`, the association threshold
0.7 and the merging strategy `acceptAll`. -/
def customLinker : Linker :=
  ((((Linker.create 5000000 1000).run singleOps).1.setThresAssociation
    (some (7 / 10))).setMergingStrategy (some acceptAll))

/-- A freshly created linker with the single processor `A` and `onHold = 5 s`. -/
def singleLinker : Linker :=
  ((Linker.create 5000000 1000).run singleOps).1

end Scenario

namespace Scenario

/-- A linker with the processors `A` and `B`, `onHold = 5 s`, the arrival offset
threshold 1 ms and `minArrivals = 1`. -/
def overtakeLinker : Linker :=
  linkerAB 5000000 (some 1000) (some 1)

/-- Feeds and a flush: `A` feeds a result with its pick at 7, `B` feeds a result that
is not consistent with it (pick at 500007 + 2 s), `A` feeds a result with its pick at
500007, which is consistent with the result of `B`; then the queue is flushed. -/
def overtakeOps : List Linker.Op :=
  [.feed (clockAt 100) procA (matchAt 7 (3 / 5)),
   .feed (clockAt 200) procB (matchAt 500007 (4 / 5)),
   .feed (clockAt 300) procA (matchAt 500007 (3 / 5)),
   .flush]

/-- The candidate appended by the first feed of `overtakeOps`. -/
def firstCandidate : Candidate :=
  overtakeLinker.seed 100 "A" (resultA 7 (3 / 5))

/-- The candidate appended by the second feed of `overtakeOps`. -/
def secondCandidate : Candidate :=
  overtakeLinker.seed 200 "B" (resultB 500007 (4 / 5))

/-- The candidate appended by the third feed of `overtakeOps`. -/
def thirdCandidate : Candidate :=
  overtakeLinker.seed 300 "A" (resultA 500007 (3 / 5))

end Scenario

/-! # Configuration validators (validators.cpp) -/

namespace config

/-- The value of the literal `2.0e-6` of `validateArrivalOffsetThreshold`, in seconds. -/
def arrivalOffsetThresholdFloor : ℚ :=
  2 / 1000000

/-- `config::validateArrivalOffsetThreshold`; the `double` argument is a rational
number of seconds. -/
def validateArrivalOffsetThreshold (thres : ℚ) : Bool :=
  decide (thres < 0) || decide (thres ≥ arrivalOffsetThresholdFloor)

/-- `config::validateMinArrivals`. The conditional operator binds weaker than `&&`:
the return statement reads
`numStreamConfigs > 0 ? (n >= 1) : (n >= 1 && n <= numStreamConfigs)`. -/
def validateMinArrivals (n : Int) (numStreamConfigs : Int) : Bool :=
  if n < 0 then true
  else if numStreamConfigs > 0 then decide (n ≥ 1)
  else decide (n ≥ 1) && decide (n ≤ numStreamConfigs)

end config

/-! # The combining strategy `MLx::max` (mlx.cpp) -/

namespace MLx

/-- The loop of `std::max_element(first, last, comp)`: `largest` is replaced by the
current element when `comp(*largest, *first)` holds. -/
def maxElementLoop {α : Type} (comp : α → α → Bool) : α → List α → α
  | largest, [] => largest
  | largest, x :: rest => maxElementLoop comp (if comp largest x then x else largest) rest

/-- `std::max_element` on a range; `none` is the end iterator of an empty range. -/
def maxElement {α : Type} (comp : α → α → Bool) : List α → Option α
  | [] => none
  | x :: rest => some (maxElementLoop comp x rest)

/-- `MLx::max`: the amplitude `combined` is assigned; `none` when the assertion
`!amplitudes.empty()` fails. The amplitude type is a parameter, `value` reads
`amplitude->value.value`. -/
def max {α : Type} (value : α → ℚ) (amplitudes : List α) : Option α :=
  maxElement (fun lhs rhs => decide (value lhs < value rhs)) amplitudes

end MLx

/-! # The template processor (template.cpp) -/

namespace Template

/-- The members of `StreamState` that `Template::Process` reads. -/
structure StreamState where
  initialized : Bool
  received_samples : Nat
  needed_samples : Nat
  deriving DecidableEq

/-- The time window of a record, in seconds. -/
structure Record where
  startTime : ℚ
  endTime : ℚ
  deriving DecidableEq

/-- `Template::MatchResult(coefficient, lag, time_window)`; the coefficient `none` is
the initial value `std::nan("")`. -/
structure MatchResult where
  coefficient : Option ℚ
  lag : ℚ
  timeWindowStart : ℚ
  timeWindowEnd : ℚ
  deriving DecidableEq

/-- The value of `start_idx` in `Template::Process`; the difference of the sample
counters is the `int` the cast gives. -/
def startIdx (stream_state : StreamState) (n : Nat) : Nat :=
  if !stream_state.initialized then
    (Max.max 0 ((n : Int) -
      ((stream_state.received_samples : Int) - (stream_state.needed_samples : Int)))).toNat
  else 0

/-- One pass of the loop body of `Template::Process` over the values from index `i`
on; the state is `(coefficient, lag_idx)`, `!isfinite(coefficient)` holds exactly for the
initial NaN because the data are finite. -/
def scan : List ℚ → Nat → Option ℚ × Nat → Option ℚ × Nat
  | [], _, s => s
  | v :: rest, i, s =>
    scan rest (i + 1)
      (match s.1 with
       | none => (some v, i)
       | some coefficient => if coefficient < v then (some v, i) else s)

/-- The loop `for (i = start_idx; i < n; ++i)` of `Template::Process`: the final
`(coefficient, lag_idx)`. -/
def firstMaximum (filtered_data : List ℚ) (start_idx : Nat) : Option ℚ × Nat :=
  scan (filtered_data.drop start_idx) start_idx (none, 0)

/-- The start time of the processing in `Template::Process`; `start_idx / n` is the
integer division of the source. -/
def startTime (stream_state : StreamState) (record : Record) (n : Nat) : ℚ :=
  if !stream_state.initialized then
    record.startTime +
      (record.endTime - record.startTime) * (((startIdx stream_state n / n : Nat)) : ℚ)
  else record.startTime

/-- `Template::Process`: the match result handed to `EmitResult`. `template_size` and
`template_length` are `cross_correlation_.template_size()` and
`cross_correlation_.template_length()`. -/
def process (stream_state : StreamState) (record : Record) (filtered_data : List ℚ)
    (template_size : Nat) (template_length : ℚ) : MatchResult :=
  let n := filtered_data.length
  let start := startTime stream_state record n
  let r := firstMaximum filtered_data (startIdx stream_state n)
  let t : ℚ := ((r.2 : ℚ) - (template_size : ℚ)) / ((n : ℚ) + (template_size : ℚ))
  let twStart := start - template_length
  let twEnd := record.endTime - template_length
  ⟨r.1, (twEnd - twStart) * t, twStart, twEnd⟩

end Template

/-! # The magnitude range decorator (range.cpp) -/

namespace MagnitudeRange

/-- The limits registered for a sensor location (`Range{lower, upper}`); a bound that
is not set is `none`. -/
structure Range where
  rangeBegin : Option ℚ
  rangeEnd : Option ℚ
  deriving DecidableEq

/-- The member `_ranges`: detector id, then sensor location id. -/
abbrev Ranges := AList (fun _ : String => AList (fun _ : String => Range))

/-- The exception `MagnitudeOutOfRange` with the values its message is built from. -/
structure MagnitudeOutOfRange where
  magnitude : ℚ
  rangeBegin : Option ℚ
  rangeEnd : Option ℚ
  deriving DecidableEq

/-- Equality of the results of `computeMagnitude` is decidable. -/
instance decEqResult : DecidableEq (Except MagnitudeOutOfRange ℚ) := fun a b =>
  match a, b with
  | .ok x, .ok y =>
    if h : x = y then isTrue (congrArg Except.ok h) else isFalse (fun e => h (Except.ok.inj e))
  | .error x, .error y =>
    if h : x = y then isTrue (congrArg Except.error h)
    else isFalse (fun e => h (Except.error.inj e))
  | .ok _, .error _ => isFalse (fun e => Except.noConfusion e)
  | .error _, .ok _ => isFalse (fun e => Except.noConfusion e)

/-- `MagnitudeRange::addLimits`: `_ranges[detectorId][sensorLocationId] = Range{lower, upper}`. -/
def addLimits (ranges : Ranges) (detectorId sensorLocationId : String)
    (lower upper : Option ℚ) : Ranges :=
  ranges.insert detectorId
    (((ranges.lookup detectorId).getD ∅).insert sensorLocationId ⟨lower, upper⟩)

/-- `MagnitudeRange::handleMagnitudeOutOfRange`: always throws. -/
def handleMagnitudeOutOfRange (range : Range) (magnitude : ℚ) :
    Except MagnitudeOutOfRange ℚ :=
  .error ⟨magnitude, range.rangeBegin, range.rangeEnd⟩

/-- The condition of the `if` in `MagnitudeRange::computeMagnitude` under which the
magnitude is returned, with its four alternatives in the order of the source. -/
def withinRange (range : Range) (magnitude : ℚ) : Bool :=
  (range.rangeBegin.isNone && range.rangeEnd.isNone) ||
  (match range.rangeBegin, range.rangeEnd with
   | some b, some e => decide (magnitude ≥ b) && decide (magnitude ≤ e)
   | _, _ => false) ||
  (match range.rangeBegin with
   | some b => decide (magnitude ≥ b)
   | none => false) ||
  (match range.rangeEnd with
   | some e => decide (magnitude ≤ e)
   | none => false)

/-- `MagnitudeRange::computeMagnitude`. `magnitude` is the value of
`Decorator::compute(amplitude)`, `detectorId` and `sensorLocationId` are the values of
`extractDetectorId(amplitude)` and `extractSensorLocationId(amplitude)`. -/
def computeMagnitude (ranges : Ranges) (magnitude : ℚ) (detectorId : Option String)
    (sensorLocationId : Option String) : Except MagnitudeOutOfRange ℚ :=
  match detectorId with
  | none => .ok magnitude
  | some d =>
    match ranges.lookup d with
    | none => .ok magnitude
    | some locations =>
      match sensorLocationId with
      | none => .ok magnitude
      | some s =>
        match locations.lookup s with
        | none => .ok magnitude
        | some range =>
          if withinRange range magnitude then .ok magnitude
          else handleMagnitudeOutOfRange range magnitude

/-- The result the specification asks for with the limits `range`: the magnitude when
every bound that is set is satisfied, the exception otherwise. -/
def expectedMagnitude (range : Range) (magnitude : ℚ) : Except MagnitudeOutOfRange ℚ :=
  if (match range.rangeBegin with
      | some b => decide (b ≤ magnitude)
      | none => true) &&
     (match range.rangeEnd with
      | some e => decide (magnitude ≤ e)
      | none => true) then .ok magnitude
  else .error ⟨magnitude, range.rangeBegin, range.rangeEnd⟩

end MagnitudeRange

/-! # `Linker::feed` on coefficients that may be NaN -/

namespace Linker

/-- A coefficient of type `double`: NaN or a finite value. -/
inductive Coefficient where
  | nan
  | finite (value : ℚ)
  deriving DecidableEq

/-- The comparison `coefficient >= thres` of doubles: false when the coefficient is NaN. -/
def Coefficient.ge (coefficient : Coefficient) (thres : ℚ) : Bool :=
  match coefficient with
  | .nan => false
  | .finite value => decide (value ≥ thres)

/-- A local maximum whose coefficient may be NaN. -/
structure FloatLocalMaxima where
  coefficient : Coefficient
  lag : TimeSpan
  deriving DecidableEq

/-- A match result whose coefficients may be NaN. -/
structure FloatMatchResult where
  localMaxima : List FloatLocalMaxima
  timeWindow : TimeWindow
  deriving DecidableEq

/-- A template result whose coefficient may be NaN. -/
structure FloatTemplateResult where
  arrival : Arrival
  resultIt : FloatLocalMaxima
  matchResult : FloatMatchResult
  deriving DecidableEq

/-- The type `Linker::MergingStrategy` on such template results. -/
abbrev FloatMergingStrategy := FloatTemplateResult → ℚ → ℚ → Bool

/-- The default value of `Linker::_mergingStrategy` (linker.h) on such template
results: `result.resultIt->coefficient >= associationThreshold`. -/
def floatDefaultMergingStrategy : FloatMergingStrategy :=
  fun result associationThreshold _ => result.resultIt.coefficient.ge associationThreshold

/-- The template result `Linker::feed` builds for a local maximum. -/
def floatTemplateResultOf (linkerProc : Processor) (matchResult : FloatMatchResult)
    (value : FloatLocalMaxima) : FloatTemplateResult :=
  let currentPickOffset := linkerProc.arrival.pick.time - linkerProc.proc.templateWaveformStartTime
  let time := matchResult.timeWindow.startTime + value.lag + currentPickOffset
  let newArrival := { linkerProc.arrival with pick := { linkerProc.arrival.pick with time := time } }
  { arrival := newArrival, resultIt := value, matchResult := matchResult }

/-- Whether the merging strategy drops the template result in `Linker::feed`. -/
def floatDropped (mergingStrategy : Option FloatMergingStrategy) (thresAssociation : Option ℚ)
    (linkerProc : Processor) (templateResult : FloatTemplateResult) : Bool :=
  match mergingStrategy, thresAssociation with
  | some strategy, some thres =>
    !strategy templateResult thres (linkerProc.mergingThreshold.getD thres)
  | _, _ => false

/-- The loop of `Linker::feed` over the template results of the local maxima, for any
state: a result is skipped when `dropped` holds and handed to `process` otherwise. -/
def feedLoopOver {σ ρ : Type} (dropped : σ → ρ → Bool) (process : σ → Nat → ρ → σ) :
    Nat → List ρ → σ → σ
  | _, [], s => s
  | i, templateResult :: rest, s =>
    if dropped s templateResult then feedLoopOver dropped process (i + 1) rest s
    else feedLoopOver dropped process (i + 1) rest (process s i templateResult)

/-- The calls of `process` that `Linker::feed` makes, in order, each given by the
template result it is called with; `linkerProc` is what `_processors.find` returns. -/
def feedCalls (mergingStrategy : Option FloatMergingStrategy) (thresAssociation : Option ℚ)
    (linkerProc : Option Processor) (matchResult : FloatMatchResult) :
    List FloatTemplateResult :=
  match linkerProc with
  | none => []
  | some p =>
    feedLoopOver (fun _ templateResult => floatDropped mergingStrategy thresAssociation p templateResult)
      (fun calls _ templateResult => calls ++ [templateResult]) 0
      (matchResult.localMaxima.map (floatTemplateResultOf p matchResult)) []

end Linker

namespace Scenario

/-- A match result with one local maximum whose coefficient is NaN, at lag 0 of a
window of 10 s starting at `start`. -/
def matchNaN (start : Time) : Linker.FloatMatchResult :=
  ⟨[⟨.nan, 0⟩], ⟨start, start + 10000000⟩⟩

/-- A merging strategy that accepts every template result. -/
def floatAcceptAll : Linker.FloatMergingStrategy :=
  fun _ _ _ => true

end Scenario

/-! # The fate of a queued candidate -/

namespace Linker

/-- What one `Linker::process` call makes of the candidate `c` of the queue: the merge
loop is applied to it, and the sweep erases it (`none`) or leaves it in the queue. -/
def processTrack (l : Linker) (now : Time) (proc : TemplateWaveformProcessor)
    (result : TemplateResult) (c : Candidate) : Option Candidate :=
  if l.processors.entries.isEmpty then some c
  else
    let merged := l.prepare.mergeCandidate proc.id result c
    if l.prepare.sweepReady now merged then none
    else if decide (now ≥ merged.expired) then none
    else some merged

/-- The part of the queue after one `Linker::process` call that the call has appended:
the new candidate, unless the sweep of the same call erases it. -/
def processAppended (l : Linker) (now : Time) (proc : TemplateWaveformProcessor)
    (result : TemplateResult) : List Candidate :=
  if l.processors.entries.isEmpty then []
  else
    let newCandidate := l.seed now proc.id result
    if l.prepare.sweepReady now newCandidate then []
    else if decide (now ≥ newCandidate.expired) then []
    else [newCandidate]

/-- What the loop of `Linker::feed` makes of the candidate `c` of the queue: every
`process` call of the loop is applied in turn, until one erases the candidate. -/
def feedLoopTrack (proc : TemplateWaveformProcessor) (linkerProc : Processor)
    (matchResult : MatchResult) (clock : Nat → Time) :
    Nat → List LocalMaxima → Linker → Candidate → Option Candidate
  | _, [], _, c => some c
  | i, value :: rest, s, c =>
    let templateResult := templateResultOf linkerProc matchResult value
    if s.dropped linkerProc templateResult then
      feedLoopTrack proc linkerProc matchResult clock (i + 1) rest s c
    else
      (s.processTrack (clock i) proc templateResult c).bind
        (feedLoopTrack proc linkerProc matchResult clock (i + 1) rest
          (s.process (clock i) proc templateResult).1)

/-- The candidates the loop of `Linker::feed` has appended and not erased again, in the
order of the `process` calls that appended them. -/
def feedLoopAppended (proc : TemplateWaveformProcessor) (linkerProc : Processor)
    (matchResult : MatchResult) (clock : Nat → Time) :
    Nat → List LocalMaxima → Linker → List Candidate
  | _, [], _ => []
  | i, value :: rest, s =>
    let templateResult := templateResultOf linkerProc matchResult value
    if s.dropped linkerProc templateResult then
      feedLoopAppended proc linkerProc matchResult clock (i + 1) rest s
    else
      (s.processAppended (clock i) proc templateResult).filterMap
          (feedLoopTrack proc linkerProc matchResult clock (i + 1) rest
            (s.process (clock i) proc templateResult).1) ++
        feedLoopAppended proc linkerProc matchResult clock (i + 1) rest
          (s.process (clock i) proc templateResult).1

/-- What one `Linker::feed` call makes of the candidate `c` of the queue. -/
def feedTrack (l : Linker) (clock : Nat → Time) (proc : TemplateWaveformProcessor)
    (matchResult : MatchResult) (c : Candidate) : Option Candidate :=
  match l.processors.lookup proc.id with
  | none => some c
  | some linkerProc =>
    feedLoopTrack proc linkerProc matchResult clock 0 matchResult.localMaxima l c

/-- The candidates one `Linker::feed` call has appended and not erased again. -/
def feedAppended (l : Linker) (clock : Nat → Time) (proc : TemplateWaveformProcessor)
    (matchResult : MatchResult) : List Candidate :=
  match l.processors.lookup proc.id with
  | none => []
  | some linkerProc =>
    feedLoopAppended proc linkerProc matchResult clock 0 matchResult.localMaxima l

/-- What one call of the public interface makes of the candidate `c` of the queue:
`reset` and `flush` erase it, `feed` is `feedTrack`, the other calls leave it alone. -/
def stepTrack (l : Linker) (op : Op) (c : Candidate) : Option Candidate :=
  match op with
  | .reset => none
  | .flush => none
  | .feed clock proc matchResult => l.feedTrack clock proc matchResult c
  | _ => some c

/-- The candidates one call of the public interface has appended and not erased. -/
def stepAppended (l : Linker) (op : Op) : List Candidate :=
  match op with
  | .feed clock proc matchResult => l.feedAppended clock proc matchResult
  | _ => []

/-- What a sequence of calls makes of the candidate `c` of the queue. -/
def runTrack (l : Linker) : List Op → Candidate → Option Candidate
  | [], c => some c
  | op :: ops, c => (l.stepTrack op c).bind (runTrack (l.step op).1 ops)

/-- The candidates a sequence of calls has appended and not erased again: those of the
first call that the later calls leave in the queue, then those of the later calls. -/
def runAppended (l : Linker) : List Op → List Candidate
  | [] => []
  | op :: ops =>
    (l.stepAppended op).filterMap (runTrack (l.step op).1 ops) ++ runAppended (l.step op).1 ops

end Linker

/-! # Properties -/

namespace Linker

theorem sweepLoop_fst (l : Linker) (now : Time) (q : List Candidate) :
    (l.sweepLoop now q).1 =
      (q.filter (fun c => l.sweepReady now c && l.surpassesThreshold c)).map
        Candidate.association := by
  induction q with
  | nil => rfl
  | cons c rest ih =>
    simp only [sweepLoop, List.filter_cons]
    by_cases h1 : l.sweepReady now c = true
    · by_cases h2 : l.surpassesThreshold c = true
      · simp [h1, h2, ih]
      · simp [h1, h2, ih]
    · by_cases h3 : now ≥ c.expired
      · simp [h1, h3, ih]
      · simp [h1, h3, ih]

theorem sweepLoop_snd (l : Linker) (now : Time) (q : List Candidate) :
    (l.sweepLoop now q).2 =
      q.filter (fun c => !l.sweepReady now c && !decide (now ≥ c.expired)) := by
  induction q with
  | nil => rfl
  | cons c rest ih =>
    simp only [sweepLoop, List.filter_cons]
    by_cases h1 : l.sweepReady now c = true
    · simp [h1, ih]
    · by_cases h3 : now ≥ c.expired
      · simp [h1, h3, ih]
      · simp [h1, h3, ih]

theorem flushLoop_eq (l : Linker) (q : List Candidate) (out : List Association) :
    l.flushLoop q out = ([], out ++ (q.filter l.flushEmits).map Candidate.association) := by
  induction q generalizing out with
  | nil => simp [flushLoop]
  | cons c rest ih =>
    simp only [flushLoop, List.filter_cons]
    by_cases h : l.flushEmits c = true
    · simp [h, ih]
    · simp [h, ih]

end Linker

namespace Linker

/-- Claim C10. `Linker::flush` leaves the queue empty and emits, in queue order,
exactly the queued candidates with at least `minArrivals` results (`processorCount`
when `minArrivals` is null) whose score reaches the association threshold (no score
condition when the threshold is null); expiry plays no role. In particular, with no
association threshold and `minArrivals = 1`, a queued candidate with a single result
is emitted (scenario S6). -/
theorem flush_drains_and_filters (l : Linker) :
    l.flush.1.queue = [] ∧
    l.flush.2 = (l.queue.filter (fun c =>
        decide (l.minArrivals.getD l.processorCount ≤ c.association.results.entries.length) &&
        (match l.thresAssociation with
         | none => true
         | some thres => decide (thres ≤ c.association.score)))).map Candidate.association ∧
    (l.thresAssociation = none → l.minArrivals = some 1 →
      ∀ c ∈ l.queue, c.association.results.entries.length = 1 →
        c.association ∈ l.flush.2) := by
  have h : l.flush.2 = (l.queue.filter l.flushEmits).map Candidate.association := by
    simp [flush, flushLoop_eq]
  refine ⟨by simp [flush, flushLoop_eq], ?_, ?_⟩
  · rw [h]; rfl
  · intro h1 h2 c hc hlen
    rw [h]
    refine List.mem_map.2 ⟨c, List.mem_filter.2 ⟨hc, ?_⟩, rfl⟩
    simp [flushEmits, h1, h2, Candidate.associatedProcessorCount, Association.processorCount, hlen]

/-- Scenario S6: the candidate seeded by the single feed of `A` is emitted by
`flush`. -/
theorem flush_drains_and_filters_witness :
    Scenario.s6Candidate.association ∈ Scenario.s6Linker.flush.2 :=
  (flush_drains_and_filters Scenario.s6Linker).2.2 (by decide!) (by decide!)
    Scenario.s6Candidate (by decide!) (by decide!)

end Linker

namespace Linker

/-! ## Frame lemmas: what `prepare` and `process` leave unchanged -/

@[simp] theorem prepare_queue (l : Linker) : l.prepare.queue = l.queue := by
  unfold prepare createPot; split <;> rfl

@[simp] theorem prepare_processors (l : Linker) : l.prepare.processors = l.processors := by
  unfold prepare createPot; split <;> rfl

@[simp] theorem prepare_thresAssociation (l : Linker) :
    l.prepare.thresAssociation = l.thresAssociation := by
  unfold prepare createPot; split <;> rfl

@[simp] theorem prepare_thresArrivalOffset (l : Linker) :
    l.prepare.thresArrivalOffset = l.thresArrivalOffset := by
  unfold prepare createPot; split <;> rfl

@[simp] theorem prepare_minArrivals (l : Linker) : l.prepare.minArrivals = l.minArrivals := by
  unfold prepare createPot; split <;> rfl

@[simp] theorem prepare_onHold (l : Linker) : l.prepare.onHold = l.onHold := by
  unfold prepare createPot; split <;> rfl

@[simp] theorem prepare_mergingStrategy (l : Linker) :
    l.prepare.mergingStrategy = l.mergingStrategy := by
  unfold prepare createPot; split <;> rfl

@[simp] theorem prepare_processorCount (l : Linker) :
    l.prepare.processorCount = l.processorCount := by
  simp [processorCount]

@[simp] theorem prepare_sweepReady (l : Linker) (now : Time) (c : Candidate) :
    l.prepare.sweepReady now c = l.sweepReady now c := by
  simp [sweepReady]

@[simp] theorem prepare_surpassesThreshold (l : Linker) (c : Candidate) :
    l.prepare.surpassesThreshold c = l.surpassesThreshold c := by
  simp [surpassesThreshold]

theorem process_of_empty (l : Linker) (now : Time) (proc : TemplateWaveformProcessor)
    (result : TemplateResult) (h : l.processorCount = 0) :
    l.process now proc result = (l, []) := by
  have : l.processors.entries = [] := List.length_eq_zero.1 h
  simp [process, this]

theorem process_of_pos (l : Linker) (now : Time) (proc : TemplateWaveformProcessor)
    (result : TemplateResult) (h : 0 < l.processorCount) :
    l.process now proc result =
      ({ l.prepare with queue := (l.prepare.sweepLoop now (l.sweepQueue now proc.id result)).2 },
        (l.prepare.sweepLoop now (l.sweepQueue now proc.id result)).1) := by
  have : l.processors.entries ≠ [] := fun h0 => by simp [processorCount, h0] at h
  simp [process, this]

/-- The queue after `process`, when a processor is registered. -/
theorem process_queue (l : Linker) (now : Time) (proc : TemplateWaveformProcessor)
    (result : TemplateResult) (h : 0 < l.processorCount) :
    (l.process now proc result).1.queue =
      (l.sweepQueue now proc.id result).filter
        (fun c => !l.sweepReady now c && !decide (now ≥ c.expired)) := by
  rw [process_of_pos l now proc result h]
  simp [sweepLoop_snd]

/-- The associations emitted by `process`, when a processor is registered. -/
theorem process_emitted (l : Linker) (now : Time) (proc : TemplateWaveformProcessor)
    (result : TemplateResult) (h : 0 < l.processorCount) :
    (l.process now proc result).2 =
      ((l.sweepQueue now proc.id result).filter
        (fun c => l.sweepReady now c && l.surpassesThreshold c)).map Candidate.association := by
  rw [process_of_pos l now proc result h]
  simp [sweepLoop_fst]

@[simp] theorem process_processors (l : Linker) (now : Time) (proc : TemplateWaveformProcessor)
    (result : TemplateResult) : (l.process now proc result).1.processors = l.processors := by
  unfold process; split <;> simp

@[simp] theorem process_thresAssociation (l : Linker) (now : Time)
    (proc : TemplateWaveformProcessor) (result : TemplateResult) :
    (l.process now proc result).1.thresAssociation = l.thresAssociation := by
  unfold process; split <;> simp

@[simp] theorem process_thresArrivalOffset (l : Linker) (now : Time)
    (proc : TemplateWaveformProcessor) (result : TemplateResult) :
    (l.process now proc result).1.thresArrivalOffset = l.thresArrivalOffset := by
  unfold process; split <;> simp

@[simp] theorem process_minArrivals (l : Linker) (now : Time) (proc : TemplateWaveformProcessor)
    (result : TemplateResult) : (l.process now proc result).1.minArrivals = l.minArrivals := by
  unfold process; split <;> simp

@[simp] theorem process_onHold (l : Linker) (now : Time) (proc : TemplateWaveformProcessor)
    (result : TemplateResult) : (l.process now proc result).1.onHold = l.onHold := by
  unfold process; split <;> simp

@[simp] theorem process_mergingStrategy (l : Linker) (now : Time)
    (proc : TemplateWaveformProcessor) (result : TemplateResult) :
    (l.process now proc result).1.mergingStrategy = l.mergingStrategy := by
  unfold process; split <;> simp

@[simp] theorem process_processorCount (l : Linker) (now : Time)
    (proc : TemplateWaveformProcessor) (result : TemplateResult) :
    (l.process now proc result).1.processorCount = l.processorCount := by
  simp [processorCount]

/-- Induction over the loop of `feed`: an invariant of the state that every `process`
call preserves, and a property of every association such a call emits, carry over to
the whole loop. -/
theorem feedLoop_induct (Inv : Linker → Prop) (Q : Association → Prop)
    (hstep : ∀ (l : Linker) (now : Time) (proc : TemplateWaveformProcessor)
      (result : TemplateResult), Inv l →
        Inv (l.process now proc result).1 ∧ ∀ a ∈ (l.process now proc result).2, Q a)
    (proc : TemplateWaveformProcessor) (linkerProc : Processor) (matchResult : MatchResult)
    (clock : Nat → Time) (i : Nat) (values : List LocalMaxima) (s : Linker × List Association)
    (hs : Inv s.1) (hq : ∀ a ∈ s.2, Q a) :
    Inv (feedLoop proc linkerProc matchResult clock i values s).1 ∧
      ∀ a ∈ (feedLoop proc linkerProc matchResult clock i values s).2, Q a := by
  induction values generalizing i s with
  | nil => exact ⟨hs, hq⟩
  | cons value rest ih =>
    simp only [feedLoop]
    split
    · exact ih (i + 1) s hs hq
    · have hp := hstep s.1 (clock i) proc (templateResultOf linkerProc matchResult value) hs
      refine ih (i + 1) _ hp.1 ?_
      intro a ha
      rcases List.mem_append.1 ha with h | h
      · exact hq a h
      · exact hp.2 a h

/-- The same induction for `feed`. -/
theorem feed_induct (Inv : Linker → Prop) (Q : Association → Prop)
    (hstep : ∀ (l : Linker) (now : Time) (proc : TemplateWaveformProcessor)
      (result : TemplateResult), Inv l →
        Inv (l.process now proc result).1 ∧ ∀ a ∈ (l.process now proc result).2, Q a)
    (l : Linker) (clock : Nat → Time) (proc : TemplateWaveformProcessor)
    (matchResult : MatchResult) (hl : Inv l) :
    Inv (l.feed clock proc matchResult).1 ∧ ∀ a ∈ (l.feed clock proc matchResult).2, Q a := by
  unfold feed
  split
  · exact ⟨hl, by simp⟩
  · exact feedLoop_induct Inv Q hstep proc _ matchResult clock 0 _ (l, []) hl (by simp)

end Linker

namespace Linker

/-- Every association emitted by `process` belongs to a candidate of the queue the
sweep runs over, and that candidate is ready and passes the threshold test. -/
theorem mem_process_emitted (l : Linker) (now : Time) (proc : TemplateWaveformProcessor)
    (result : TemplateResult) (a : Association) (ha : a ∈ (l.process now proc result).2) :
    ∃ c ∈ l.sweepQueue now proc.id result,
      c.association = a ∧ l.sweepReady now c = true ∧ l.surpassesThreshold c = true := by
  rcases Nat.eq_zero_or_pos l.processorCount with h | h
  · rw [process_of_empty l now proc result h] at ha
    simp at ha
  · rw [process_emitted l now proc result h] at ha
    obtain ⟨c, hc, rfl⟩ := List.mem_map.1 ha
    have hc2 := List.mem_filter.1 hc
    simp only [Bool.and_eq_true] at hc2
    exact ⟨c, hc2.1, rfl, hc2.2.1, hc2.2.2⟩

theorem surpassesThreshold_some (l : Linker) (thres : ℚ) (h : l.thresAssociation = some thres)
    (c : Candidate) : l.surpassesThreshold c = true ↔ thres ≤ c.association.score := by
  simp [surpassesThreshold, h]

/-- Claim C7. With the association threshold set to `thres`, every association
emitted by `feed` or by `flush` has a score of at least `thres`; and a candidate that
the sweep of `process` finds complete, or expired with enough arrivals, but with a
score below `thres`, is removed from the queue and is not emitted. -/
theorem association_threshold_bounds_emission (l : Linker) (thres : ℚ)
    (h : l.thresAssociation = some thres) :
    (∀ (clock : Nat → Time) (proc : TemplateWaveformProcessor) (matchResult : MatchResult),
      ∀ a ∈ (l.feed clock proc matchResult).2, thres ≤ a.score) ∧
    (∀ a ∈ l.flush.2, thres ≤ a.score) ∧
    (∀ (now : Time) (proc : TemplateWaveformProcessor) (result : TemplateResult),
      0 < l.processorCount →
      ∀ c ∈ l.sweepQueue now proc.id result,
        (c.association.results.entries.length = l.processorCount ∨
          (c.expired ≤ now ∧
            l.minArrivals.getD l.processorCount ≤ c.association.results.entries.length)) →
        c.association.score < thres →
        c ∉ (l.process now proc result).1.queue ∧
          c.association ∉ (l.process now proc result).2) := by
  refine ⟨?_, ?_, ?_⟩
  · intro clock proc matchResult
    refine (feed_induct (fun s => s.thresAssociation = some thres) (fun a => thres ≤ a.score)
      ?_ l clock proc matchResult h).2
    intro s now p result hs
    refine ⟨by simpa using hs, ?_⟩
    intro a ha
    obtain ⟨c, _, rfl, _, hthr⟩ := mem_process_emitted s now p result a ha
    exact (surpassesThreshold_some s thres hs c).1 hthr
  · intro a ha
    have hfl : l.flush.2 = (l.queue.filter l.flushEmits).map Candidate.association := by
      simp [flush, flushLoop_eq]
    rw [hfl] at ha
    obtain ⟨c, hc, rfl⟩ := List.mem_map.1 ha
    have hc2 := (List.mem_filter.1 hc).2
    simp only [flushEmits, h, Bool.and_eq_true, decide_eq_true_eq] at hc2
    exact hc2.2
  · intro now proc result hpos c _ hready hlt
    constructor
    · rw [process_queue l now proc result hpos]
      intro hmem
      have hc2 := (List.mem_filter.1 hmem).2
      simp only [Bool.and_eq_true, Bool.not_eq_true', decide_eq_false_iff_not] at hc2
      have hr : l.sweepReady now c = true := by
        simp only [sweepReady, Candidate.associatedProcessorCount, Association.processorCount,
          Bool.or_eq_true, beq_iff_eq, Bool.and_eq_true, decide_eq_true_eq]
        exact hready
      rw [hr] at hc2
      exact absurd hc2.1 (by simp)
    · intro hmem
      obtain ⟨d, _, hd, _, hthr⟩ := mem_process_emitted l now proc result _ hmem
      have := (surpassesThreshold_some l thres h d).1 hthr
      rw [hd] at this
      exact absurd hlt (not_lt.2 this)

end Linker

namespace Linker

/-- With the threshold at 0.7, the complete candidate of score 0.675 is removed by
the sweep and is not emitted. -/
theorem association_threshold_bounds_emission_witness :
    Scenario.lowScoreCandidate ∉
        (Scenario.lowScoreLinker.process 200 Scenario.procB (Scenario.resultB 7 (3 / 4))).1.queue ∧
      Scenario.lowScoreCandidate.association ∉
        (Scenario.lowScoreLinker.process 200 Scenario.procB (Scenario.resultB 7 (3 / 4))).2 :=
  (association_threshold_bounds_emission Scenario.lowScoreLinker (7 / 10) (by decide!)).2.2
    200 Scenario.procB (Scenario.resultB 7 (3 / 4)) (by decide!) Scenario.lowScoreCandidate
    (by decide!) (Or.inl (by decide!)) (by decide!)

end Linker

/-! ## The cumulative moving average is the arithmetic mean -/

theorem cmaLoop_eq (xs : List ℚ) :
    ∀ (c : ℚ) (i : Nat), (i = 0 → c = 0) →
      cmaLoop c i xs = (c * i + xs.sum) / ((i : ℚ) + xs.length) := by
  induction xs with
  | nil =>
    intro c i h
    rcases Nat.eq_zero_or_pos i with hi | hi
    · simp [cmaLoop, h hi, hi]
    · have : (i : ℚ) ≠ 0 := by exact_mod_cast hi.ne'
      simp [cmaLoop]
      field_simp
  | cons x xs ih =>
    intro c i _
    have hi : ((i : ℚ) + 1) ≠ 0 := by positivity
    rw [cmaLoop, ih _ (i + 1) (by simp)]
    have h1 : (c + (x - c) / ((i : ℚ) + 1)) * ((i + 1 : Nat) : ℚ) = c * i + x := by
      push_cast
      field_simp
      ring
    rw [h1]
    simp only [List.sum_cons, List.length_cons]
    push_cast
    congr 1 <;> ring

theorem cma_eq_mean (xs : List ℚ) : cma xs = mean xs := by
  simp [cma, mean, cmaLoop_eq xs 0 0 (fun _ => rfl)]

namespace Linker

/-! ## Induction over sequences of calls -/

theorem run_induct (Allowed : Op → Prop) (Inv : Linker → Prop) (Q : Association → Prop)
    (hstep : ∀ (l : Linker) (op : Op), Allowed op → Inv l →
      Inv (l.step op).1 ∧ ∀ a ∈ (l.step op).2, Q a) :
    ∀ (ops : List Op) (l : Linker), (∀ op ∈ ops, Allowed op) → Inv l →
      Inv (l.run ops).1 ∧ ∀ a ∈ (l.run ops).2, Q a := by
  intro ops
  induction ops with
  | nil => intro l _ hl; exact ⟨hl, by simp [run]⟩
  | cons op ops ih =>
    intro l hall hl
    have h1 := hstep l op (hall op (List.mem_cons_self _ _)) hl
    have h2 := ih (l.step op).1 (fun o ho => hall o (List.mem_cons_of_mem _ ho)) h1.1
    refine ⟨h2.1, ?_⟩
    intro a ha
    simp only [run] at ha
    rcases List.mem_append.1 ha with h | h
    · exact h1.2 a h
    · exact h2.2 a h

end Linker

namespace Linker

/-! ## Properties of candidates carried through `process`, `feed` and `flush` -/

theorem sweepQueue_forall (l : Linker) (now : Time) (procId : ProcessorIdType)
    (result : TemplateResult) (P : Candidate → Prop)
    (hmerge : ∀ c ∈ l.queue, P c → P (l.prepare.mergeCandidate procId result c))
    (hseed : P (l.seed now procId result)) (hq : ∀ c ∈ l.queue, P c) :
    ∀ c ∈ l.sweepQueue now procId result, P c := by
  intro c hc
  simp only [sweepQueue, prepare_queue, List.mem_append, List.mem_map, List.mem_singleton] at hc
  rcases hc with ⟨d, hd, rfl⟩ | rfl
  · exact hmerge d hd (hq d hd)
  · exact hseed

theorem process_forall (l : Linker) (now : Time) (proc : TemplateWaveformProcessor)
    (result : TemplateResult) (P : Candidate → Prop)
    (hmerge : ∀ c ∈ l.queue, P c → P (l.prepare.mergeCandidate proc.id result c))
    (hseed : P (l.seed now proc.id result)) (hq : ∀ c ∈ l.queue, P c) :
    (∀ c ∈ (l.process now proc result).1.queue, P c) ∧
      ∀ a ∈ (l.process now proc result).2, ∃ c, P c ∧ c.association = a := by
  have hsq := sweepQueue_forall l now proc.id result P hmerge hseed hq
  constructor
  · rcases Nat.eq_zero_or_pos l.processorCount with h | h
    · rw [process_of_empty l now proc result h]; exact hq
    · rw [process_queue l now proc result h]
      intro c hc
      exact hsq c (List.mem_filter.1 hc).1
  · intro a ha
    obtain ⟨c, hc, hca, _⟩ := mem_process_emitted l now proc result a ha
    exact ⟨c, hsq c hc, hca⟩

theorem flush_queue (l : Linker) : l.flush.1.queue = [] := by
  simp [flush, flushLoop_eq]

theorem flush_emitted (l : Linker) :
    l.flush.2 = (l.queue.filter l.flushEmits).map Candidate.association := by
  simp [flush, flushLoop_eq]

theorem mem_flush_emitted (l : Linker) (a : Association) (ha : a ∈ l.flush.2) :
    ∃ c ∈ l.queue, c.association = a ∧ l.flushEmits c = true := by
  rw [flush_emitted] at ha
  obtain ⟨c, hc, rfl⟩ := List.mem_map.1 ha
  exact ⟨c, (List.mem_filter.1 hc).1, rfl, (List.mem_filter.1 hc).2⟩

/-! ## The score is the mean of the member coefficients -/

theorem feed_score (c : Candidate) (procId : ProcessorIdType) (res : TemplateResult) :
    (c.feed procId res).association.score = mean (c.feed procId res).association.coefficients := by
  simp [Candidate.feed, Association.coefficients, cma_eq_mean]

/-- The merge loop either leaves a candidate as it is or feeds it the result. -/
theorem mergeCandidate_cases (l : Linker) (procId : ProcessorIdType) (result : TemplateResult)
    (c : Candidate) :
    l.mergeCandidate procId result c = c ∨
      l.mergeCandidate procId result c = c.feed procId result := by
  unfold mergeCandidate
  dsimp only
  split_ifs
  · cases l.thresArrivalOffset with
    | none => exact Or.inr rfl
    | some thres =>
      dsimp only
      split_ifs
      · exact Or.inl rfl
      · exact Or.inr rfl
  · exact Or.inl rfl
  · exact Or.inl rfl

theorem mergeCandidate_score (l : Linker) (procId : ProcessorIdType) (result : TemplateResult)
    (c : Candidate) (h : c.association.score = mean c.association.coefficients) :
    (l.mergeCandidate procId result c).association.score =
      mean (l.mergeCandidate procId result c).association.coefficients := by
  rcases mergeCandidate_cases l procId result c with h1 | h1 <;> rw [h1]
  · exact h
  · exact feed_score c procId result

theorem step_score (l : Linker) (op : Op)
    (h : ∀ c ∈ l.queue, c.association.score = mean c.association.coefficients) :
    (∀ c ∈ (l.step op).1.queue, c.association.score = mean c.association.coefficients) ∧
      ∀ a ∈ (l.step op).2, a.score = mean a.coefficients := by
  cases op with
  | setThresArrivalOffset thres => exact ⟨h, by simp [step]⟩
  | setThresAssociation thres => exact ⟨h, by simp [step]⟩
  | setMinArrivals n => exact ⟨h, by simp [step]⟩
  | setOnHold duration => exact ⟨h, by simp [step]⟩
  | setMergingStrategy mergingStrategy => exact ⟨h, by simp [step]⟩
  | add proc arrival mergingThreshold =>
    refine ⟨?_, by simp [step]⟩
    cases proc <;> exact h
  | remove procId => exact ⟨h, by simp [step]⟩
  | reset => exact ⟨by simp [step, reset], by simp [step]⟩
  | flush =>
    refine ⟨by simp [step, flush_queue], ?_⟩
    intro a ha
    obtain ⟨c, hc, rfl, _⟩ := mem_flush_emitted l a ha
    exact h c hc
  | feed clock proc matchResult =>
    refine feed_induct (fun s => ∀ c ∈ s.queue, c.association.score = mean c.association.coefficients)
      (fun a => a.score = mean a.coefficients) ?_ l clock proc matchResult h
    intro s now p result hs
    have hp := process_forall s now p result
      (fun c => c.association.score = mean c.association.coefficients)
      (fun c _ hc => mergeCandidate_score _ _ _ c hc) (feed_score _ _ _) hs
    refine ⟨hp.1, ?_⟩
    intro a ha
    obtain ⟨c, hc, rfl⟩ := hp.2 a ha
    exact hc

/-- Claim C5. In every state reached from a fresh linker by any sequence of calls,
every queued candidate has a score equal to the arithmetic mean of the coefficients
of its member results, and so has every association emitted on the way; for a
candidate with a single member the score is that member's coefficient. -/
theorem score_is_mean_of_coefficients (onHold arrivalOffsetThres : TimeSpan) (ops : List Op) :
    (∀ c ∈ ((create onHold arrivalOffsetThres).run ops).1.queue,
      c.association.score = mean c.association.coefficients) ∧
    (∀ a ∈ ((create onHold arrivalOffsetThres).run ops).2, a.score = mean a.coefficients) ∧
    (∀ c ∈ ((create onHold arrivalOffsetThres).run ops).1.queue,
      ∀ (procId : ProcessorIdType) (res : TemplateResult),
        c.association.results.entries = [⟨procId, res⟩] →
          c.association.score = res.resultIt.coefficient) := by
  have h := run_induct (fun _ => True)
    (fun s => ∀ c ∈ s.queue, c.association.score = mean c.association.coefficients)
    (fun a => a.score = mean a.coefficients) (fun l op _ hl => step_score l op hl) ops
    (create onHold arrivalOffsetThres) (fun _ _ => trivial) (by simp [create])
  refine ⟨h.1, h.2, ?_⟩
  intro c hc procId res hres
  rw [h.1 c hc]
  simp [Association.coefficients, hres, mean]

end Linker

/-! ## `emplace` never overwrites -/

theorem emplace_of_lookup_some {β : Type} (k : ProcessorIdType) (v v0 : β)
    (m : AList (fun _ : ProcessorIdType => β)) (h : m.lookup k = some v0) :
    emplace k v m = m := by
  simp [emplace, h]

theorem emplace_of_lookup_none {β : Type} (k : ProcessorIdType) (v : β)
    (m : AList (fun _ : ProcessorIdType => β)) (h : m.lookup k = none) :
    emplace k v m = m.insert k v := by
  simp [emplace, h]

theorem emplace_entries_of_lookup_none {β : Type} (k : ProcessorIdType) (v : β)
    (m : AList (fun _ : ProcessorIdType => β)) (h : m.lookup k = none) :
    (emplace k v m).entries = ⟨k, v⟩ :: m.entries := by
  rw [emplace_of_lookup_none k v m h]
  exact AList.insert_entries_of_neg (AList.lookup_eq_none.1 h)

theorem lookup_emplace_of_lookup_some {β : Type} (k p : ProcessorIdType) (v r : β)
    (m : AList (fun _ : ProcessorIdType => β)) (h : m.lookup p = some r) :
    (emplace k v m).lookup p = some r := by
  cases hk : m.lookup k with
  | some v0 => rw [emplace_of_lookup_some k v v0 m hk]; exact h
  | none =>
    rw [emplace_of_lookup_none k v m hk]
    have hne : p ≠ k := by
      intro hpk
      rw [hpk, hk] at h
      exact Option.noConfusion h
    rw [AList.lookup_insert_ne hne]
    exact h

theorem lookup_emplace_self {β : Type} (k : ProcessorIdType) (v : β)
    (m : AList (fun _ : ProcessorIdType => β)) :
    (emplace k v m).lookup k = some ((m.lookup k).getD v) := by
  cases hk : m.lookup k with
  | some v0 => rw [emplace_of_lookup_some k v v0 m hk]; simpa using hk
  | none => rw [emplace_of_lookup_none k v m hk]; simp

theorem lookup_emplace_ne {β : Type} (k p : ProcessorIdType) (v : β)
    (m : AList (fun _ : ProcessorIdType => β)) (h : p ≠ k) :
    (emplace k v m).lookup p = m.lookup p := by
  cases hk : m.lookup k with
  | some v0 => rw [emplace_of_lookup_some k v v0 m hk]
  | none => rw [emplace_of_lookup_none k v m hk, AList.lookup_insert_ne h]

theorem length_emplace {β : Type} (k : ProcessorIdType) (v : β)
    (m : AList (fun _ : ProcessorIdType => β)) :
    (emplace k v m).entries.length =
      if (m.lookup k).isSome then m.entries.length else m.entries.length + 1 := by
  cases hk : m.lookup k with
  | some v0 => rw [emplace_of_lookup_some k v v0 m hk]; simp
  | none => rw [emplace_entries_of_lookup_none k v m hk]; simp

namespace Candidate

theorem evolves_refl (c : Candidate) : c.Evolves c :=
  ⟨rfl, fun _ _ h => h⟩

theorem evolves_trans {a b c : Candidate} (h1 : a.Evolves b) (h2 : b.Evolves c) : a.Evolves c :=
  ⟨h2.1.trans h1.1, fun p r h => h2.2 p r (h1.2 p r h)⟩

theorem evolves_feed (c : Candidate) (procId : ProcessorIdType) (res : TemplateResult) :
    c.Evolves (c.feed procId res) :=
  ⟨rfl, fun p r h => lookup_emplace_of_lookup_some procId p res r _ h⟩

end Candidate

namespace Linker

theorem evolves_mergeCandidate (l : Linker) (procId : ProcessorIdType) (result : TemplateResult)
    (c : Candidate) : c.Evolves (l.mergeCandidate procId result c) := by
  rcases mergeCandidate_cases l procId result c with h | h <;> rw [h]
  · exact Candidate.evolves_refl c
  · exact Candidate.evolves_feed c procId result

end Linker

namespace Candidate

/-! ## Tracking candidates through a call -/

theorem forall₂_append_left_split {R : Candidate → Candidate → Prop} :
    ∀ (l1 l2 m : List Candidate), List.Forall₂ R (l1 ++ l2) m →
      ∃ m1 m2, m = m1 ++ m2 ∧ List.Forall₂ R l1 m1 ∧ List.Forall₂ R l2 m2 := by
  intro l1
  induction l1 with
  | nil => intro l2 m h; exact ⟨[], m, rfl, List.Forall₂.nil, h⟩
  | cons a l1 ih =>
    intro l2 m h
    rw [List.cons_append] at h
    obtain ⟨b, m', hab, hrest, rfl⟩ := List.forall₂_cons_left_iff.1 h
    obtain ⟨m1, m2, rfl, h1, h2⟩ := ih l2 m' hrest
    exact ⟨b :: m1, m2, rfl, List.Forall₂.cons hab h1, h2⟩

theorem forall₂_sublist_right {R : Candidate → Candidate → Prop} {a b : List Candidate}
    (h : List.Forall₂ R a b) :
    ∀ {b1 : List Candidate}, b1.Sublist b → ∃ a1, a1.Sublist a ∧ List.Forall₂ R a1 b1 := by
  induction h with
  | nil =>
    intro b1 hs
    rw [List.sublist_nil.1 hs]
    exact ⟨[], List.Sublist.refl _, List.Forall₂.nil⟩
  | @cons x y xs ys hxy _ ih =>
    intro b1 hs
    cases hs with
    | cons _ hs1 =>
      obtain ⟨a1, ha1, hf⟩ := ih hs1
      exact ⟨a1, List.Sublist.cons _ ha1, hf⟩
    | cons₂ _ hs1 =>
      obtain ⟨a1, ha1, hf⟩ := ih hs1
      exact ⟨x :: a1, List.Sublist.cons₂ _ ha1, List.Forall₂.cons hxy hf⟩

theorem forall₂_evolves_trans {a b : List Candidate} (h : List.Forall₂ Evolves a b) :
    ∀ {c : List Candidate}, List.Forall₂ Evolves b c → List.Forall₂ Evolves a c := by
  induction h with
  | nil => intro c hc; rw [List.forall₂_nil_left_iff.1 hc]; exact List.Forall₂.nil
  | @cons x y xs ys hxy _ ih =>
    intro c hc
    obtain ⟨z, zs, hyz, hrest, rfl⟩ := List.forall₂_cons_left_iff.1 hc
    exact List.Forall₂.cons (evolves_trans hxy hyz) (ih hrest)

theorem forall₂_evolves_mem {a b : List Candidate} (h : List.Forall₂ Evolves a b) :
    ∀ y ∈ b, ∃ x ∈ a, x.Evolves y := by
  induction h with
  | nil => intro y hy; simp at hy
  | @cons x y xs ys hxy _ ih =>
    intro z hz
    rcases List.mem_cons.1 hz with rfl | hz
    · exact ⟨x, List.mem_cons_self _ _, hxy⟩
    · obtain ⟨w, hw, hwz⟩ := ih z hz
      exact ⟨w, List.mem_cons_of_mem _ hw, hwz⟩

theorem tracks_refl (isSeed : Candidate → Prop) (q : List Candidate) : Tracks isSeed q q :=
  ⟨q, q, [], List.Sublist.refl q, List.forall₂_same.2 (fun c _ => evolves_refl c), by simp,
    by simp⟩

theorem tracks_mono {isSeed isSeed2 : Candidate → Prop} {q q2 : List Candidate}
    (h : Tracks isSeed q q2) (himp : ∀ s, isSeed s → isSeed2 s) : Tracks isSeed2 q q2 := by
  obtain ⟨kept, evolved, seeds, h1, h2, h3, h4⟩ := h
  exact ⟨kept, evolved, seeds, h1, h2, h3, fun s hs => himp s (h4 s hs)⟩

theorem tracks_trans {isSeed : Candidate → Prop}
    (hclosed : ∀ s t : Candidate, isSeed s → s.Evolves t → isSeed t)
    {q q2 q3 : List Candidate} (h12 : Tracks isSeed q q2) (h23 : Tracks isSeed q2 q3) :
    Tracks isSeed q q3 := by
  obtain ⟨kept, evolved, seeds, hk, hev, rfl, hseeds⟩ := h12
  obtain ⟨kept2, evolved2, seeds2, hk2, hev2, rfl, hseeds2⟩ := h23
  obtain ⟨k1, k2, rfl, hk1, hk2s⟩ := List.sublist_append_iff.1 hk2
  obtain ⟨e1, e2, rfl, he1, he2⟩ := forall₂_append_left_split k1 k2 evolved2 hev2
  obtain ⟨k0, hk0, hk0e⟩ := forall₂_sublist_right hev hk1
  refine ⟨k0, e1, e2 ++ seeds2, hk0.trans hk, forall₂_evolves_trans hk0e he1, by simp, ?_⟩
  intro s hs
  rcases List.mem_append.1 hs with h | h
  · obtain ⟨x, hx, hxs⟩ := forall₂_evolves_mem he2 s h
    exact hclosed x s (hseeds x (hk2s.subset hx)) hxs
  · exact hseeds2 s h

end Candidate

namespace Linker

/-- One `process` call: the candidates that stay have evolved in place, and the only
candidate that may be new is the seed of the call. -/
theorem process_tracks (l : Linker) (now : Time) (proc : TemplateWaveformProcessor)
    (result : TemplateResult) :
    Candidate.Tracks (fun s => s = l.seed now proc.id result) l.queue
      (l.process now proc result).1.queue := by
  rcases Nat.eq_zero_or_pos l.processorCount with h | h
  · rw [process_of_empty l now proc result h]
    exact Candidate.tracks_refl _ _
  · rw [process_queue l now proc result h]
    simp only [sweepQueue, prepare_queue, List.filter_append, List.filter_map]
    refine ⟨l.queue.filter ((fun c => !l.sweepReady now c && !decide (now ≥ c.expired)) ∘
        l.prepare.mergeCandidate proc.id result), _, _, List.filter_sublist _, ?_, rfl, ?_⟩
    · rw [List.forall₂_map_right_iff]
      exact List.forall₂_same.2 (fun c _ => evolves_mergeCandidate _ _ _ c)
    · intro s hs
      exact List.mem_singleton.1 (List.mem_of_mem_filter hs)

/-- The seeds of a `feed` call: candidates that evolved from the new candidate of one
of the local maxima of the match result. -/
theorem feedLoop_tracks (onHold : TimeSpan) (proc : TemplateWaveformProcessor)
    (linkerProc : Processor) (matchResult : MatchResult) (clock : Nat → Time)
    (isSeed : Candidate → Prop)
    (hclosed : ∀ s t : Candidate, isSeed s → s.Evolves t → isSeed t) :
    ∀ (values : List LocalMaxima) (i : Nat) (s : Linker × List Association) (q : List Candidate),
      s.1.onHold = onHold →
      (∀ value ∈ values, ∀ (now : Time),
        isSeed ((Candidate.create (now + onHold)).feed proc.id
          (templateResultOf linkerProc matchResult value))) →
      Candidate.Tracks isSeed q s.1.queue →
      Candidate.Tracks isSeed q (feedLoop proc linkerProc matchResult clock i values s).1.queue := by
  intro values
  induction values with
  | nil => intro i s q _ _ h; exact h
  | cons value rest ih =>
    intro i s q hon hseed h
    simp only [feedLoop]
    split
    · exact ih (i + 1) s q hon (fun v hv => hseed v (List.mem_cons_of_mem _ hv)) h
    · refine ih (i + 1) _ q (by simpa using hon)
        (fun v hv => hseed v (List.mem_cons_of_mem _ hv)) ?_
      refine Candidate.tracks_trans hclosed h ?_
      refine Candidate.tracks_mono (process_tracks s.1 (clock i) proc _) ?_
      intro c hc
      rw [hc, seed, hon]
      exact hseed value (List.mem_cons_self _ _) (clock i)

end Linker

namespace Linker

theorem feed_tracks (l : Linker) (clock : Nat → Time) (proc : TemplateWaveformProcessor)
    (matchResult : MatchResult) :
    Candidate.Tracks
      (fun s => ∃ value ∈ matchResult.localMaxima, ∃ (now : Time) (linkerProc : Processor),
        l.processors.lookup proc.id = some linkerProc ∧
          (l.seed now proc.id (templateResultOf linkerProc matchResult value)).Evolves s)
      l.queue (l.feed clock proc matchResult).1.queue := by
  unfold feed
  cases hp : l.processors.lookup proc.id with
  | none => exact Candidate.tracks_refl _ _
  | some linkerProc =>
    refine feedLoop_tracks l.onHold proc linkerProc matchResult clock _ ?_ _ 0 (l, []) l.queue rfl
      ?_ (Candidate.tracks_refl _ _)
    · rintro s t ⟨value, hv, now, lp, hlp, hev⟩ hst
      exact ⟨value, hv, now, lp, hlp, Candidate.evolves_trans hev hst⟩
    · intro value hv now
      exact ⟨value, hv, now, linkerProc, rfl, Candidate.evolves_refl _⟩

/-! ## The fate of a queued candidate across `process` and `feed` -/

theorem filterMap_track (merge : Candidate → Candidate) (erased : Candidate → Bool)
    (q : List Candidate) :
    q.filterMap (fun c => if erased (merge c) then none else some (merge c)) =
      (q.map merge).filter (fun c => !erased c) := by
  induction q with
  | nil => rfl
  | cons c rest ih =>
    by_cases h : erased (merge c) = true
    · simp [List.filterMap_cons, h, ih]
    · simp [List.filterMap_cons, h, ih]

/-- The queue after `process`: the old candidates that are not erased, each as
`processTrack` gives it, in their order, then what the call has appended. -/
theorem process_queue_track (l : Linker) (now : Time) (proc : TemplateWaveformProcessor)
    (result : TemplateResult) :
    (l.process now proc result).1.queue =
      l.queue.filterMap (l.processTrack now proc result) ++
        l.processAppended now proc result := by
  rcases Nat.eq_zero_or_pos l.processorCount with h | h
  · have he : l.processors.entries = [] := List.length_eq_zero.1 h
    rw [process_of_empty l now proc result h]
    have : l.processTrack now proc result = some := by
      funext c
      simp [processTrack, he]
    simp [this, processAppended, he]
  · have he : l.processors.entries.isEmpty = false := by
      cases hq : l.processors.entries with
      | nil => simp [processorCount, hq] at h
      | cons _ _ => rfl
    rw [process_queue l now proc result h]
    have ht : l.processTrack now proc result =
        fun c => if (l.sweepReady now (l.prepare.mergeCandidate proc.id result c) ||
            decide (now ≥ (l.prepare.mergeCandidate proc.id result c).expired)) then none
          else some (l.prepare.mergeCandidate proc.id result c) := by
      funext c
      simp only [processTrack, he, prepare_sweepReady]
      by_cases h1 : l.sweepReady now (l.prepare.mergeCandidate proc.id result c) = true
      · simp [h1]
      · by_cases h2 : now ≥ (l.prepare.mergeCandidate proc.id result c).expired
        · simp [h1, h2]
        · simp [h1, h2]
    rw [ht, filterMap_track (l.prepare.mergeCandidate proc.id result)
      (fun c => l.sweepReady now c || decide (now ≥ c.expired))]
    simp only [sweepQueue, prepare_queue, List.filter_append]
    congr 1
    · congr 1
      funext c
      simp
    · simp only [processAppended, he, prepare_sweepReady]
      by_cases h1 : l.sweepReady now (l.seed now proc.id result) = true
      · simp [h1]
      · by_cases h2 : now ≥ (l.seed now proc.id result).expired
        · simp [h1, h2]
        · simp [h1, h2]

theorem evolves_processTrack (l : Linker) (now : Time) (proc : TemplateWaveformProcessor)
    (result : TemplateResult) (c c2 : Candidate)
    (h : l.processTrack now proc result c = some c2) : c.Evolves c2 := by
  unfold processTrack at h
  split at h
  · cases h
    exact Candidate.evolves_refl c
  · dsimp only at h
    split at h
    · cases h
    · split at h
      · cases h
      · cases h
        exact evolves_mergeCandidate _ _ _ c

theorem feedLoop_queue_track (proc : TemplateWaveformProcessor) (linkerProc : Processor)
    (matchResult : MatchResult) (clock : Nat → Time) :
    ∀ (values : List LocalMaxima) (i : Nat) (s : Linker × List Association),
      (feedLoop proc linkerProc matchResult clock i values s).1.queue =
        s.1.queue.filterMap (feedLoopTrack proc linkerProc matchResult clock i values s.1) ++
          feedLoopAppended proc linkerProc matchResult clock i values s.1 := by
  intro values
  induction values with
  | nil =>
    intro i s
    have : feedLoopTrack proc linkerProc matchResult clock i [] s.1 = some := by
      funext c
      rfl
    simp [feedLoop, feedLoopAppended, this]
  | cons value rest ih =>
    intro i s
    simp only [feedLoop]
    by_cases hd : s.1.dropped linkerProc (templateResultOf linkerProc matchResult value) = true
    · have ht : feedLoopTrack proc linkerProc matchResult clock i (value :: rest) s.1 =
          feedLoopTrack proc linkerProc matchResult clock (i + 1) rest s.1 := by
        funext c
        simp [feedLoopTrack, hd]
      rw [if_pos hd, ih (i + 1) s, ht]
      simp [feedLoopAppended, hd]
    · have ht : feedLoopTrack proc linkerProc matchResult clock i (value :: rest) s.1 =
          fun c => (s.1.processTrack (clock i) proc
              (templateResultOf linkerProc matchResult value) c).bind
            (feedLoopTrack proc linkerProc matchResult clock (i + 1) rest
              (s.1.process (clock i) proc (templateResultOf linkerProc matchResult value)).1) := by
        funext c
        simp [feedLoopTrack, hd]
      rw [if_neg hd, ih (i + 1) _, ht]
      simp only [process_queue_track, List.filterMap_append, List.filterMap_filterMap]
      simp [feedLoopAppended, hd, List.append_assoc]

theorem evolves_feedLoopTrack (proc : TemplateWaveformProcessor) (linkerProc : Processor)
    (matchResult : MatchResult) (clock : Nat → Time) :
    ∀ (values : List LocalMaxima) (i : Nat) (s : Linker) (c c2 : Candidate),
      feedLoopTrack proc linkerProc matchResult clock i values s c = some c2 → c.Evolves c2 := by
  intro values
  induction values with
  | nil =>
    intro i s c c2 h
    cases h
    exact Candidate.evolves_refl c
  | cons value rest ih =>
    intro i s c c2 h
    simp only [feedLoopTrack] at h
    split at h
    · exact ih (i + 1) s c c2 h
    · obtain ⟨c1, h1, h2⟩ := Option.bind_eq_some.1 h
      exact Candidate.evolves_trans (evolves_processTrack s (clock i) proc _ c c1 h1)
        (ih (i + 1) _ c1 c2 h2)

/-- The queue after `feed`: the old candidates that are not erased, each as `feedTrack`
gives it, in their order, then what the call has appended. -/
theorem feed_queue_track (l : Linker) (clock : Nat → Time) (proc : TemplateWaveformProcessor)
    (matchResult : MatchResult) :
    (l.feed clock proc matchResult).1.queue =
      l.queue.filterMap (l.feedTrack clock proc matchResult) ++
        l.feedAppended clock proc matchResult := by
  unfold feed feedTrack feedAppended
  cases hp : l.processors.lookup proc.id with
  | none => simp
  | some linkerProc =>
    exact feedLoop_queue_track proc linkerProc matchResult clock matchResult.localMaxima 0 (l, [])

theorem evolves_feedTrack (l : Linker) (clock : Nat → Time) (proc : TemplateWaveformProcessor)
    (matchResult : MatchResult) (c c2 : Candidate)
    (h : l.feedTrack clock proc matchResult c = some c2) : c.Evolves c2 := by
  unfold feedTrack at h
  cases hp : l.processors.lookup proc.id with
  | none =>
    rw [hp] at h
    cases h
    exact Candidate.evolves_refl c
  | some linkerProc =>
    rw [hp] at h
    exact evolves_feedLoopTrack proc linkerProc matchResult clock _ 0 l c c2 h

theorem mergeCandidate_of_le (t : Linker) (procId : ProcessorIdType) (result : TemplateResult)
    (c : Candidate) (stored : TemplateResult)
    (hs : c.association.results.lookup procId = some stored)
    (hle : result.resultIt.coefficient ≤ stored.resultIt.coefficient) :
    t.mergeCandidate procId result c = c := by
  unfold mergeCandidate
  have : ¬ result.resultIt.coefficient > stored.resultIt.coefficient := not_lt.2 hle
  simp [hs, this]

theorem monotone_of_evolves (c c2 : Candidate) (hev : c.Evolves c2) :
    (∀ procId, procId ∈ c.association.results.keys → procId ∈ c2.association.results.keys) ∧
    (∀ procId res res2, c.association.results.lookup procId = some res →
      c2.association.results.lookup procId = some res2 →
        res.resultIt.coefficient ≤ res2.resultIt.coefficient) ∧
    (∀ procId res, c.association.results.lookup procId = some res →
      c2.association.results.lookup procId = some res) ∧
    c2.expired = c.expired := by
  refine ⟨?_, ?_, hev.2, hev.1⟩
  · intro procId hmem
    have hmem2 : procId ∈ c.association.results := AList.mem_keys.2 hmem
    obtain ⟨res, hres⟩ := Option.isSome_iff_exists.1 (AList.lookup_isSome.2 hmem2)
    exact AList.mem_keys.1 (AList.lookup_isSome.1 (by rw [hev.2 procId res hres]; rfl))
  · intro procId res res2 hres hres2
    rw [hev.2 procId res hres] at hres2
    rw [Option.some.inj hres2]

/-- Claim C4. The queue after a `feed` call is made of the candidates of the queue
before the call that the call does not erase, in their order and each in the state
`feedTrack` gives, followed by the candidates the call has appended. For every candidate
that stays, the processors present after the call include those present before, the
coefficient stored for a processor present before is not lower after, the stored result
itself is unchanged and so is the expiry time. A result whose coefficient is equal to
(or lower than) the coefficient stored for its processor leaves the candidate as it is
in the merge loop. -/
theorem queue_monotone (l : Linker) (clock : Nat → Time) (proc : TemplateWaveformProcessor)
    (matchResult : MatchResult) :
    (l.feed clock proc matchResult).1.queue =
      l.queue.filterMap (l.feedTrack clock proc matchResult) ++
        l.feedAppended clock proc matchResult ∧
    (∀ c c2 : Candidate, l.feedTrack clock proc matchResult c = some c2 →
      (∀ procId, procId ∈ c.association.results.keys → procId ∈ c2.association.results.keys) ∧
      (∀ procId res res2, c.association.results.lookup procId = some res →
        c2.association.results.lookup procId = some res2 →
          res.resultIt.coefficient ≤ res2.resultIt.coefficient) ∧
      (∀ procId res, c.association.results.lookup procId = some res →
        c2.association.results.lookup procId = some res) ∧
      c2.expired = c.expired) ∧
    (∀ (t : Linker) (result : TemplateResult) (c : Candidate) (stored : TemplateResult),
      c.association.results.lookup proc.id = some stored →
      result.resultIt.coefficient ≤ stored.resultIt.coefficient →
      t.mergeCandidate proc.id result c = c) :=
  ⟨feed_queue_track l clock proc matchResult,
    fun c c2 h => monotone_of_evolves c c2 (evolves_feedTrack l clock proc matchResult c c2 h),
    fun t result c stored hs hle => mergeCandidate_of_le t proc.id result c stored hs hle⟩

/-- In scenario S5 the queued candidate stores the coefficient 0.6 for `A`; `A` feeds a
result with the coefficient 0.5: the candidate stays, unchanged, in front of the new
candidate. -/
theorem queue_monotone_witness :
    Scenario.s5Linker.queue = [Scenario.s5Candidate] ∧
    Scenario.s5Linker.feedTrack (Scenario.clockAt 200) Scenario.procA
      (Scenario.matchAt 7 (1 / 2)) Scenario.s5Candidate = some Scenario.s5Candidate ∧
    (Scenario.s5Linker.feed (Scenario.clockAt 200) Scenario.procA
      (Scenario.matchAt 7 (1 / 2))).1.queue =
      [Scenario.s5Candidate, Scenario.s5Linker.seed 200 "A" (Scenario.resultA 7 (1 / 2))] ∧
    ((∀ procId, procId ∈ Scenario.s5Candidate.association.results.keys →
        procId ∈ Scenario.s5Candidate.association.results.keys) ∧
      (∀ procId res res2, Scenario.s5Candidate.association.results.lookup procId = some res →
        Scenario.s5Candidate.association.results.lookup procId = some res2 →
          res.resultIt.coefficient ≤ res2.resultIt.coefficient) ∧
      (∀ procId res, Scenario.s5Candidate.association.results.lookup procId = some res →
        Scenario.s5Candidate.association.results.lookup procId = some res) ∧
      Scenario.s5Candidate.expired = Scenario.s5Candidate.expired) :=
  ⟨by decide!, by decide!, by decide!,
    (queue_monotone Scenario.s5Linker (Scenario.clockAt 200) Scenario.procA
      (Scenario.matchAt 7 (1 / 2))).2.1 Scenario.s5Candidate Scenario.s5Candidate (by decide!)⟩

end Linker

namespace Linker

/-- Claim C3, at the input of scenario S5. The queued candidate holds the result of
`A` with coefficient 0.6; `A` feeds a result with coefficient 0.8 whose POT check
passes, so `process` takes the replacing branch; but after the call the candidate
still stores the result with coefficient 0.6 and its score is still 0.6. The only
place the new result is found is the new candidate at the back of the queue. -/
theorem replacement_keeps_stored_result :
    Scenario.s5Linker.queue = [Scenario.s5Candidate] ∧
    Scenario.s5Candidate.association.results.lookup "A" = some (Scenario.resultA 7 (3 / 5)) ∧
    (Scenario.resultA 7 (4 / 5)).resultIt.coefficient >
      (Scenario.resultA 7 (3 / 5)).resultIt.coefficient ∧
    Scenario.s5Linker.prepare.pot.validateEnabledOffsets
      (Scenario.s5Linker.prepare.createCandidatePOT Scenario.s5Candidate "A"
        (Scenario.resultA 7 (4 / 5))) 1000 = true ∧
    (Scenario.s5Linker.feed (Scenario.clockAt 200) Scenario.procA
        (Scenario.matchAt 7 (4 / 5))).1.queue =
      [Scenario.s5Candidate,
        Scenario.s5Linker.seed 200 "A" (Scenario.resultA 7 (4 / 5))] ∧
    (Scenario.s5Candidate.association.results.lookup "A").map
      (fun res => res.resultIt.coefficient) = some (3 / 5) ∧
    Scenario.s5Candidate.association.score = 3 / 5 := by
  refine ⟨by decide!, by decide!, by decide!, by decide!, by decide!, by decide!, by decide!⟩

end Linker

namespace Linker

/-- Claim C6 fails as stated. Two processors, `minArrivals = 3`, `onHold = 1 s`: the
candidate seeded by `A` at `now = 100` expires at 1000100. When `B` feeds at
`now = 5000000` the candidate is still queued, with one result; the merge step adds
the result of `B`, and the sweep finds it with two results (fewer than `minArrivals`)
and expired, and emits it, because it is complete. -/
theorem expired_insufficient_emitted :
    Scenario.lateLinker.queue = [Scenario.lateCandidate] ∧
    Scenario.lateLinker.minArrivals = some 3 ∧
    Scenario.lateLinker.processorCount = 2 ∧
    Scenario.lateCandidate.associatedProcessorCount = 1 ∧
    Scenario.lateCandidate.expired < 5000000 ∧
    Scenario.lateMerged ∈
      Scenario.lateLinker.sweepQueue 5000000 "B" (Scenario.resultB 7 (4 / 5)) ∧
    Scenario.lateMerged.associatedProcessorCount = 2 ∧
    Scenario.lateMerged.expired < 5000000 ∧
    (Scenario.lateLinker.process 5000000 Scenario.procB (Scenario.resultB 7 (4 / 5))).2 =
      [Scenario.lateMerged.association] := by
  refine ⟨by decide!, by decide!, by decide!, by decide!, by decide!, by decide!, by decide!,
    by decide!, by decide!⟩

/-- Claim C6, amended. When the sweep of `process` meets a candidate that is not
complete, has fewer results than `minArrivals` (`processorCount` when `minArrivals` is
null) and whose expiry time has passed, it removes the candidate from the queue and
does not emit its association. Nothing is emitted later that is not the association
of a candidate in the queue of the emitting call: `process` emits only associations of
candidates of the queue its sweep runs over, and `flush` only associations of queued
candidates. -/
theorem expired_insufficient_discarded (l : Linker) (now : Time)
    (proc : TemplateWaveformProcessor) (result : TemplateResult) (c : Candidate)
    (hpos : 0 < l.processorCount)
    (hincomplete : c.association.results.entries.length ≠ l.processorCount)
    (hfew : c.association.results.entries.length < l.minArrivals.getD l.processorCount)
    (hexpired : c.expired < now) :
    (c ∉ (l.process now proc result).1.queue ∧ c.association ∉ (l.process now proc result).2) ∧
    (∀ (l2 : Linker) (now2 : Time) (proc2 : TemplateWaveformProcessor) (result2 : TemplateResult),
      ∀ a ∈ (l2.process now2 proc2 result2).2,
        ∃ d ∈ l2.sweepQueue now2 proc2.id result2, d.association = a) ∧
    (∀ (l2 : Linker), ∀ a ∈ l2.flush.2, ∃ d ∈ l2.queue, d.association = a) := by
  refine ⟨⟨?_, ?_⟩, ?_, ?_⟩
  · rw [process_queue l now proc result hpos]
    intro hmem
    have h2 := (List.mem_filter.1 hmem).2
    simp only [Bool.and_eq_true, Bool.not_eq_true', decide_eq_false_iff_not] at h2
    exact h2.2 (le_of_lt hexpired)
  · intro hmem
    obtain ⟨d, _, hd, hready, _⟩ := mem_process_emitted l now proc result _ hmem
    simp only [sweepReady, Candidate.associatedProcessorCount, Association.processorCount,
      Bool.or_eq_true, beq_iff_eq, Bool.and_eq_true, decide_eq_true_eq, hd] at hready
    rcases hready with h | h
    · exact hincomplete h
    · exact absurd hfew (not_lt.2 h.2)
  · intro l2 now2 proc2 result2 a ha
    obtain ⟨d, hd, hda, _⟩ := mem_process_emitted l2 now2 proc2 result2 a ha
    exact ⟨d, hd, hda⟩
  · intro l2 a ha
    obtain ⟨d, hd, hda, _⟩ := mem_flush_emitted l2 a ha
    exact ⟨d, hd, hda⟩

/-- Three processors, `minArrivals = 2`, `onHold = 1 s`: the candidate seeded by `A`
at `now = 100` has a single result when `C` feeds an inconsistent result at
`now = 5000000`; the sweep removes it and does not emit it. -/
theorem expired_insufficient_discarded_witness :
    Scenario.staleCandidate ∈
        Scenario.staleLinker.sweepQueue 5000000 "C" (Scenario.resultC 900007 (4 / 5)) ∧
      Scenario.staleCandidate ∉
        (Scenario.staleLinker.process 5000000 Scenario.procC
          (Scenario.resultC 900007 (4 / 5))).1.queue ∧
      Scenario.staleCandidate.association ∉
        (Scenario.staleLinker.process 5000000 Scenario.procC
          (Scenario.resultC 900007 (4 / 5))).2 :=
  ⟨by decide!,
    (expired_insufficient_discarded Scenario.staleLinker 5000000 Scenario.procC
      (Scenario.resultC 900007 (4 / 5)) Scenario.staleCandidate (by decide!) (by decide!)
      (by decide!) (by decide!)).1⟩

end Linker

namespace Candidate

theorem count_feed (c : Candidate) (procId : ProcessorIdType) (res : TemplateResult) :
    (c.feed procId res).associatedProcessorCount =
      if (c.association.results.lookup procId).isSome then c.associatedProcessorCount
      else c.associatedProcessorCount + 1 := by
  simp only [Candidate.feed, associatedProcessorCount, Association.processorCount]
  exact length_emplace procId res c.association.results

theorem count_feed_le (c : Candidate) (procId : ProcessorIdType) (res : TemplateResult) :
    (c.feed procId res).associatedProcessorCount ≤ c.associatedProcessorCount + 1 := by
  rw [count_feed]; split <;> omega

theorem count_le_feed (c : Candidate) (procId : ProcessorIdType) (res : TemplateResult) :
    c.associatedProcessorCount ≤ (c.feed procId res).associatedProcessorCount := by
  rw [count_feed]; split <;> omega

theorem count_feed_pos (c : Candidate) (procId : ProcessorIdType) (res : TemplateResult) :
    0 < (c.feed procId res).associatedProcessorCount := by
  rw [count_feed]
  split
  · rename_i h
    obtain ⟨r, hr⟩ := Option.isSome_iff_exists.1 h
    have hmem : procId ∈ c.association.results := AList.lookup_isSome.1 (by rw [hr]; rfl)
    have hk : procId ∈ c.association.results.keys := AList.mem_keys.1 hmem
    have : 0 < c.association.results.keys.length := List.length_pos_of_mem hk
    simpa [associatedProcessorCount, Association.processorCount, AList.keys, List.keys] using this
  · omega

end Candidate

namespace Linker

theorem count_seed (l : Linker) (now : Time) (procId : ProcessorIdType) (result : TemplateResult) :
    (l.seed now procId result).associatedProcessorCount = 1 := by
  rfl

theorem count_mergeCandidate_le (l : Linker) (procId : ProcessorIdType) (result : TemplateResult)
    (c : Candidate) (h : c.associatedProcessorCount ≤ l.processorCount) :
    (l.mergeCandidate procId result c).associatedProcessorCount ≤ l.processorCount := by
  by_cases hlt : c.associatedProcessorCount < l.processorCount
  · rcases mergeCandidate_cases l procId result c with h1 | h1 <;> rw [h1]
    · exact h
    · have := Candidate.count_feed_le c procId result
      omega
  · have : l.mergeCandidate procId result c = c := by
      unfold mergeCandidate
      simp [hlt]
    rw [this]; exact h

theorem count_mergeCandidate_pos (l : Linker) (procId : ProcessorIdType) (result : TemplateResult)
    (c : Candidate) (h : 0 < c.associatedProcessorCount) :
    0 < (l.mergeCandidate procId result c).associatedProcessorCount := by
  rcases mergeCandidate_cases l procId result c with h1 | h1 <;> rw [h1]
  · exact h
  · exact Candidate.count_feed_pos c procId result

theorem processorCount_le_add (l : Linker) (proc : Option TemplateWaveformProcessor)
    (arrival : Arrival) (mergingThreshold : Option ℚ) :
    l.processorCount ≤ (l.add proc arrival mergingThreshold).processorCount := by
  cases proc with
  | none => exact le_refl _
  | some p =>
    simp only [add, processorCount]
    rw [length_emplace]
    split <;> omega

@[simp] theorem add_queue (l : Linker) (proc : Option TemplateWaveformProcessor)
    (arrival : Arrival) (mergingThreshold : Option ℚ) :
    (l.add proc arrival mergingThreshold).queue = l.queue := by
  cases proc <;> rfl

/-- After `process`, no queued candidate is complete (a processor being registered). -/
theorem process_queue_incomplete (l : Linker) (now : Time) (proc : TemplateWaveformProcessor)
    (result : TemplateResult) (hpos : 0 < l.processorCount) :
    ∀ c ∈ (l.process now proc result).1.queue, c.associatedProcessorCount ≠ l.processorCount := by
  intro c hc
  rw [process_queue l now proc result hpos] at hc
  have h2 := (List.mem_filter.1 hc).2
  simp only [sweepReady, Bool.and_eq_true, Bool.not_eq_true', Bool.or_eq_false_iff,
    beq_eq_false_iff_ne] at h2
  exact h2.1.1

end Linker

namespace Linker

/-! ## Invariants of the reachable states -/

/-- Every queued candidate holds at least one result: preserved by every call. -/
theorem step_count_pos (l : Linker) (op : Op)
    (h : ∀ c ∈ l.queue, 0 < c.associatedProcessorCount) :
    ∀ c ∈ (l.step op).1.queue, 0 < c.associatedProcessorCount := by
  cases op with
  | setThresArrivalOffset thres => exact h
  | setThresAssociation thres => exact h
  | setMinArrivals n => exact h
  | setOnHold duration => exact h
  | setMergingStrategy mergingStrategy => exact h
  | add proc arrival mergingThreshold => simpa [step] using h
  | remove procId => exact h
  | reset => simp [step, reset]
  | flush => simp [step, flush_queue]
  | feed clock proc matchResult =>
    refine (feed_induct (fun s => ∀ c ∈ s.queue, 0 < c.associatedProcessorCount)
      (fun _ => True) ?_ l clock proc matchResult h).1
    intro s now p result hs
    exact ⟨(process_forall s now p result (fun c => 0 < c.associatedProcessorCount)
      (fun c _ hc => count_mergeCandidate_pos _ _ _ c hc)
      (Candidate.count_feed_pos _ _ _) hs).1, fun _ _ => trivial⟩

theorem process_count_le (l : Linker) (now : Time) (proc : TemplateWaveformProcessor)
    (result : TemplateResult)
    (h : ∀ c ∈ l.queue, c.associatedProcessorCount ≤ l.processorCount) :
    ∀ c ∈ (l.process now proc result).1.queue, c.associatedProcessorCount ≤ l.processorCount := by
  rcases Nat.eq_zero_or_pos l.processorCount with h0 | hpos
  · rw [process_of_empty l now proc result h0]; exact h
  · refine (process_forall l now proc result
      (fun c => c.associatedProcessorCount ≤ l.processorCount) ?_ ?_ h).1
    · intro c _ hc
      simpa using count_mergeCandidate_le l.prepare proc.id result c (by simpa using hc)
    · show (l.seed now proc.id result).associatedProcessorCount ≤ l.processorCount
      rw [count_seed]; exact hpos

/-- No queued candidate holds more results than there are registered processors:
preserved by every call but `remove`. -/
theorem step_count_le (l : Linker) (op : Op) (hop : op.isRemove = false)
    (h : ∀ c ∈ l.queue, c.associatedProcessorCount ≤ l.processorCount) :
    ∀ c ∈ (l.step op).1.queue,
      c.associatedProcessorCount ≤ (l.step op).1.processorCount := by
  cases op with
  | setThresArrivalOffset thres => exact h
  | setThresAssociation thres => exact h
  | setMinArrivals n => exact h
  | setOnHold duration => exact h
  | setMergingStrategy mergingStrategy => exact h
  | add proc arrival mergingThreshold =>
    intro c hc
    have hc2 : c ∈ l.queue := by simpa [step] using hc
    exact le_trans (h c hc2) (processorCount_le_add l proc arrival mergingThreshold)
  | remove procId => simp [Op.isRemove] at hop
  | reset => simp [step, reset]
  | flush => simp [step, flush_queue]
  | feed clock proc matchResult =>
    have key := (feed_induct
      (fun s => s.processorCount = l.processorCount ∧
        ∀ c ∈ s.queue, c.associatedProcessorCount ≤ s.processorCount)
      (fun _ => True) ?_ l clock proc matchResult ⟨rfl, h⟩).1
    · exact key.2
    · intro s now p result hs
      refine ⟨⟨by simpa using hs.1, ?_⟩, fun _ _ => trivial⟩
      simpa using process_count_le s now p result hs.2

theorem process_queue_of_one (l : Linker) (now : Time) (proc : TemplateWaveformProcessor)
    (result : TemplateResult) (h : l.processorCount ≤ 1 → l.queue = []) :
    l.processorCount ≤ 1 → (l.process now proc result).1.queue = [] := by
  intro hle
  rcases Nat.eq_zero_or_pos l.processorCount with h0 | hpos
  · rw [process_of_empty l now proc result h0]; exact h hle
  · have h1 : l.processorCount = 1 := by omega
    rw [process_queue l now proc result hpos]
    simp [sweepQueue, h hle, sweepReady, count_seed, h1]

/-- With at most one processor registered the queue is empty: preserved by every call
but `remove`. -/
theorem step_queue_of_one (l : Linker) (op : Op) (hop : op.isRemove = false)
    (h : l.processorCount ≤ 1 → l.queue = []) :
    (l.step op).1.processorCount ≤ 1 → (l.step op).1.queue = [] := by
  cases op with
  | setThresArrivalOffset thres => exact h
  | setThresAssociation thres => exact h
  | setMinArrivals n => exact h
  | setOnHold duration => exact h
  | setMergingStrategy mergingStrategy => exact h
  | add proc arrival mergingThreshold =>
    intro hle
    have := processorCount_le_add l proc arrival mergingThreshold
    simpa [step] using h (le_trans this hle)
  | remove procId => simp [Op.isRemove] at hop
  | reset => simp [step, reset]
  | flush => simp [step, flush_queue]
  | feed clock proc matchResult =>
    have key := (feed_induct
      (fun s => s.processorCount = l.processorCount ∧ (s.processorCount ≤ 1 → s.queue = []))
      (fun _ => True) ?_ l clock proc matchResult ⟨rfl, h⟩).1
    · exact key.2
    · intro s now p result hs
      refine ⟨⟨by simpa using hs.1, ?_⟩, fun _ _ => trivial⟩
      simpa using process_queue_of_one s now p result hs.2

end Linker

namespace Linker

theorem run_count_pos (onHold arrivalOffsetThres : TimeSpan) (ops : List Op) :
    ∀ c ∈ ((create onHold arrivalOffsetThres).run ops).1.queue, 0 < c.associatedProcessorCount :=
  (run_induct (fun _ => True) (fun s => ∀ c ∈ s.queue, 0 < c.associatedProcessorCount)
    (fun _ => True) (fun l op _ hl => ⟨step_count_pos l op hl, fun _ _ => trivial⟩) ops
    (create onHold arrivalOffsetThres) (fun _ _ => trivial) (by simp [create])).1

/-- Claim C8 fails as stated for one registered processor. After `B` and `C` have been
removed only `A` is registered, and the candidate holding the results of `A` and `B`
is still queued; a feed of `A` emits two associations and leaves that candidate in the
queue. -/
theorem single_processor_queue_not_empty :
    Scenario.removalLinker.processorCount = 1 ∧
    ((Scenario.removalLinker.feed (Scenario.clockAt 300) Scenario.procA
      (Scenario.matchAt 7 (3 / 5))).2).length = 2 ∧
    (Scenario.removalLinker.feed (Scenario.clockAt 300) Scenario.procA
      (Scenario.matchAt 7 (3 / 5))).1.queue = [Scenario.removalCandidate] := by
  refine ⟨by decide!, by decide!, by decide!⟩

/-- Claim C8, amended. In every state reached from a fresh linker, no candidate left
in the queue by a `process` call has as many results as there are registered
processors. When no processor was ever removed and exactly one processor is
registered, the queue is empty after every `feed`. -/
theorem complete_candidates_leave_queue (onHold arrivalOffsetThres : TimeSpan) (ops : List Op) :
    (∀ (now : Time) (proc : TemplateWaveformProcessor) (result : TemplateResult),
      ∀ c ∈ (((create onHold arrivalOffsetThres).run ops).1.process now proc result).1.queue,
        c.association.results.entries.length ≠
          ((create onHold arrivalOffsetThres).run ops).1.processorCount) ∧
    ((∀ op ∈ ops, op.isRemove = false) →
      ((create onHold arrivalOffsetThres).run ops).1.processorCount = 1 →
      ∀ (clock : Nat → Time) (proc : TemplateWaveformProcessor) (matchResult : MatchResult),
        (((create onHold arrivalOffsetThres).run ops).1.feed clock proc matchResult).1.queue =
          []) := by
  constructor
  · intro now proc result c hc
    rcases Nat.eq_zero_or_pos ((create onHold arrivalOffsetThres).run ops).1.processorCount
      with h0 | hpos
    · rw [process_of_empty _ now proc result h0] at hc
      have := run_count_pos onHold arrivalOffsetThres ops c hc
      rw [h0]
      exact Nat.pos_iff_ne_zero.1 this
    · exact process_queue_incomplete _ now proc result hpos c hc
  · intro hops hone clock proc matchResult
    have hinv := (run_induct (fun op => op.isRemove = false)
      (fun s => s.processorCount ≤ 1 → s.queue = []) (fun _ => True)
      (fun l op hop hl => ⟨step_queue_of_one l op hop hl, fun _ _ => trivial⟩) ops
      (create onHold arrivalOffsetThres) hops (by simp [create])).1
    have hfeed := step_queue_of_one _ (Op.feed clock proc matchResult) rfl hinv
    have hcount : ((((create onHold arrivalOffsetThres).run ops).1.step
        (Op.feed clock proc matchResult)).1.processorCount) = 1 := by
      have := (feed_induct
        (fun s => s.processorCount = ((create onHold arrivalOffsetThres).run ops).1.processorCount)
        (fun _ => True) (fun s now p result hs => ⟨by simpa using hs, fun _ _ => trivial⟩)
        _ clock proc matchResult rfl).1
      simpa [step, hone] using this
    exact hfeed (le_of_eq hcount)

/-- A linker with the single processor `A`: the queue is empty after a feed of `A`. -/
theorem complete_candidates_leave_queue_witness :
    (((create 5000000 1000).run Scenario.singleOps).1.feed (Scenario.clockAt 100) Scenario.procA
      (Scenario.matchAt 7 (3 / 5))).1.queue = [] :=
  (complete_candidates_leave_queue 5000000 1000 Scenario.singleOps).2 (by decide) (by decide!)
    (Scenario.clockAt 100) Scenario.procA (Scenario.matchAt 7 (3 / 5))

/-- Claim C9 fails as stated. After `B` and `C` have been removed one processor is
registered, and the queue still holds the candidate with the results of `A` and
`B`. -/
theorem removal_breaks_size_bound :
    Scenario.removalCandidate ∈ ((create 5000000 1000).run Scenario.removalOps).1.queue ∧
    ((create 5000000 1000).run Scenario.removalOps).1.processorCount = 1 ∧
    Scenario.removalCandidate.association.results.entries.length = 2 := by
  refine ⟨by decide!, by decide!, by decide!⟩

/-- Claim C9, amended. In every state reached from a fresh linker by any sequence of
calls, every queued candidate holds at most one result per processor id; and when
the sequence contains no `remove`, every queued candidate satisfies
`0 ≤ |results| ≤ processorCount`. -/
theorem candidate_size_invariant (onHold arrivalOffsetThres : TimeSpan) (ops : List Op) :
    (∀ c ∈ ((create onHold arrivalOffsetThres).run ops).1.queue,
      c.association.results.keys.Nodup) ∧
    ((∀ op ∈ ops, op.isRemove = false) →
      ∀ c ∈ ((create onHold arrivalOffsetThres).run ops).1.queue,
        0 ≤ c.association.results.entries.length ∧
          c.association.results.entries.length ≤
            ((create onHold arrivalOffsetThres).run ops).1.processorCount) := by
  constructor
  · intro c _
    exact c.association.results.keys_nodup
  · intro hops c hc
    have hinv := (run_induct (fun op => op.isRemove = false)
      (fun s => ∀ c ∈ s.queue, c.associatedProcessorCount ≤ s.processorCount) (fun _ => True)
      (fun l op hop hl => ⟨step_count_le l op hop hl, fun _ _ => trivial⟩) ops
      (create onHold arrivalOffsetThres) hops (by simp [create])).1
    exact ⟨Nat.zero_le _, hinv c hc⟩

/-- Before the removals the candidate with the results of `A` and `B` is queued while
three processors are registered. -/
theorem candidate_size_invariant_witness :
    Scenario.removalCandidate ∈ ((create 5000000 1000).run Scenario.buildOps).1.queue ∧
    (0 ≤ Scenario.removalCandidate.association.results.entries.length ∧
      Scenario.removalCandidate.association.results.entries.length ≤
        ((create 5000000 1000).run Scenario.buildOps).1.processorCount) :=
  ⟨by decide!, (candidate_size_invariant 5000000 1000 Scenario.buildOps).2 (by decide)
    Scenario.removalCandidate (by decide!)⟩

end Linker

/-! ## The pick-offset tables of `process` -/

namespace POT

theorem validateEnabledOffsets_iff (p other : POT) (thres : TimeSpan) :
    p.validateEnabledOffsets other thres = true ↔
      ∀ ei ∈ other.entries, ∀ ej ∈ other.entries, ei.processorId ≠ ej.processorId →
        ∀ a b, p.offset ei.processorId ej.processorId = some a →
          other.offset ei.processorId ej.processorId = some b → |b - a| ≤ thres := by
  simp only [validateEnabledOffsets, List.all_eq_true]
  constructor
  · intro h ei hi ej hj hne a b ha hb
    have := h ei hi ej hj
    simpa [hne, ha, hb] using this
  · intro h ei hi ej hj
    by_cases hne : ei.processorId = ej.processorId
    · simp [hne]
    · simp only [hne, if_false]
      cases ha : p.offset ei.processorId ej.processorId with
      | none => rfl
      | some a =>
        cases hb : other.offset ei.processorId ej.processorId with
        | none => rfl
        | some b => simpa using h ei hi ej hj hne a b ha hb

theorem offset_eq_some_iff (p : POT) (i j : ProcessorIdType) (d : TimeSpan) :
    p.offset i j = some d ↔
      ∃ ti tj, p.enabledArrivalTime i = some ti ∧ p.enabledArrivalTime j = some tj ∧
        d = tj - ti := by
  unfold offset
  cases hi : p.enabledArrivalTime i with
  | none => simp
  | some ti =>
    cases hj : p.enabledArrivalTime j with
    | none => simp
    | some tj =>
      simp only [Option.some.injEq]
      constructor
      · intro h; exact ⟨ti, tj, rfl, rfl, h.symm⟩
      · rintro ⟨a, b, rfl, rfl, rfl⟩; rfl

end POT

namespace Linker

/-- The arrival times of the table `createPot` builds are the template picks. -/
theorem find?_createPot_entries (es : List (Sigma fun _ : ProcessorIdType => Processor))
    (hwf : ∀ e ∈ es, e.2.proc.id = e.1) (k : ProcessorIdType) :
    ((es.map fun p => (⟨p.2.arrival.pick.time, p.2.proc.id, true⟩ : POT.Entry)).find?
        (fun e => e.processorId == k && e.enabled)).map (fun e => e.arrivalTime) =
      (es.dlookup k).map (fun p => p.arrival.pick.time) := by
  induction es with
  | nil => rfl
  | cons e es ih =>
    have he : e.2.proc.id = e.1 := hwf e (List.mem_cons_self _ _)
    have hrest : ∀ x ∈ es, x.2.proc.id = x.1 := fun x hx => hwf x (List.mem_cons_of_mem _ hx)
    obtain ⟨k1, p1⟩ := e
    simp only at he
    by_cases hk : k1 = k
    · subst hk
      simp [List.find?_cons, he]
    · have hk2 : k ≠ k1 := fun h => hk h.symm
      rw [List.dlookup_cons_ne _ _ hk2]
      have hb : (k1 == k) = false := by simpa using hk
      simp only [List.map_cons, List.find?_cons, he, hb, Bool.false_and]
      exact ih hrest

theorem mem_entries_wf (l : Linker) (h : l.WellFormed) :
    ∀ e ∈ l.processors.entries, e.2.proc.id = e.1 := by
  intro e he
  obtain ⟨k, p⟩ := e
  exact h.1 k p (AList.mem_lookup_iff.2 he)

theorem createPot_enabledArrivalTime (l : Linker) (h : l.WellFormed) (k : ProcessorIdType) :
    l.createPot.pot.enabledArrivalTime k = l.templatePick k := by
  simp only [createPot, POT.enabledArrivalTime, templatePick, AList.lookup]
  exact find?_createPot_entries l.processors.entries (mem_entries_wf l h) k

theorem createPot_enable (l : Linker) : l.createPot.pot.enable = l.createPot.pot := by
  simp [createPot, POT.enable, Function.comp_def]

theorem prepare_pot (l : Linker) (h : l.WellFormed) : l.prepare.pot = l.createPot.pot := by
  unfold prepare
  by_cases hv : l.potValid = true
  · simp [hv, h.2 hv]
  · simp only [Bool.not_eq_true] at hv
    simp only [hv, Bool.not_false, if_true]
    exact createPot_enable l

theorem prepare_pot_enabledArrivalTime (l : Linker) (h : l.WellFormed) (k : ProcessorIdType) :
    l.prepare.pot.enabledArrivalTime k = l.templatePick k := by
  rw [prepare_pot l h, createPot_enabledArrivalTime l h]

end Linker

namespace Linker

@[simp] theorem prepare_createCandidatePOT (l : Linker) (c : Candidate)
    (procId : ProcessorIdType) (result : TemplateResult) :
    l.prepare.createCandidatePOT c procId result = l.createCandidatePOT c procId result := by
  simp [createCandidatePOT]

theorem find?_member_entries (procId q : ProcessorIdType) (hq : q ≠ procId)
    (es : List (Sigma fun _ : ProcessorIdType => TemplateResult)) :
    (((es.filter (fun p => procId != p.1)).map fun p =>
        (⟨p.2.arrival.pick.time, p.1, true⟩ : POT.Entry)).find?
        (fun e => e.processorId == q && e.enabled)).map (fun e => e.arrivalTime) =
      (es.dlookup q).map (fun res => res.arrival.pick.time) := by
  induction es with
  | nil => rfl
  | cons e es ih =>
    obtain ⟨k1, r1⟩ := e
    by_cases hk : k1 = q
    · subst hk
      have hb : (procId != k1) = true := by simpa using fun h : procId = k1 => hq h.symm
      simp [List.filter_cons, hb, List.find?_cons]
    · have hk2 : q ≠ k1 := fun h => hk h.symm
      rw [List.dlookup_cons_ne _ _ hk2]
      have hb : (k1 == q) = false := by simpa using hk
      by_cases hp : (procId != k1) = true
      · simp only [List.filter_cons, hp, if_true, List.map_cons, List.find?_cons, hb,
          Bool.false_and]
        exact ih
      · simp only [List.filter_cons, hp]
        exact ih

theorem find?_disabled_entries (q : ProcessorIdType) (ids : List ProcessorIdType) :
    (ids.map fun p => (⟨0, p, false⟩ : POT.Entry)).find?
      (fun e => e.processorId == q && e.enabled) = none := by
  rw [List.find?_eq_none]
  intro e he
  obtain ⟨p, _, rfl⟩ := List.mem_map.1 he
  simp

/-- The enabled arrival times of the table `createCandidatePOT` builds: the pick of the
new result for its processor, the stored picks for the other members. -/
theorem createCandidatePOT_enabledArrivalTime (l : Linker) (c : Candidate)
    (procId : ProcessorIdType) (result : TemplateResult) (q : ProcessorIdType) :
    (l.createCandidatePOT c procId result).enabledArrivalTime q =
      if q = procId then some result.arrival.pick.time
      else (c.association.results.lookup q).map (fun res => res.arrival.pick.time) := by
  simp only [createCandidatePOT, POT.enabledArrivalTime, List.find?_append, Option.map_or,
    List.singleton_append, List.cons_append, List.find?_cons]
  by_cases hq : q = procId
  · subst hq
    simp
  · have hb : (procId == q) = false := by simpa using fun h : procId = q => hq h.symm
    simp only [hb, Bool.false_and, hq, if_false]
    rw [find?_disabled_entries]
    have := find?_member_entries procId q hq c.association.results.entries
    simp only [AList.lookup]
    rw [← this]
    simp

theorem createCandidatePOT_mem_new (l : Linker) (c : Candidate) (procId : ProcessorIdType)
    (result : TemplateResult) :
    (⟨result.arrival.pick.time, procId, true⟩ : POT.Entry) ∈
      (l.createCandidatePOT c procId result).entries := by
  simp [createCandidatePOT]

theorem createCandidatePOT_mem_member (l : Linker) (c : Candidate) (procId : ProcessorIdType)
    (result : TemplateResult) (q : ProcessorIdType) (rq : TemplateResult) (hq : q ≠ procId)
    (hrq : c.association.results.lookup q = some rq) :
    (⟨rq.arrival.pick.time, q, true⟩ : POT.Entry) ∈
      (l.createCandidatePOT c procId result).entries := by
  have hmem : (⟨q, rq⟩ : Sigma fun _ : ProcessorIdType => TemplateResult) ∈
      c.association.results.entries := AList.mem_lookup_iff.1 hrq
  simp only [createCandidatePOT, List.mem_append, List.mem_map, List.mem_filter]
  refine Or.inl (Or.inr ⟨⟨q, rq⟩, ⟨hmem, ?_⟩, rfl⟩)
  simpa using fun h : procId = q => hq h.symm

end Linker

namespace Linker

theorem OffsetOk.symm {l : Linker} {thres : TimeSpan} {i j : ProcessorIdType} {ti tj : Time}
    (h : l.OffsetOk thres i j ti tj) : l.OffsetOk thres j i tj ti := by
  intro templateJ templateI hj hi
  have h0 := h templateI templateJ hi hj
  have e : ti - tj - (templateI - templateJ) = -(tj - ti - (templateJ - templateI)) := by ring
  rw [e, abs_neg]
  exact h0

/-- What the POT validation of the merge loop checks, for a linker in a well-formed
state: the pick of the new result agrees within `thres` with the pick stored for every
other member of the candidate, and the stored picks of the other members agree with
each other. -/
theorem validateEnabledOffsets_createCandidatePOT (l : Linker) (hwf : l.WellFormed)
    (c : Candidate) (procId : ProcessorIdType) (result : TemplateResult) (thres : TimeSpan) :
    l.prepare.pot.validateEnabledOffsets (l.createCandidatePOT c procId result) thres = true ↔
      (∀ q rq, q ≠ procId → c.association.results.lookup q = some rq →
        l.OffsetOk thres q procId rq.arrival.pick.time result.arrival.pick.time) ∧
      (∀ q1 q2 r1 r2, q1 ≠ procId → q2 ≠ procId → q1 ≠ q2 →
        c.association.results.lookup q1 = some r1 → c.association.results.lookup q2 = some r2 →
          l.OffsetOk thres q1 q2 r1.arrival.pick.time r2.arrival.pick.time) := by
  rw [POT.validateEnabledOffsets_iff]
  constructor
  · intro h
    have key : ∀ (ei ej : POT.Entry), ei ∈ (l.createCandidatePOT c procId result).entries →
        ej ∈ (l.createCandidatePOT c procId result).entries →
        ei.processorId ≠ ej.processorId → ∀ ti tj,
        (l.createCandidatePOT c procId result).enabledArrivalTime ei.processorId = some ti →
        (l.createCandidatePOT c procId result).enabledArrivalTime ej.processorId = some tj →
        l.OffsetOk thres ei.processorId ej.processorId ti tj := by
      intro ei ej hi hj hne ti tj hti htj templateI templateJ hTi hTj
      refine h ei hi ej hj hne (templateJ - templateI) (tj - ti) ?_ ?_
      · rw [POT.offset_eq_some_iff]
        exact ⟨templateI, templateJ, by rw [prepare_pot_enabledArrivalTime l hwf, hTi],
          by rw [prepare_pot_enabledArrivalTime l hwf, hTj], rfl⟩
      · rw [POT.offset_eq_some_iff]
        exact ⟨ti, tj, hti, htj, rfl⟩
    constructor
    · intro q rq hq hrq
      refine key ⟨rq.arrival.pick.time, q, true⟩ ⟨result.arrival.pick.time, procId, true⟩
        (createCandidatePOT_mem_member l c procId result q rq hq hrq)
        (createCandidatePOT_mem_new l c procId result) hq _ _ ?_ ?_
      · rw [createCandidatePOT_enabledArrivalTime]; simp [hq, hrq]
      · rw [createCandidatePOT_enabledArrivalTime]; simp
    · intro q1 q2 r1 r2 h1 h2 hne hr1 hr2
      refine key ⟨r1.arrival.pick.time, q1, true⟩ ⟨r2.arrival.pick.time, q2, true⟩
        (createCandidatePOT_mem_member l c procId result q1 r1 h1 hr1)
        (createCandidatePOT_mem_member l c procId result q2 r2 h2 hr2) hne _ _ ?_ ?_
      · rw [createCandidatePOT_enabledArrivalTime]; simp [h1, hr1]
      · rw [createCandidatePOT_enabledArrivalTime]; simp [h2, hr2]
  · rintro ⟨hnew, hold⟩ ei _ ej _ hne a b ha hb
    obtain ⟨templateI, templateJ, hTi, hTj, rfl⟩ := (POT.offset_eq_some_iff _ _ _ _).1 ha
    obtain ⟨ti, tj, hti, htj, rfl⟩ := (POT.offset_eq_some_iff _ _ _ _).1 hb
    rw [prepare_pot_enabledArrivalTime l hwf] at hTi hTj
    rw [createCandidatePOT_enabledArrivalTime] at hti htj
    by_cases hi : ei.processorId = procId
    · by_cases hj : ej.processorId = procId
      · exact absurd (hi.trans hj.symm) hne
      · simp only [hi, if_true, Option.some.injEq] at hti
        simp only [hj, if_false, Option.map_eq_some'] at htj
        obtain ⟨rj, hrj, rfl⟩ := htj
        subst hti
        have := (hnew ej.processorId rj hj hrj).symm
        rw [← hi] at this
        exact this templateI templateJ hTi hTj
    · simp only [hi, if_false, Option.map_eq_some'] at hti
      obtain ⟨ri, hri, rfl⟩ := hti
      by_cases hj : ej.processorId = procId
      · simp only [hj, if_true, Option.some.injEq] at htj
        subst htj
        have := hnew ei.processorId ri hi hri
        rw [← hj] at this
        exact this templateI templateJ hTi hTj
      · simp only [hj, if_false, Option.map_eq_some'] at htj
        obtain ⟨rj, hrj, rfl⟩ := htj
        exact hold ei.processorId ej.processorId ri rj hi hj hne hri hrj templateI templateJ
          hTi hTj

end Linker

namespace Linker

/-! ## Well-formed states -/

theorem wellFormed_create (onHold arrivalOffsetThres : TimeSpan) :
    (create onHold arrivalOffsetThres).WellFormed := by
  constructor
  · intro procId p h
    simp [create] at h
  · intro h
    simp [create] at h

theorem wellFormed_of_eq (l l2 : Linker) (h : l.WellFormed)
    (hp : l2.processors = l.processors) (hpot : l2.pot = l.pot) (hv : l2.potValid = l.potValid) :
    l2.WellFormed := by
  refine ⟨fun procId p hl => h.1 procId p (by rw [← hp]; exact hl), fun hvalid => ?_⟩
  have := h.2 (by rw [← hv]; exact hvalid)
  simp only [createPot] at this ⊢
  rw [hpot, hp]
  exact this

theorem wellFormed_prepare (l : Linker) (h : l.WellFormed) : l.prepare.WellFormed := by
  refine ⟨fun procId p hl => h.1 procId p (by simpa using hl), fun _ => ?_⟩
  rw [prepare_pot l h, createPot_enable]
  simp [createPot]

theorem wellFormed_process (l : Linker) (now : Time) (proc : TemplateWaveformProcessor)
    (result : TemplateResult) (h : l.WellFormed) : (l.process now proc result).1.WellFormed := by
  rcases Nat.eq_zero_or_pos l.processorCount with h0 | hpos
  · rw [process_of_empty l now proc result h0]; exact h
  · rw [process_of_pos l now proc result hpos]
    exact wellFormed_of_eq l.prepare _ (wellFormed_prepare l h) rfl rfl rfl

theorem wellFormed_add (l : Linker) (proc : Option TemplateWaveformProcessor)
    (arrival : Arrival) (mergingThreshold : Option ℚ) (h : l.WellFormed) :
    (l.add proc arrival mergingThreshold).WellFormed := by
  cases proc with
  | none => exact h
  | some p =>
    refine ⟨?_, fun hv => by simp [add] at hv⟩
    intro procId q hq
    simp only [add] at hq
    by_cases hk : procId = p.id
    · subst hk
      rw [lookup_emplace_self] at hq
      cases hl : l.processors.lookup p.id with
      | none =>
        rw [hl] at hq
        simp only [Option.getD_none, Option.some.injEq] at hq
        rw [← hq]
      | some q0 =>
        rw [hl] at hq
        simp only [Option.getD_some, Option.some.injEq] at hq
        rw [← hq]
        exact h.1 p.id q0 hl
    · rw [lookup_emplace_ne _ _ _ _ hk] at hq
      exact h.1 procId q hq

theorem wellFormed_remove (l : Linker) (procId : ProcessorIdType) (h : l.WellFormed) :
    (l.remove procId).WellFormed := by
  refine ⟨?_, fun hv => by simp [remove] at hv⟩
  intro k q hq
  simp only [remove] at hq
  by_cases hk : k = procId
  · subst hk
    rw [AList.lookup_erase] at hq
    exact Option.noConfusion hq
  · rw [AList.lookup_erase_ne hk] at hq
    exact h.1 k q hq

theorem wellFormed_feed (l : Linker) (clock : Nat → Time) (proc : TemplateWaveformProcessor)
    (matchResult : MatchResult) (h : l.WellFormed) :
    (l.feed clock proc matchResult).1.WellFormed :=
  (feed_induct WellFormed (fun _ => True)
    (fun s now p result hs => ⟨wellFormed_process s now p result hs, fun _ _ => trivial⟩)
    l clock proc matchResult h).1

theorem wellFormed_step (l : Linker) (op : Op) (h : l.WellFormed) : (l.step op).1.WellFormed := by
  cases op with
  | setThresArrivalOffset thres => exact wellFormed_of_eq l _ h rfl rfl rfl
  | setThresAssociation thres => exact wellFormed_of_eq l _ h rfl rfl rfl
  | setMinArrivals n => exact wellFormed_of_eq l _ h rfl rfl rfl
  | setOnHold duration => exact wellFormed_of_eq l _ h rfl rfl rfl
  | setMergingStrategy mergingStrategy => exact wellFormed_of_eq l _ h rfl rfl rfl
  | add proc arrival mergingThreshold => exact wellFormed_add l proc arrival mergingThreshold h
  | remove procId => exact wellFormed_remove l procId h
  | reset => exact ⟨h.1, fun hv => by simp [step, reset] at hv⟩
  | flush => exact wellFormed_of_eq l _ h rfl rfl rfl
  | feed clock proc matchResult => exact wellFormed_feed l clock proc matchResult h

/-- Every state reached from a fresh linker is well formed. -/
theorem wellFormed_run (l : Linker) (ops : List Op) (h : l.WellFormed) :
    (l.run ops).1.WellFormed :=
  (run_induct (fun _ => True) WellFormed (fun _ => True)
    (fun s op _ hs => ⟨wellFormed_step s op hs, fun _ _ => trivial⟩) ops l
    (fun _ _ => trivial) h).1

end Linker

namespace Linker

/-! ## The POT check gates every merge -/

theorem mergeCandidate_of_invalid (l : Linker) (thres : TimeSpan) (procId : ProcessorIdType)
    (result : TemplateResult) (c : Candidate) (hthres : l.thresArrivalOffset = some thres)
    (hv : l.pot.validateEnabledOffsets (l.createCandidatePOT c procId result) thres = false) :
    l.mergeCandidate procId result c = c := by
  unfold mergeCandidate
  dsimp only
  split_ifs
  · simp [hthres, hv]
  · rfl
  · rfl

theorem mergeCandidate_cases_valid (l : Linker) (thres : TimeSpan) (procId : ProcessorIdType)
    (result : TemplateResult) (c : Candidate) (hthres : l.thresArrivalOffset = some thres) :
    l.mergeCandidate procId result c = c ∨
      (l.mergeCandidate procId result c = c.feed procId result ∧
        l.pot.validateEnabledOffsets (l.createCandidatePOT c procId result) thres = true) := by
  cases hv : l.pot.validateEnabledOffsets (l.createCandidatePOT c procId result) thres with
  | false => exact Or.inl (mergeCandidate_of_invalid l thres procId result c hthres hv)
  | true =>
    rcases mergeCandidate_cases l procId result c with h | h
    · exact Or.inl h
    · exact Or.inr ⟨h, rfl⟩

/-- The merge loop of `process` leaves a candidate as it is when the pick of the new
result deviates by more than `thres` from the pick of one of its other members. -/
theorem mergeCandidate_gated (l : Linker) (hwf : l.WellFormed) (thres : TimeSpan)
    (hthres : l.thresArrivalOffset = some thres) (c : Candidate) (procId : ProcessorIdType)
    (result : TemplateResult) (q : ProcessorIdType) (rq : TemplateResult)
    (templateP templateQ : Time) (hq : q ≠ procId)
    (hrq : c.association.results.lookup q = some rq)
    (hp : l.templatePick procId = some templateP) (hq2 : l.templatePick q = some templateQ)
    (hdev : thres <
      |(result.arrival.pick.time - rq.arrival.pick.time) - (templateP - templateQ)|) :
    l.prepare.mergeCandidate procId result c = c := by
  apply mergeCandidate_of_invalid l.prepare thres procId result c (by simpa using hthres)
  rw [prepare_createCandidatePOT]
  by_contra hne
  have hv : l.prepare.pot.validateEnabledOffsets (l.createCandidatePOT c procId result) thres =
      true := by simpa using hne
  have := ((validateEnabledOffsets_createCandidatePOT l hwf c procId result thres).1 hv).1
    q rq hq hrq templateQ templateP hq2 hp
  exact absurd hdev (not_lt.2 this)

theorem pairwiseConsistent_congr (l l2 : Linker) (h : l2.processors = l.processors)
    (thres : TimeSpan) (results : TemplateResults) :
    l2.PairwiseConsistent thres results ↔ l.PairwiseConsistent thres results := by
  simp only [PairwiseConsistent, OffsetOk, templatePick, h]

theorem pairwiseConsistent_feed (l : Linker) (hwf : l.WellFormed) (thres : TimeSpan)
    (c : Candidate) (procId : ProcessorIdType) (result : TemplateResult)
    (hpc : l.PairwiseConsistent thres c.association.results)
    (hv : l.prepare.pot.validateEnabledOffsets (l.createCandidatePOT c procId result) thres =
      true) :
    l.PairwiseConsistent thres (c.feed procId result).association.results := by
  have hval := (validateEnabledOffsets_createCandidatePOT l hwf c procId result thres).1 hv
  cases hl : c.association.results.lookup procId with
  | some r0 =>
    simp only [Candidate.feed]
    rw [emplace_of_lookup_some procId result r0 _ hl]
    exact hpc
  | none =>
    intro i j ri rj hne hi hj
    simp only [Candidate.feed] at hi hj
    by_cases hip : i = procId
    · have hjp : j ≠ procId := fun h => hne (hip.trans h.symm)
      rw [hip, lookup_emplace_self, hl] at hi
      rw [lookup_emplace_ne _ _ _ _ hjp] at hj
      simp only [Option.getD_none, Option.some.injEq] at hi
      rw [hip, ← hi]
      exact (hval.1 j rj hjp hj).symm
    · rw [lookup_emplace_ne _ _ _ _ hip] at hi
      by_cases hjp : j = procId
      · rw [hjp, lookup_emplace_self, hl] at hj
        simp only [Option.getD_none, Option.some.injEq] at hj
        rw [hjp, ← hj]
        exact hval.1 i ri hip hi
      · rw [lookup_emplace_ne _ _ _ _ hjp] at hj
        exact hpc i j ri rj hne hi hj

theorem pairwiseConsistent_mergeCandidate (l : Linker) (hwf : l.WellFormed) (thres : TimeSpan)
    (hthres : l.thresArrivalOffset = some thres) (c : Candidate) (procId : ProcessorIdType)
    (result : TemplateResult) (hpc : l.PairwiseConsistent thres c.association.results) :
    l.PairwiseConsistent thres (l.prepare.mergeCandidate procId result c).association.results := by
  rcases mergeCandidate_cases_valid l.prepare thres procId result c (by simpa using hthres)
    with h | ⟨h, hv⟩ <;> rw [h]
  · exact hpc
  · exact pairwiseConsistent_feed l hwf thres c procId result hpc (by simpa using hv)

theorem pairwiseConsistent_seed (l : Linker) (thres : TimeSpan) (now : Time)
    (procId : ProcessorIdType) (result : TemplateResult) :
    l.PairwiseConsistent thres (l.seed now procId result).association.results := by
  intro i j ri rj hne hi hj
  have hi2 : i = procId := by
    by_contra h
    simp [seed, Candidate.feed, Candidate.create, lookup_emplace_ne _ _ _ _ h] at hi
  have hj2 : j = procId := by
    by_contra h
    simp [seed, Candidate.feed, Candidate.create, lookup_emplace_ne _ _ _ _ h] at hj
  exact absurd (hi2.trans hj2.symm) hne

end Linker

namespace Linker

theorem process_gate (l0 : Linker) (thres : TimeSpan) (s : Linker) (now : Time)
    (proc : TemplateWaveformProcessor) (result : TemplateResult)
    (h : s.processors = l0.processors ∧ s.thresArrivalOffset = some thres ∧ s.WellFormed ∧
      ∀ c ∈ s.queue, l0.PairwiseConsistent thres c.association.results) :
    ((s.process now proc result).1.processors = l0.processors ∧
      (s.process now proc result).1.thresArrivalOffset = some thres ∧
      (s.process now proc result).1.WellFormed ∧
      ∀ c ∈ (s.process now proc result).1.queue,
        l0.PairwiseConsistent thres c.association.results) ∧
    ∀ a ∈ (s.process now proc result).2, l0.PairwiseConsistent thres a.results := by
  obtain ⟨hp, hthres, hwf, hq⟩ := h
  have hpf := process_forall s now proc result
    (fun c => l0.PairwiseConsistent thres c.association.results)
    (fun c _ hc => (pairwiseConsistent_congr l0 s hp thres _).1
      (pairwiseConsistent_mergeCandidate s hwf thres hthres c proc.id result
        ((pairwiseConsistent_congr l0 s hp thres _).2 hc)))
    ((pairwiseConsistent_congr l0 s hp thres _).1 (pairwiseConsistent_seed s thres now _ _)) hq
  refine ⟨⟨by simpa using hp, by simpa using hthres, wellFormed_process s now proc result hwf,
    hpf.1⟩, ?_⟩
  intro a ha
  obtain ⟨c, hc, rfl⟩ := hpf.2 a ha
  exact hc

theorem step_gate (l0 : Linker) (thres : TimeSpan) (s : Linker) (op : Op)
    (hop : op.keepsGate = true)
    (h : s.processors = l0.processors ∧ s.thresArrivalOffset = some thres ∧ s.WellFormed ∧
      ∀ c ∈ s.queue, l0.PairwiseConsistent thres c.association.results) :
    ((s.step op).1.processors = l0.processors ∧
      (s.step op).1.thresArrivalOffset = some thres ∧
      (s.step op).1.WellFormed ∧
      ∀ c ∈ (s.step op).1.queue, l0.PairwiseConsistent thres c.association.results) ∧
    ∀ a ∈ (s.step op).2, l0.PairwiseConsistent thres a.results := by
  have hwf := wellFormed_step s op h.2.2.1
  cases op with
  | setThresArrivalOffset thres2 => simp [Op.keepsGate] at hop
  | setThresAssociation thres2 => exact ⟨⟨h.1, h.2.1, hwf, h.2.2.2⟩, by simp [step]⟩
  | setMinArrivals n => exact ⟨⟨h.1, h.2.1, hwf, h.2.2.2⟩, by simp [step]⟩
  | setOnHold duration => exact ⟨⟨h.1, h.2.1, hwf, h.2.2.2⟩, by simp [step]⟩
  | setMergingStrategy mergingStrategy => exact ⟨⟨h.1, h.2.1, hwf, h.2.2.2⟩, by simp [step]⟩
  | add proc arrival mergingThreshold => simp [Op.keepsGate] at hop
  | remove procId => simp [Op.keepsGate] at hop
  | reset => exact ⟨⟨h.1, h.2.1, hwf, by simp [step, reset]⟩, by simp [step]⟩
  | flush =>
    refine ⟨⟨h.1, h.2.1, hwf, by simp [step, flush_queue]⟩, ?_⟩
    intro a ha
    obtain ⟨c, hc, rfl, _⟩ := mem_flush_emitted s a ha
    exact h.2.2.2 c hc
  | feed clock proc matchResult =>
    exact feed_induct
      (fun t => t.processors = l0.processors ∧ t.thresArrivalOffset = some thres ∧
        t.WellFormed ∧ ∀ c ∈ t.queue, l0.PairwiseConsistent thres c.association.results)
      (fun a => l0.PairwiseConsistent thres a.results)
      (fun t now p result ht => process_gate l0 thres t now p result ht)
      s clock proc matchResult h

/-- With the arrival offset threshold and the registrations fixed, pairwise
consistency of the queued candidates is kept by every sequence of calls, and every
association emitted on the way is pairwise consistent. -/
theorem run_gate (l : Linker) (thres : TimeSpan) (hwf : l.WellFormed)
    (hthres : l.thresArrivalOffset = some thres)
    (hq : ∀ c ∈ l.queue, l.PairwiseConsistent thres c.association.results) (ops : List Op)
    (hops : ∀ op ∈ ops, op.keepsGate = true) :
    (∀ c ∈ (l.run ops).1.queue, l.PairwiseConsistent thres c.association.results) ∧
      ∀ a ∈ (l.run ops).2, l.PairwiseConsistent thres a.results := by
  have := run_induct (fun op => op.keepsGate = true)
    (fun t => t.processors = l.processors ∧ t.thresArrivalOffset = some thres ∧
      t.WellFormed ∧ ∀ c ∈ t.queue, l.PairwiseConsistent thres c.association.results)
    (fun a => l.PairwiseConsistent thres a.results)
    (fun t op hop ht => step_gate l thres t op hop ht) ops l hops ⟨rfl, hthres, hwf, hq⟩
  exact ⟨this.1.2.2.2, this.2⟩

end Linker

namespace Linker

/-- Induction over the loop of `feed` that keeps track of the results handed to
`process`: each is built from the registration of the feeding processor and a local
maximum of the match result. -/
theorem feedLoop_induct_of (Inv : Linker → Prop) (Q : Association → Prop)
    (proc : TemplateWaveformProcessor) (linkerProc : Processor) (matchResult : MatchResult)
    (clock : Nat → Time) :
    ∀ (values : List LocalMaxima) (i : Nat) (s : Linker × List Association),
      (∀ (t : Linker) (now : Time), ∀ value ∈ values, Inv t →
        Inv (t.process now proc (templateResultOf linkerProc matchResult value)).1 ∧
          ∀ a ∈ (t.process now proc (templateResultOf linkerProc matchResult value)).2, Q a) →
      Inv s.1 → (∀ a ∈ s.2, Q a) →
      Inv (feedLoop proc linkerProc matchResult clock i values s).1 ∧
        ∀ a ∈ (feedLoop proc linkerProc matchResult clock i values s).2, Q a := by
  intro values
  induction values with
  | nil => intro i s _ hs hq; exact ⟨hs, hq⟩
  | cons value rest ih =>
    intro i s hstep hs hq
    have hrest : ∀ (t : Linker) (now : Time), ∀ v ∈ rest, Inv t →
        Inv (t.process now proc (templateResultOf linkerProc matchResult v)).1 ∧
          ∀ a ∈ (t.process now proc (templateResultOf linkerProc matchResult v)).2, Q a :=
      fun t now v hv => hstep t now v (List.mem_cons_of_mem _ hv)
    simp only [feedLoop]
    split
    · exact ih (i + 1) s hrest hs hq
    · have hp := hstep s.1 (clock i) value (List.mem_cons_self _ _) hs
      refine ih (i + 1) _ hrest hp.1 ?_
      intro a ha
      rcases List.mem_append.1 ha with h | h
      · exact hq a h
      · exact hp.2 a h

theorem feed_induct_of (Inv : Linker → Prop) (Q : Association → Prop) (l : Linker)
    (clock : Nat → Time) (proc : TemplateWaveformProcessor) (matchResult : MatchResult)
    (hstep : ∀ (t : Linker) (now : Time) (linkerProc : Processor),
      l.processors.lookup proc.id = some linkerProc → ∀ value ∈ matchResult.localMaxima,
        Inv t →
          Inv (t.process now proc (templateResultOf linkerProc matchResult value)).1 ∧
            ∀ a ∈ (t.process now proc (templateResultOf linkerProc matchResult value)).2, Q a)
    (hl : Inv l) :
    Inv (l.feed clock proc matchResult).1 ∧ ∀ a ∈ (l.feed clock proc matchResult).2, Q a := by
  unfold feed
  cases hp : l.processors.lookup proc.id with
  | none => exact ⟨hl, by simp⟩
  | some linkerProc =>
    exact feedLoop_induct_of Inv Q proc linkerProc matchResult clock _ 0 (l, [])
      (fun t now value hv ht => hstep t now linkerProc hp value hv ht) hl (by simp)

/-- A `process` call emits nothing when no candidate the sweep runs over is ready. -/
theorem process_emits_nothing (l : Linker) (now : Time) (proc : TemplateWaveformProcessor)
    (result : TemplateResult)
    (h : ∀ c ∈ l.sweepQueue now proc.id result, l.sweepReady now c = false) :
    ∀ a ∈ (l.process now proc result).2, False := by
  intro a ha
  obtain ⟨c, hc, _, hready, _⟩ := mem_process_emitted l now proc result a ha
  rw [h c hc] at hready
  exact Bool.noConfusion hready

end Linker

theorem Candidate.feed_results_of_lookup_some (c : Candidate) (procId : ProcessorIdType)
    (res r0 : TemplateResult) (h : c.association.results.lookup procId = some r0) :
    (c.feed procId res).association.results = c.association.results := by
  simp only [Candidate.feed]
  exact emplace_of_lookup_some procId res r0 _ h

namespace Linker

theorem lookup_seed (l : Linker) (now : Time) (procId : ProcessorIdType)
    (result : TemplateResult) :
    (l.seed now procId result).association.results.lookup procId = some result := by
  simp [seed, Candidate.feed, Candidate.create, lookup_emplace_self]

/-! ## Scenario S3 -/

theorem s3_registrations (s : Linker) (hs : Scenario.s3State s) :
    s.processors.lookup "A" =
        some { proc := Scenario.procA, arrival := Scenario.arrivalA, mergingThreshold := none } ∧
      s.processors.lookup "B" =
        some { proc := Scenario.procB, arrival := Scenario.arrivalB, mergingThreshold := none } ∧
      s.templatePick "A" = some 0 ∧ s.templatePick "B" = some 2000000 ∧
      s.processorCount = 2 := by
  simp only [templatePick, processorCount, hs.1]
  refine ⟨by decide!, by decide!, by decide!, by decide!, by decide!⟩

theorem s3_mergeCandidate (s : Linker) (hs : Scenario.s3State s) (procId : ProcessorIdType)
    (result : TemplateResult)
    (hres : (procId = "A" ∧ result.arrival.pick.time = 7) ∨
      (procId = "B" ∧ result.arrival.pick.time = 2500007))
    (c : Candidate) (hc : Scenario.s3Candidate c) :
    Scenario.s3Candidate (s.prepare.mergeCandidate procId result c) := by
  obtain ⟨_, _, hA, hB, _⟩ := s3_registrations s hs
  have hsame : ∀ r0, c.association.results.lookup procId = some r0 →
      Scenario.s3Candidate (s.prepare.mergeCandidate procId result c) := by
    intro r0 hr0
    rcases mergeCandidate_cases s.prepare procId result c with h | h <;> rw [h]
    · exact hc
    · have hr := Candidate.feed_results_of_lookup_some c procId result r0 hr0
      simp only [Scenario.s3Candidate, Candidate.associatedProcessorCount,
        Association.processorCount, hr]
      exact hc
  rcases hres with ⟨hp, ht⟩ | ⟨hp, ht⟩ <;> rcases hc.2 with ⟨r, hr, hrt⟩ | ⟨r, hr, hrt⟩
  · exact hsame r (by rw [hp]; exact hr)
  · rw [mergeCandidate_gated s hs.2.2.2.1 1000 hs.2.1 c procId result "B" r 0 2000000
      (by rw [hp]; decide) hr (by rw [hp]; exact hA) hB (by rw [ht, hrt]; decide)]
    exact hc
  · rw [mergeCandidate_gated s hs.2.2.2.1 1000 hs.2.1 c procId result "A" r 2000000 0
      (by rw [hp]; decide) hr (by rw [hp]; exact hB) hA (by rw [ht, hrt]; decide)]
    exact hc
  · exact hsame r (by rw [hp]; exact hr)

theorem s3_not_ready (s : Linker) (hs : Scenario.s3State s) (now : Time) (c : Candidate)
    (hc : Scenario.s3Candidate c) : s.sweepReady now c = false := by
  obtain ⟨_, _, _, _, hN⟩ := s3_registrations s hs
  simp [sweepReady, hc.1, hN, hs.2.2.1]

theorem s3_process (s : Linker) (hs : Scenario.s3State s) (now : Time)
    (proc : TemplateWaveformProcessor) (result : TemplateResult)
    (hres : (proc.id = "A" ∧ result.arrival.pick.time = 7) ∨
      (proc.id = "B" ∧ result.arrival.pick.time = 2500007)) :
    Scenario.s3State (s.process now proc result).1 ∧
      ∀ a ∈ (s.process now proc result).2, False := by
  have hseed : Scenario.s3Candidate (s.seed now proc.id result) := by
    refine ⟨count_seed s now proc.id result, ?_⟩
    rcases hres with ⟨hp, ht⟩ | ⟨hp, ht⟩
    · exact Or.inl ⟨result, by rw [← hp]; exact lookup_seed s now proc.id result, ht⟩
    · exact Or.inr ⟨result, by rw [← hp]; exact lookup_seed s now proc.id result, ht⟩
  have hsq := sweepQueue_forall s now proc.id result Scenario.s3Candidate
    (fun c _ hc => s3_mergeCandidate s hs proc.id result hres c hc) hseed hs.2.2.2.2
  have hpf := process_forall s now proc result Scenario.s3Candidate
    (fun c _ hc => s3_mergeCandidate s hs proc.id result hres c hc) hseed hs.2.2.2.2
  refine ⟨⟨by simpa using hs.1, by simpa using hs.2.1, by simpa using hs.2.2.1,
    wellFormed_process s now proc result hs.2.2.2.1, hpf.1⟩, ?_⟩
  exact process_emits_nothing s now proc result (fun c hc => s3_not_ready s hs now c (hsq c hc))

theorem s3_step (s : Linker) (hs : Scenario.s3State s) (op : Op) (hop : Scenario.s3Call op) :
    Scenario.s3State (s.step op).1 ∧ ∀ a ∈ (s.step op).2, False := by
  obtain ⟨hA, hB, _, _, hN⟩ := s3_registrations s hs
  rcases hop with rfl | rfl | ⟨clock, coefficient, rfl⟩ | ⟨clock, coefficient, rfl⟩
  · refine ⟨⟨hs.1, hs.2.1, hs.2.2.1, wellFormed_step s Op.flush hs.2.2.2.1,
      by simp [step, flush_queue]⟩, ?_⟩
    intro a ha
    obtain ⟨c, hc, _, hem⟩ := mem_flush_emitted s a ha
    have := (hs.2.2.2.2 c hc).1
    simp [flushEmits, this, hs.2.2.1] at hem
  · exact ⟨⟨hs.1, hs.2.1, hs.2.2.1, wellFormed_step s Op.reset hs.2.2.2.1,
      by simp [step, reset]⟩, by simp [step]⟩
  · refine feed_induct_of Scenario.s3State (fun _ => False) s clock Scenario.procA _ ?_ hs
    intro t now linkerProc hlp value hv ht
    have hlp2 : linkerProc = ⟨Scenario.procA, Scenario.arrivalA, none⟩ := by
      have : s.processors.lookup "A" = some linkerProc := hlp
      rw [hA] at this
      exact (Option.some.inj this).symm
    have hv2 : value = { coefficient := coefficient, lag := 0 } := by
      simpa [Scenario.matchAt] using hv
    exact s3_process t ht now Scenario.procA _ (Or.inl ⟨rfl, by rw [hlp2, hv2]; rfl⟩)
  · refine feed_induct_of Scenario.s3State (fun _ => False) s clock Scenario.procB _ ?_ hs
    intro t now linkerProc hlp value hv ht
    have hlp2 : linkerProc = ⟨Scenario.procB, Scenario.arrivalB, none⟩ := by
      have : s.processors.lookup "B" = some linkerProc := hlp
      rw [hB] at this
      exact (Option.some.inj this).symm
    have hv2 : value = { coefficient := coefficient, lag := 0 } := by
      simpa [Scenario.matchAt] using hv
    exact s3_process t ht now Scenario.procB _ (Or.inr ⟨rfl, by rw [hlp2, hv2]; rfl⟩)

theorem s3_initial (onHold : TimeSpan) :
    Scenario.s3State (Scenario.linkerAB onHold (some 1000) (some 2)) := by
  refine ⟨rfl, rfl, rfl, ?_, by simp [Scenario.linkerAB, create, setThresArrivalOffset,
    setMinArrivals]⟩
  unfold Scenario.linkerAB
  refine wellFormed_add _ _ _ _ (wellFormed_add _ _ _ _ ?_)
  exact wellFormed_of_eq (create onHold 2) _ (wellFormed_create onHold 2) rfl rfl rfl

/-- Scenario S3: whatever the on-hold duration and the times of the calls, no
sequence of feeds of `A` (pick at `u0`) and of `B` (pick at `u0 + 2.5 s`), flushes and
resets emits an association. -/
theorem s3_emits_nothing (onHold : TimeSpan) (ops : List Op)
    (hops : ∀ op ∈ ops, Scenario.s3Call op) :
    ((Scenario.linkerAB onHold (some 1000) (some 2)).run ops).2 = [] := by
  have := (run_induct Scenario.s3Call Scenario.s3State (fun _ => False)
    (fun s op hop hs => s3_step s hs op hop) ops _ hops (s3_initial onHold)).2
  exact List.eq_nil_iff_forall_not_mem.2 (fun a ha => this a ha)

end Linker

namespace Linker

/-- Claim C2. Let the linker be in a state reached from a fresh linker, with the
arrival offset threshold set to `thres`. (1) The merge loop of `process` leaves a
candidate as it is whenever, for some member `q` of the candidate other than the
feeding processor, the observed pick-time difference deviates from the template
pick-time difference by more than `thres`. (2) Consequently, if the queued candidates
are pairwise consistent within `thres` (as they are when the queue is empty), then
after any sequence of calls that change neither the threshold nor the registrations,
every queued candidate and every association emitted by `feed` or `flush` is pairwise
consistent within `thres`. (3) In scenario S3 no association is ever emitted. -/
theorem pot_gating (onHold arrivalOffsetThres : TimeSpan) (setup : List Op) (thres : TimeSpan)
    (hthres : ((create onHold arrivalOffsetThres).run setup).1.thresArrivalOffset = some thres) :
    (∀ (c : Candidate) (procId : ProcessorIdType) (result : TemplateResult)
      (q : ProcessorIdType) (rq : TemplateResult) (templateP templateQ : Time),
      q ≠ procId → c.association.results.lookup q = some rq →
      ((create onHold arrivalOffsetThres).run setup).1.templatePick procId = some templateP →
      ((create onHold arrivalOffsetThres).run setup).1.templatePick q = some templateQ →
      thres < |(result.arrival.pick.time - rq.arrival.pick.time) - (templateP - templateQ)| →
      ((create onHold arrivalOffsetThres).run setup).1.prepare.mergeCandidate procId result c
        = c) ∧
    ((∀ c ∈ ((create onHold arrivalOffsetThres).run setup).1.queue,
        ((create onHold arrivalOffsetThres).run setup).1.PairwiseConsistent thres
          c.association.results) →
      ∀ (ops : List Op), (∀ op ∈ ops, op.keepsGate = true) →
        (∀ c ∈ (((create onHold arrivalOffsetThres).run setup).1.run ops).1.queue,
          ((create onHold arrivalOffsetThres).run setup).1.PairwiseConsistent thres
            c.association.results) ∧
        (∀ a ∈ (((create onHold arrivalOffsetThres).run setup).1.run ops).2,
          ((create onHold arrivalOffsetThres).run setup).1.PairwiseConsistent thres
            a.results)) ∧
    (∀ (onHold2 : TimeSpan) (ops : List Op), (∀ op ∈ ops, Scenario.s3Call op) →
      ((Scenario.linkerAB onHold2 (some 1000) (some 2)).run ops).2 = []) := by
  have hwf := wellFormed_run (create onHold arrivalOffsetThres) setup
    (wellFormed_create onHold arrivalOffsetThres)
  refine ⟨?_, ?_, s3_emits_nothing⟩
  · intro c procId result q rq templateP templateQ hq hrq hp hq2 hdev
    exact mergeCandidate_gated _ hwf thres hthres c procId result q rq templateP templateQ hq
      hrq hp hq2 hdev
  · intro hq ops hops
    exact run_gate _ thres hwf hthres hq ops hops

/-- The candidate holding the result of `A` with its pick at `u0 = 7` is left as it is
when `B` feeds a result with its pick at `u0 + 2.5 s`. -/
theorem pot_gating_witness :
    ((create 5000000 2).run Scenario.setupAB).1.prepare.mergeCandidate "B"
      (Scenario.resultB 500007 (4 / 5)) Scenario.s5Candidate = Scenario.s5Candidate :=
  (pot_gating 5000000 2 Scenario.setupAB 1000 (by decide!)).1 Scenario.s5Candidate "B"
    (Scenario.resultB 500007 (4 / 5)) "A" (Scenario.resultA 7 (3 / 5)) 2000000 0 (by decide)
    (by decide!) (by decide!) (by decide!) (by decide!)

end Linker

theorem mean_ge (thres : ℚ) (xs : List ℚ) (hne : xs ≠ []) (h : ∀ x ∈ xs, thres ≤ x) :
    thres ≤ mean xs := by
  have hlen : (0 : ℚ) < xs.length := by
    have : 0 < xs.length := List.length_pos.2 hne
    exact_mod_cast this
  have hsum : thres * xs.length ≤ xs.sum := by
    clear hne hlen
    induction xs with
    | nil => simp
    | cons x xs ih =>
      have hx := h x (List.mem_cons_self _ _)
      have hrest := ih (fun y hy => h y (List.mem_cons_of_mem _ hy))
      simp only [List.length_cons, List.sum_cons]
      push_cast
      linarith
  unfold mean
  rw [le_div_iff₀ hlen]
  exact hsum

namespace Linker

theorem run_append (l : Linker) (ops1 ops2 : List Op) :
    l.run (ops1 ++ ops2) =
      (((l.run ops1).1.run ops2).1, (l.run ops1).2 ++ ((l.run ops1).1.run ops2).2) := by
  induction ops1 generalizing l with
  | nil => simp [run]
  | cons op ops ih =>
    rw [List.cons_append]
    simp only [run]
    rw [ih (l.step op).1]
    simp

theorem feed_single (s : Linker) (x : SingleFeed) (linkerProc : Processor)
    (hreg : s.processors.lookup x.proc.id = some linkerProc)
    (hnd : s.dropped linkerProc (templateResultOf linkerProc x.matchResult x.value) = false) :
    s.step x.op = s.process x.now x.proc (templateResultOf linkerProc x.matchResult x.value) := by
  simp [step, SingleFeed.op, feed, hreg, feedLoop, SingleFeed.matchResult] at hnd ⊢
  simp [hnd]

theorem not_dropped_default (s : Linker) (linkerProc : Processor) (res : TemplateResult)
    (hms : s.mergingStrategy = some defaultMergingStrategy)
    (hcoef : ∀ thres, s.thresAssociation = some thres → thres ≤ res.resultIt.coefficient) :
    s.dropped linkerProc res = false := by
  unfold dropped
  rw [hms]
  cases hthres : s.thresAssociation with
  | none => rfl
  | some thres => simpa [defaultMergingStrategy] using hcoef thres hthres

theorem mergeCandidate_eq_feed (l : Linker) (procId : ProcessorIdType) (result : TemplateResult)
    (c : Candidate) (hcount : c.associatedProcessorCount < l.processorCount)
    (hnew : c.association.results.lookup procId = none)
    (hvalid : ∀ thres, l.thresArrivalOffset = some thres →
      l.pot.validateEnabledOffsets (l.createCandidatePOT c procId result) thres = true) :
    l.mergeCandidate procId result c = c.feed procId result := by
  unfold mergeCandidate
  simp only [hcount, if_true, hnew, Option.isNone_none, Bool.true_or]
  cases hthres : l.thresArrivalOffset with
  | none => rfl
  | some thres => simp [hvalid thres hthres]

end Linker

namespace Linker

/-! ## Outcomes of the sweep -/

theorem sweepReady_false_of (l : Linker) (now : Time) (c : Candidate)
    (hcount : c.associatedProcessorCount ≠ l.processorCount) (hlive : now < c.expired) :
    l.sweepReady now c = false := by
  simp [sweepReady, hcount, not_le.2 hlive]

theorem process_keeps_all (l : Linker) (now : Time) (proc : TemplateWaveformProcessor)
    (result : TemplateResult) (hpos : 0 < l.processorCount)
    (h : ∀ c ∈ l.sweepQueue now proc.id result,
      c.associatedProcessorCount ≠ l.processorCount ∧ now < c.expired) :
    (l.process now proc result).1.queue = l.sweepQueue now proc.id result ∧
      (l.process now proc result).2 = [] := by
  rw [process_queue l now proc result hpos, process_emitted l now proc result hpos]
  constructor
  · rw [List.filter_eq_self]
    intro c hc
    simp [sweepReady_false_of l now c (h c hc).1 (h c hc).2, not_le.2 (h c hc).2]
  · rw [List.map_eq_nil_iff, List.filter_eq_nil_iff]
    intro c hc
    simp [sweepReady_false_of l now c (h c hc).1 (h c hc).2]

theorem process_emits_first (l : Linker) (now : Time) (proc : TemplateWaveformProcessor)
    (result : TemplateResult) (hpos : 0 < l.processorCount) (c0 : Candidate)
    (rest : List Candidate) (hq : l.sweepQueue now proc.id result = c0 :: rest)
    (hc0 : c0.associatedProcessorCount = l.processorCount)
    (hthres : l.surpassesThreshold c0 = true)
    (h : ∀ c ∈ rest, c.associatedProcessorCount ≠ l.processorCount ∧ now < c.expired) :
    (l.process now proc result).2 = [c0.association] := by
  rw [process_emitted l now proc result hpos, hq]
  have hready : l.sweepReady now c0 = true := by simp [sweepReady, hc0]
  have hrest : rest.filter (fun c => l.sweepReady now c && l.surpassesThreshold c) = [] := by
    rw [List.filter_eq_nil_iff]
    intro c hc
    simp [sweepReady_false_of l now c (h c hc).1 (h c hc).2]
  simp [List.filter_cons, hready, hthres, hrest]

/-! ## Consistent feeds of different processors, less than `onHold` apart -/

theorem offsetOk_congr (l l2 : Linker) (h : l2.processors = l.processors) (thres : TimeSpan)
    (i j : ProcessorIdType) (ti tj : Time) :
    l2.OffsetOk thres i j ti tj ↔ l.OffsetOk thres i j ti tj := by
  simp only [OffsetOk, templatePick, h]

theorem chain_count_le (l : Linker) (fed : List SingleFeed) (s : Linker)
    (hinv : l.ChainInv fed s) : ∀ c ∈ s.queue, c.associatedProcessorCount ≤ fed.length := by
  intro c hc
  rcases hinv.2.2.2.2.2.2.2 with ⟨_, hq⟩ | ⟨c0, rest, hq, h0, hrest⟩
  · rw [hq] at hc; simp at hc
  · rw [hq] at hc
    rcases List.mem_cons.1 hc with rfl | hc
    · exact le_of_eq h0
    · exact le_of_lt (hrest c hc)

theorem chain_lookup_none (l : Linker) (fed : List SingleFeed) (s : Linker)
    (hinv : l.ChainInv fed s) (procId : ProcessorIdType)
    (hfresh : ∀ f ∈ fed, f.proc.id ≠ procId) :
    ∀ c ∈ s.queue, c.association.results.lookup procId = none := by
  intro c hc
  cases hl : c.association.results.lookup procId with
  | none => rfl
  | some res =>
    obtain ⟨f, hf, hid, _⟩ := (hinv.2.2.2.2.2.2.1 c hc).1 procId res hl
    exact absurd hid (hfresh f hf)

end Linker

namespace Linker

theorem chain_valid (l : Linker) (fed : List SingleFeed) (s : Linker)
    (hinv : l.ChainInv fed s) (procId : ProcessorIdType) (result : TemplateResult)
    (hcons : ∀ thres, l.thresArrivalOffset = some thres → ∀ f ∈ fed, ∀ rf,
      l.feedResult f = some rf →
        l.OffsetOk thres f.proc.id procId rf.arrival.pick.time result.arrival.pick.time) :
    ∀ c ∈ s.queue, ∀ thres, s.prepare.thresArrivalOffset = some thres →
      s.prepare.pot.validateEnabledOffsets (s.prepare.createCandidatePOT c procId result) thres =
        true := by
  intro c hc thres hthres
  obtain ⟨hp, hto, _, _, _, hwf, hq, _⟩ := hinv
  have hthres2 : l.thresArrivalOffset = some thres := by
    rw [← hto]; simpa using hthres
  rw [prepare_createCandidatePOT, validateEnabledOffsets_createCandidatePOT s hwf]
  constructor
  · intro q rq _ hrq
    obtain ⟨f, hf, hid, hres⟩ := (hq c hc).1 q rq hrq
    rw [offsetOk_congr l s hp, ← hid]
    exact hcons thres hthres2 f hf rq hres
  · intro q1 q2 r1 r2 _ _ hne h1 h2
    rw [offsetOk_congr l s hp]
    exact (hq c hc).2.2.1 thres hthres2 q1 q2 r1 r2 hne h1 h2

theorem chain_sweepQueue (l : Linker) (fed : List SingleFeed) (s : Linker)
    (hinv : l.ChainInv fed s) (now : Time) (procId : ProcessorIdType) (result : TemplateResult)
    (hfresh : ∀ f ∈ fed, f.proc.id ≠ procId)
    (hcons : ∀ thres, l.thresArrivalOffset = some thres → ∀ f ∈ fed, ∀ rf,
      l.feedResult f = some rf →
        l.OffsetOk thres f.proc.id procId rf.arrival.pick.time result.arrival.pick.time)
    (hlen : fed.length < l.processorCount) :
    s.sweepQueue now procId result =
      s.queue.map (fun c => c.feed procId result) ++ [s.seed now procId result] := by
  have hN : s.processorCount = l.processorCount := by simp [processorCount, hinv.1]
  simp only [sweepQueue, prepare_queue]
  congr 1
  apply List.map_congr_left
  intro c hc
  apply mergeCandidate_eq_feed
  · rw [prepare_processorCount, hN]
    exact lt_of_le_of_lt (chain_count_le l fed s hinv c hc) hlen
  · exact chain_lookup_none l fed s hinv procId hfresh c hc
  · exact chain_valid l fed s hinv procId result hcons c hc

theorem lookup_seed_ne (l : Linker) (now : Time) (procId q : ProcessorIdType)
    (result : TemplateResult) (h : q ≠ procId) :
    (l.seed now procId result).association.results.lookup q = none := by
  simp [seed, Candidate.feed, Candidate.create, lookup_emplace_ne _ _ _ _ h]

/-- What holds of every candidate of the queue the sweep runs over, after one more
consistent feed of a new processor. -/
theorem chain_candidates (l : Linker) (fed : List SingleFeed) (s : Linker)
    (hinv : l.ChainInv fed s) (x : SingleFeed) (result : TemplateResult)
    (hx : l.feedResult x = some result)
    (hfresh : ∀ f ∈ fed, f.proc.id ≠ x.proc.id)
    (hcons : ∀ thres, l.thresArrivalOffset = some thres → ∀ f ∈ fed, ∀ rf,
      l.feedResult f = some rf →
        l.OffsetOk thres f.proc.id x.proc.id rf.arrival.pick.time result.arrival.pick.time) :
    ∀ c ∈ s.queue.map (fun c => c.feed x.proc.id result) ++ [s.seed x.now x.proc.id result],
      (∀ procId res, c.association.results.lookup procId = some res →
        ∃ f ∈ fed ++ [x], f.proc.id = procId ∧ l.feedResult f = some res) ∧
      (∃ f ∈ fed ++ [x], c.expired = f.now + l.onHold) ∧
      (∀ thres, l.thresArrivalOffset = some thres →
        l.PairwiseConsistent thres c.association.results) ∧
      c.association.score = mean c.association.coefficients := by
  intro c hc
  rcases List.mem_append.1 hc with hc | hc
  · obtain ⟨d, hd, rfl⟩ := List.mem_map.1 hc
    have hnone := chain_lookup_none l fed s hinv x.proc.id hfresh d hd
    obtain ⟨h1, ⟨f0, hf0, hexp⟩, h3, _⟩ := hinv.2.2.2.2.2.2.1 d hd
    refine ⟨?_, ⟨f0, List.mem_append_left _ hf0, hexp⟩, ?_, feed_score d _ _⟩
    · intro procId res hl
      by_cases hp : procId = x.proc.id
      · subst hp
        simp only [Candidate.feed, lookup_emplace_self, hnone, Option.getD_none,
          Option.some.injEq] at hl
        exact ⟨x, by simp, rfl, by rw [hx, hl]⟩
      · simp only [Candidate.feed, lookup_emplace_ne _ _ _ _ hp] at hl
        obtain ⟨f, hf, hid, hres⟩ := h1 procId res hl
        exact ⟨f, List.mem_append_left _ hf, hid, hres⟩
    · intro thres hthres
      rw [← pairwiseConsistent_congr l s hinv.1]
      apply pairwiseConsistent_feed s hinv.2.2.2.2.2.1 thres d x.proc.id result
      · rw [pairwiseConsistent_congr l s hinv.1]
        exact h3 thres hthres
      · have := chain_valid l fed s hinv x.proc.id result hcons d hd thres
          (by simp [hinv.2.1, hthres])
        simpa using this
  · rw [List.mem_singleton.1 hc]
    refine ⟨?_, ⟨x, by simp, by simp [seed, Candidate.feed, Candidate.create, hinv.2.2.2.1]⟩,
      fun thres _ => (pairwiseConsistent_congr l s hinv.1 thres _).1
        (pairwiseConsistent_seed s thres _ _ _), feed_score _ _ _⟩
    intro procId res hl
    by_cases hp : procId = x.proc.id
    · subst hp
      rw [lookup_seed] at hl
      exact ⟨x, by simp, rfl, by rw [hx]; exact hl⟩
    · rw [lookup_seed_ne _ _ _ _ _ hp] at hl
      exact Option.noConfusion hl

end Linker

namespace Linker

theorem chain_shape (l : Linker) (fed : List SingleFeed) (s : Linker)
    (hinv : l.ChainInv fed s) (x : SingleFeed) (result : TemplateResult)
    (hfresh : ∀ f ∈ fed, f.proc.id ≠ x.proc.id) :
    ∃ c0 rest,
      s.queue.map (fun c => c.feed x.proc.id result) ++ [s.seed x.now x.proc.id result] =
        c0 :: rest ∧
      c0.associatedProcessorCount = (fed ++ [x]).length ∧
      ∀ c ∈ rest, c.associatedProcessorCount < (fed ++ [x]).length := by
  have hnone := chain_lookup_none l fed s hinv x.proc.id hfresh
  rcases hinv.2.2.2.2.2.2.2 with ⟨hfed, hq⟩ | ⟨c0, rest, hq, h0, hrest⟩
  · refine ⟨s.seed x.now x.proc.id result, [], by simp [hq], ?_, by simp⟩
    simp [hfed, count_seed]
  · have hpos : 0 < fed.length := by
      obtain ⟨f, hf, _⟩ := (hinv.2.2.2.2.2.2.1 c0 (by rw [hq]; exact List.mem_cons_self _ _)).2.1
      exact List.length_pos_of_mem hf
    refine ⟨c0.feed x.proc.id result,
      rest.map (fun c => c.feed x.proc.id result) ++ [s.seed x.now x.proc.id result],
      by simp [hq], ?_, ?_⟩
    · rw [Candidate.count_feed, hnone c0 (by rw [hq]; exact List.mem_cons_self _ _)]
      simp [h0]
    · intro c hc
      rcases List.mem_append.1 hc with hc | hc
      · obtain ⟨d, hd, rfl⟩ := List.mem_map.1 hc
        have h1 := Candidate.count_feed_le d x.proc.id result
        have h2 := hrest d hd
        simp only [List.length_append, List.length_singleton]
        omega
      · rw [List.mem_singleton.1 hc, count_seed]
        simp only [List.length_append, List.length_singleton]
        omega

theorem chain_live (l : Linker) (fed : List SingleFeed) (s : Linker)
    (hinv : l.ChainInv fed s) (x : SingleFeed) (result : TemplateResult)
    (hhold : 0 < l.onHold) (htime : ∀ f ∈ fed, x.now < f.now + l.onHold) :
    ∀ c ∈ s.queue.map (fun c => c.feed x.proc.id result) ++ [s.seed x.now x.proc.id result],
      x.now < c.expired := by
  intro c hc
  rcases List.mem_append.1 hc with hc | hc
  · obtain ⟨d, hd, rfl⟩ := List.mem_map.1 hc
    obtain ⟨f, hf, hexp⟩ := (hinv.2.2.2.2.2.2.1 d hd).2.1
    show x.now < d.expired
    rw [hexp]
    exact htime f hf
  · rw [List.mem_singleton.1 hc]
    show x.now < x.now + s.onHold
    rw [hinv.2.2.2.1]
    exact lt_add_of_pos_right _ hhold

theorem chain_feed_eq_process (l : Linker) (fed : List SingleFeed) (s : Linker)
    (hinv : l.ChainInv fed s) (x : SingleFeed) (result : TemplateResult)
    (hx : l.feedResult x = some result)
    (hms : l.mergingStrategy = some defaultMergingStrategy)
    (hcoef : ∀ thres, l.thresAssociation = some thres → thres ≤ x.value.coefficient) :
    s.step x.op = s.process x.now x.proc result := by
  simp only [feedResult, Option.map_eq_some'] at hx
  obtain ⟨linkerProc, hreg, rfl⟩ := hx
  apply feed_single s x linkerProc (by rw [hinv.1]; exact hreg)
  apply not_dropped_default s linkerProc _ (by rw [hinv.2.2.2.2.1]; exact hms)
  intro thres hthres
  exact hcoef thres (by rw [← hinv.2.2.1]; exact hthres)

/-- A consistent feed of a new processor, while fewer feeds than registered processors
have been made: nothing is emitted and the invariant of the chain is kept. -/
theorem chain_step_mid (l : Linker) (fed : List SingleFeed) (s : Linker)
    (hinv : l.ChainInv fed s) (x : SingleFeed) (result : TemplateResult)
    (hx : l.feedResult x = some result)
    (hms : l.mergingStrategy = some defaultMergingStrategy)
    (hcoef : ∀ thres, l.thresAssociation = some thres → thres ≤ x.value.coefficient)
    (hfresh : ∀ f ∈ fed, f.proc.id ≠ x.proc.id)
    (hcons : ∀ thres, l.thresArrivalOffset = some thres → ∀ f ∈ fed, ∀ rf,
      l.feedResult f = some rf →
        l.OffsetOk thres f.proc.id x.proc.id rf.arrival.pick.time result.arrival.pick.time)
    (hhold : 0 < l.onHold) (htime : ∀ f ∈ fed, x.now < f.now + l.onHold)
    (hlen : (fed ++ [x]).length < l.processorCount) :
    l.ChainInv (fed ++ [x]) (s.step x.op).1 ∧ (s.step x.op).2 = [] := by
  have hN : s.processorCount = l.processorCount := by simp [processorCount, hinv.1]
  have hlen2 : fed.length < l.processorCount := by
    simp only [List.length_append, List.length_singleton] at hlen; omega
  have hpos : 0 < s.processorCount := by omega
  have hsq := chain_sweepQueue l fed s hinv x.now x.proc.id result hfresh hcons hlen2
  have hcand := chain_candidates l fed s hinv x result hx hfresh hcons
  obtain ⟨c0, rest, hshape, h0, hrest⟩ := chain_shape l fed s hinv x result hfresh
  have hlive := chain_live l fed s hinv x result hhold htime
  have hkeep := process_keeps_all s x.now x.proc result hpos (by
    rw [hsq]
    intro c hc
    refine ⟨?_, hlive c hc⟩
    rw [hN]
    rw [hshape] at hc
    rcases List.mem_cons.1 hc with rfl | hc
    · omega
    · have := hrest c hc
      omega)
  rw [chain_feed_eq_process l fed s hinv x result hx hms hcoef]
  refine ⟨⟨by simpa using hinv.1, by simpa using hinv.2.1, by simpa using hinv.2.2.1,
    by simpa using hinv.2.2.2.1, by simpa using hinv.2.2.2.2.1,
    wellFormed_process s x.now x.proc result hinv.2.2.2.2.2.1, ?_, ?_⟩, hkeep.2⟩
  · rw [hkeep.1, hsq]
    exact hcand
  · right
    rw [hkeep.1, hsq]
    exact ⟨c0, rest, hshape, h0, hrest⟩

end Linker

namespace Linker

theorem feedResult_resultIt (l : Linker) (f : SingleFeed) (res : TemplateResult)
    (h : l.feedResult f = some res) : res.resultIt = f.value := by
  simp only [feedResult, Option.map_eq_some'] at h
  obtain ⟨linkerProc, _, rfl⟩ := h
  rfl

theorem chain_queue_of_nil (l : Linker) (s : Linker) (hinv : l.ChainInv [] s) :
    s.queue = [] := by
  rcases hinv.2.2.2.2.2.2.2 with ⟨_, hq⟩ | ⟨c0, rest, hq, _, _⟩
  · exact hq
  · obtain ⟨f, hf, _⟩ := (hinv.2.2.2.2.2.2.1 c0 (by rw [hq]; exact List.mem_cons_self _ _)).2.1
    simp at hf

/-- The consistent feed of the last processor: exactly one association is emitted,
with one result per registered processor. -/
theorem chain_step_last (l : Linker) (fed : List SingleFeed) (s : Linker)
    (hinv : l.ChainInv fed s) (x : SingleFeed) (result : TemplateResult)
    (hx : l.feedResult x = some result)
    (hms : l.mergingStrategy = some defaultMergingStrategy)
    (hcoef : ∀ thres, l.thresAssociation = some thres →
      ∀ f ∈ fed ++ [x], thres ≤ f.value.coefficient)
    (hfresh : ∀ f ∈ fed, f.proc.id ≠ x.proc.id)
    (hcons : ∀ thres, l.thresArrivalOffset = some thres → ∀ f ∈ fed, ∀ rf,
      l.feedResult f = some rf →
        l.OffsetOk thres f.proc.id x.proc.id rf.arrival.pick.time result.arrival.pick.time)
    (hhold : 1 < l.processorCount → 0 < l.onHold)
    (htime : ∀ f ∈ fed, x.now < f.now + l.onHold)
    (hlen : (fed ++ [x]).length = l.processorCount) :
    ∃ a, (s.step x.op).2 = [a] ∧ a.results.entries.length = l.processorCount := by
  have hN : s.processorCount = l.processorCount := by simp [processorCount, hinv.1]
  have hlen1 : fed.length + 1 = l.processorCount := by
    simpa only [List.length_append, List.length_singleton] using hlen
  have hlen2 : fed.length < l.processorCount := by omega
  have hpos : 0 < s.processorCount := by omega
  have hsq := chain_sweepQueue l fed s hinv x.now x.proc.id result hfresh hcons hlen2
  have hcand := chain_candidates l fed s hinv x result hx hfresh hcons
  obtain ⟨c0, rest, hshape, h0, hrest⟩ := chain_shape l fed s hinv x result hfresh
  have hc0mem : c0 ∈ s.queue.map (fun c => c.feed x.proc.id result) ++
      [s.seed x.now x.proc.id result] := by rw [hshape]; exact List.mem_cons_self _ _
  have hc0 : c0.associatedProcessorCount = s.processorCount := by rw [h0, hlen, hN]
  have hsurpass : s.surpassesThreshold c0 = true := by
    unfold surpassesThreshold
    cases hthres : s.thresAssociation with
    | none => rfl
    | some thres =>
      simp only [decide_eq_true_eq, ge_iff_le]
      rw [(hcand c0 hc0mem).2.2.2]
      apply mean_ge
      · intro hnil
        have hzero : c0.associatedProcessorCount = 0 := by
          simp only [Association.coefficients, List.map_eq_nil_iff] at hnil
          simp [Candidate.associatedProcessorCount, Association.processorCount, hnil]
        omega
      · intro v hv
        simp only [Association.coefficients, List.mem_map] at hv
        obtain ⟨e, he, rfl⟩ := hv
        obtain ⟨procId, res⟩ := e
        have hl : c0.association.results.lookup procId = some res := AList.mem_lookup_iff.2 he
        obtain ⟨f, hf, _, hres⟩ := (hcand c0 hc0mem).1 procId res hl
        rw [feedResult_resultIt l f res hres]
        exact hcoef thres (by rw [← hinv.2.2.1]; exact hthres) f hf
  have hrestok : ∀ c ∈ rest, c.associatedProcessorCount ≠ s.processorCount ∧ x.now < c.expired := by
    intro c hc
    have hlt := hrest c hc
    refine ⟨by omega, ?_⟩
    rcases Nat.lt_or_ge 1 l.processorCount with h1 | h1
    · exact chain_live l fed s hinv x result (hhold h1) htime c
        (by rw [hshape]; exact List.mem_cons_of_mem _ hc)
    · have hfed : fed = [] := List.length_eq_zero.1 (by omega)
      subst hfed
      have hq := chain_queue_of_nil l s hinv
      rw [hq] at hshape
      simp only [List.map_nil, List.nil_append, List.cons.injEq] at hshape
      rw [← hshape.2] at hc
      simp at hc
  rw [chain_feed_eq_process l fed s hinv x result hx hms
    (fun thres hthres => hcoef thres hthres x (by simp))]
  refine ⟨c0.association, process_emits_first s x.now x.proc result hpos c0 rest
    (by rw [hsq, hshape]) hc0 hsurpass hrestok, ?_⟩
  have : c0.associatedProcessorCount = l.processorCount := by rw [hc0, hN]
  exact this

end Linker

namespace Linker

theorem chainInv_initial (l : Linker) (hwf : l.WellFormed) (hq : l.queue = []) :
    l.ChainInv [] l := by
  refine ⟨rfl, rfl, rfl, rfl, rfl, hwf, ?_, Or.inl ⟨rfl, hq⟩⟩
  intro c hc
  rw [hq] at hc
  simp at hc

theorem run_singleton (s : Linker) (op : Op) : s.run [op] = s.step op := by
  simp [run]

/-- The feeds of a prefix of the sequence, while at least one feed is still to come:
nothing is emitted and the invariant of the chain holds. -/
theorem chain_prefix (l : Linker) (feeds : List SingleFeed) (hwf : l.WellFormed)
    (hq : l.queue = []) (hms : l.mergingStrategy = some defaultMergingStrategy)
    (hlen : feeds.length = l.processorCount)
    (hnodup : (feeds.map (fun f => f.proc.id)).Nodup)
    (hreg : ∀ f ∈ feeds, ∃ res, l.feedResult f = some res)
    (hhold : 1 < l.processorCount → 0 < l.onHold)
    (htime : ∀ f ∈ feeds, ∀ g ∈ feeds, f.proc.id ≠ g.proc.id → f.now < g.now + l.onHold)
    (hcons : ∀ thres, l.thresArrivalOffset = some thres → ∀ f ∈ feeds, ∀ g ∈ feeds,
      f.proc.id ≠ g.proc.id → ∀ rf rg, l.feedResult f = some rf → l.feedResult g = some rg →
        l.OffsetOk thres f.proc.id g.proc.id rf.arrival.pick.time rg.arrival.pick.time)
    (hcoef : ∀ thres, l.thresAssociation = some thres →
      ∀ f ∈ feeds, thres ≤ f.value.coefficient) :
    ∀ (fed rest : List SingleFeed), feeds = fed ++ rest → rest ≠ [] →
      l.ChainInv fed (l.run (fed.map SingleFeed.op)).1 ∧
        (l.run (fed.map SingleFeed.op)).2 = [] := by
  intro fed
  induction fed using List.reverseRecOn with
  | nil =>
    intro rest _ _
    exact ⟨chainInv_initial l hwf hq, rfl⟩
  | append_singleton fed x ih =>
    intro rest hfeeds hrest
    have hfeeds2 : feeds = fed ++ (x :: rest) := by rw [hfeeds]; simp
    obtain ⟨hinv, hem⟩ := ih (x :: rest) hfeeds2 (by simp)
    have hxmem : x ∈ feeds := by rw [hfeeds2]; simp
    have hfedmem : ∀ f ∈ fed, f ∈ feeds := fun f hf => by rw [hfeeds2]; simp [hf]
    obtain ⟨result, hx⟩ := hreg x hxmem
    have hfresh : ∀ f ∈ fed, f.proc.id ≠ x.proc.id := by
      intro f hf heq
      rw [hfeeds2, List.map_append, List.map_cons] at hnodup
      have := (List.nodup_append.1 hnodup).2.2
      exact this (List.mem_map.2 ⟨f, hf, rfl⟩) (by rw [heq]; exact List.mem_cons_self _ _)
    have hlen2 : (fed ++ [x]).length < l.processorCount := by
      rw [← hlen, hfeeds]
      have : 0 < rest.length := List.length_pos.2 hrest
      simp only [List.length_append, List.length_singleton] at this ⊢
      omega
    have hholdpos : 0 < l.onHold := by
      apply hhold
      simp only [List.length_append, List.length_singleton] at hlen2
      omega
    have hstep := chain_step_mid l fed _ hinv x result hx hms
      (fun thres hthres => hcoef thres hthres x hxmem) hfresh
      (fun thres hthres f hf rf hrf =>
        hcons thres hthres f (hfedmem f hf) x hxmem (hfresh f hf) rf result hrf hx)
      hholdpos
      (fun f hf => htime x hxmem f (hfedmem f hf) (fun h => hfresh f hf h.symm)) hlen2
    rw [List.map_append, List.map_singleton, run_append, run_singleton]
    exact ⟨hstep.1, by rw [hem, hstep.2]; rfl⟩

end Linker

namespace Linker

/-- Claim C1 fails as stated. Two processors, the configuration of scenario S2 with
`onHold = 0` (the default of the constructor): `A` and `B` feed consistent results at
the same instant, so the feeds are within `onHold` of each other; each new candidate
is expired in the sweep of its own call (`now >= now + 0`) and is dropped, and no
association is emitted. With `minArrivals = 1` the two candidates are emitted one by
one, each with a single result. -/
theorem emission_needs_hold :
    (Scenario.linkerAB 0 (some 1000) (some 2)).processorCount = 2 ∧
    (Scenario.linkerAB 0 (some 1000) (some 2)).onHold = 0 ∧
    Scenario.s2FeedsAtOnce.map (fun f => f.now) = [100, 100] ∧
    Scenario.s2FeedsAtOnce.map (fun f =>
      ((Scenario.linkerAB 0 (some 1000) (some 2)).feedResult f).map
        (fun res => res.arrival.pick.time)) = [some 7, some 2000007] ∧
    ((Scenario.linkerAB 0 (some 1000) (some 2)).run
      (Scenario.s2FeedsAtOnce.map SingleFeed.op)).2 = [] ∧
    (((Scenario.linkerAB 0 (some 1000) (some 1)).run
      (Scenario.s2FeedsAtOnce.map SingleFeed.op)).2.map
        (fun a => a.results.entries.length)) = [1, 1] := by
  refine ⟨by decide!, by decide!, by decide!, by decide!, by decide!, by decide!⟩

/-- Claim C1, amended. A linker in a well-formed state with an empty queue, the
default merging strategy and `N >= 1` registered processors; every `onHold` and every
`minArrivals`. If each processor feeds exactly one match result with one local
maximum, any two feeds are strictly less than `onHold` apart, every pairwise observed
pick-time offset agrees with the template pick offsets within the arrival offset
threshold and every coefficient is at least the association threshold, then over the
whole feed sequence exactly one association is emitted, and it has
`|results| = processorCount`. -/
theorem emission_completeness (l : Linker) (feeds : List SingleFeed)
    (hwf : l.WellFormed) (hq : l.queue = [])
    (hms : l.mergingStrategy = some defaultMergingStrategy)
    (hN : 1 ≤ l.processorCount)
    (hperm : (feeds.map (fun f => f.proc.id)).Perm l.processors.keys)
    (htime : ∀ f ∈ feeds, ∀ g ∈ feeds, f.proc.id ≠ g.proc.id → f.now < g.now + l.onHold)
    (hcons : ∀ thres, l.thresArrivalOffset = some thres → ∀ f ∈ feeds, ∀ g ∈ feeds,
      f.proc.id ≠ g.proc.id → ∀ rf rg, l.feedResult f = some rf → l.feedResult g = some rg →
        l.OffsetOk thres f.proc.id g.proc.id rf.arrival.pick.time rg.arrival.pick.time)
    (hcoef : ∀ thres, l.thresAssociation = some thres →
      ∀ f ∈ feeds, thres ≤ f.value.coefficient) :
    ∃ a, (l.run (feeds.map SingleFeed.op)).2 = [a] ∧
      a.results.entries.length = l.processorCount := by
  have hnodup : (feeds.map (fun f => f.proc.id)).Nodup :=
    hperm.nodup_iff.2 l.processors.keys_nodup
  have hlen : feeds.length = l.processorCount := by
    have := hperm.length_eq
    simpa [processorCount, AList.keys, List.keys] using this
  have hreg : ∀ f ∈ feeds, ∃ res, l.feedResult f = some res := by
    intro f hf
    have hk : f.proc.id ∈ l.processors.keys :=
      hperm.subset (List.mem_map.2 ⟨f, hf, rfl⟩)
    obtain ⟨p, hp⟩ := Option.isSome_iff_exists.1 (AList.lookup_isSome.2 (AList.mem_keys.2 hk))
    exact ⟨templateResultOf p f.matchResult f.value, by simp [feedResult, hp]⟩
  have hhold : 1 < l.processorCount → 0 < l.onHold := by
    intro h1
    rw [← hlen] at h1
    match feeds, hnodup, htime, h1 with
    | f :: g :: rest, hnd, ht, _ =>
      have hne : f.proc.id ≠ g.proc.id := by
        intro h
        simp only [List.map_cons, List.nodup_cons, List.mem_cons] at hnd
        exact hnd.1 (Or.inl h)
      have h1 := ht f (by simp) g (by simp) hne
      have h2 := ht g (by simp) f (by simp) (fun h => hne h.symm)
      linarith
  have hne : feeds ≠ [] := by
    intro h
    rw [h] at hlen
    simp at hlen
    omega
  obtain ⟨fed, x, hfeeds⟩ : ∃ fed x, feeds = fed ++ [x] := by
    rcases List.eq_nil_or_concat feeds with h | ⟨fed, x, h⟩
    · exact absurd h hne
    · exact ⟨fed, x, by rw [h, List.concat_eq_append]⟩
  obtain ⟨hinv, hem⟩ := chain_prefix l feeds hwf hq hms hlen hnodup hreg hhold htime hcons
    hcoef fed [x] hfeeds (by simp)
  have hxmem : x ∈ feeds := by rw [hfeeds]; simp
  have hfedmem : ∀ f ∈ fed, f ∈ feeds := fun f hf => by rw [hfeeds]; simp [hf]
  obtain ⟨result, hx⟩ := hreg x hxmem
  have hfresh : ∀ f ∈ fed, f.proc.id ≠ x.proc.id := by
    intro f hf heq
    rw [hfeeds, List.map_append, List.map_singleton] at hnodup
    have := (List.nodup_append.1 hnodup).2.2
    exact this (List.mem_map.2 ⟨f, hf, rfl⟩) (by rw [heq]; exact List.mem_singleton_self _)
  obtain ⟨a, ha, hcount⟩ := chain_step_last l fed _ hinv x result hx hms
    (fun thres hthres f hf => hcoef thres hthres f (by rw [hfeeds]; exact hf)) hfresh
    (fun thres hthres f hf rf hrf =>
      hcons thres hthres f (hfedmem f hf) x hxmem (hfresh f hf) rf result hrf hx)
    hhold
    (fun f hf => htime x hxmem f (hfedmem f hf) (fun h => hfresh f hf h.symm))
    (by rw [← hlen, hfeeds])
  refine ⟨a, ?_, hcount⟩
  rw [hfeeds, List.map_append, List.map_singleton, run_append, run_singleton]
  simp [hem, ha]

end Linker

namespace Linker

theorem wellFormed_linkerAB (onHold : TimeSpan) (thresArrivalOffset : Option TimeSpan)
    (minArrivals : Option Nat) :
    (Scenario.linkerAB onHold thresArrivalOffset minArrivals).WellFormed := by
  unfold Scenario.linkerAB
  refine wellFormed_add _ _ _ _ (wellFormed_add _ _ _ _ ?_)
  exact wellFormed_of_eq (create onHold 2) _ (wellFormed_create onHold 2) rfl rfl rfl

theorem s2_times : ∀ f ∈ Scenario.s2Feeds, ∀ g ∈ Scenario.s2Feeds, f.proc.id ≠ g.proc.id →
    f.now < g.now + Scenario.s2Linker.onHold := by
  intro f hf g hg _
  simp only [Scenario.s2Feeds, List.mem_cons, List.mem_singleton, List.not_mem_nil,
    or_false] at hf hg
  rcases hf with rfl | rfl <;> rcases hg with rfl | rfl <;> decide

theorem s2_consistent : ∀ thres, Scenario.s2Linker.thresArrivalOffset = some thres →
    ∀ f ∈ Scenario.s2Feeds, ∀ g ∈ Scenario.s2Feeds, f.proc.id ≠ g.proc.id →
      ∀ rf rg, Scenario.s2Linker.feedResult f = some rf →
        Scenario.s2Linker.feedResult g = some rg →
          Scenario.s2Linker.OffsetOk thres f.proc.id g.proc.id rf.arrival.pick.time
            rg.arrival.pick.time := by
  intro thres hthres f hf g hg hne rf rg hrf hrg templateI templateJ hI hJ
  have hthres2 : thres = 1000 := by
    have : Scenario.s2Linker.thresArrivalOffset = some 1000 := rfl
    rw [this] at hthres
    exact (Option.some.inj hthres).symm
  have hA : Scenario.s2Linker.feedResult (Scenario.feedA 100) =
      some (Scenario.resultA 7 (3 / 5)) := by decide!
  have hB : Scenario.s2Linker.feedResult (Scenario.feedB 200) =
      some (Scenario.resultB 7 (4 / 5)) := by decide!
  have hTA : Scenario.s2Linker.templatePick "A" = some 0 := by decide!
  have hTB : Scenario.s2Linker.templatePick "B" = some 2000000 := by decide!
  simp only [Scenario.s2Feeds, List.mem_cons, List.mem_singleton, List.not_mem_nil,
    or_false] at hf hg
  rcases hf with rfl | rfl <;> rcases hg with rfl | rfl
  · exact absurd rfl hne
  · rw [hA] at hrf
    rw [hB] at hrg
    have e1 : (Scenario.feedA 100).proc.id = "A" := rfl
    have e2 : (Scenario.feedB 200).proc.id = "B" := rfl
    rw [e1, hTA] at hI
    rw [e2, hTB] at hJ
    rw [← Option.some.inj hrf, ← Option.some.inj hrg, ← Option.some.inj hI,
      ← Option.some.inj hJ, hthres2]
    decide
  · rw [hB] at hrf
    rw [hA] at hrg
    have e1 : (Scenario.feedA 100).proc.id = "A" := rfl
    have e2 : (Scenario.feedB 200).proc.id = "B" := rfl
    rw [e2, hTB] at hI
    rw [e1, hTA] at hJ
    rw [← Option.some.inj hrf, ← Option.some.inj hrg, ← Option.some.inj hI,
      ← Option.some.inj hJ, hthres2]
    decide
  · exact absurd rfl hne

theorem s2_coefficients : ∀ thres, Scenario.s2Linker.thresAssociation = some thres →
    ∀ f ∈ Scenario.s2Feeds, thres ≤ f.value.coefficient := by
  intro thres hthres
  have : Scenario.s2Linker.thresAssociation = none := rfl
  rw [this] at hthres
  exact Option.noConfusion hthres

/-- Scenario S2: `A` feeds at `u0`, `B` at `u0 + 2 s`, 100 µs apart with
`onHold = 5 s`; exactly one association is emitted and it has two results. -/
theorem emission_completeness_witness :
    ∃ a, (Scenario.s2Linker.run (Scenario.s2Feeds.map SingleFeed.op)).2 = [a] ∧
      a.results.entries.length = Scenario.s2Linker.processorCount :=
  emission_completeness Scenario.s2Linker Scenario.s2Feeds
    (wellFormed_linkerAB 5000000 (some 1000) (some 2)) (by decide!) rfl (by decide!)
    (by decide!) s2_times s2_consistent s2_coefficients

end Linker

namespace Linker

/-! ## `flush`, `reset`, `add` and `remove` -/

theorem flush_state (l : Linker) : l.flush.1 = { l with queue := [] } := by
  simp [flush, flushLoop_eq]

/-- Claim C11. Calling `flush` twice in a row gives the same final state and the same
emitted sequence as calling it once: the second `flush` emits nothing and changes
nothing. -/
theorem flush_idempotent (l : Linker) :
    l.flush.1.flush = (l.flush.1, []) ∧
    (l.flush.1.flush).1 = l.flush.1 ∧
    l.flush.2 ++ (l.flush.1.flush).2 = l.flush.2 ∧
    l.run [Op.flush, Op.flush] = l.run [Op.flush] := by
  have h : l.flush.1.flush = (l.flush.1, []) := by
    rw [flush_state]
    simp [flush, flushLoop]
  refine ⟨h, by rw [h], by rw [h]; simp, ?_⟩
  simp [run, step, h]

/-- Claim C12. `reset` empties the candidate queue and emits nothing; it leaves the
registrations, the thresholds (arrival offset, association, `minArrivals`, `onHold`), the
merging strategy and the stored POT as they are and marks the POT invalid; a `flush`
directly after `reset` emits nothing. -/
theorem reset_clears_queue (l : Linker) :
    l.reset.queue = [] ∧
    (l.step Op.reset).2 = [] ∧
    l.reset.processors = l.processors ∧
    l.reset.thresArrivalOffset = l.thresArrivalOffset ∧
    l.reset.thresAssociation = l.thresAssociation ∧
    l.reset.minArrivals = l.minArrivals ∧
    l.reset.onHold = l.onHold ∧
    l.reset.mergingStrategy = l.mergingStrategy ∧
    l.reset.pot = l.pot ∧
    l.reset.potValid = false ∧
    l.reset.flush.2 = [] ∧
    (l.run [Op.reset, Op.flush]).2 = [] := by
  refine ⟨rfl, rfl, rfl, rfl, rfl, rfl, rfl, rfl, rfl, rfl, ?_, ?_⟩
  · simp [flush_emitted, reset]
  · simp [run, step, flush_emitted, reset]

theorem length_entries_erase (m : Processors) (procId : ProcessorIdType) :
    (m.erase procId).entries.length =
      if (m.lookup procId).isSome then m.entries.length - 1 else m.entries.length := by
  have hk : ∀ s : Processors, s.entries.length = s.keys.length := by
    intro s; simp [AList.keys, List.keys]
  rw [hk, hk, AList.keys_erase]
  by_cases h : procId ∈ m
  · rw [if_pos (AList.lookup_isSome.2 h), List.length_erase_of_mem (AList.mem_keys.1 h)]
  · have hn : ¬ (m.lookup procId).isSome := fun hs => h (AList.lookup_isSome.1 hs)
    rw [if_neg hn, List.erase_of_not_mem (fun hm => h (AList.mem_keys.2 hm))]

/-- Claim C14. `remove` deletes the id from the registrations and leaves the other
registrations as they are; `processorCount` drops by one if the id was registered and
is unchanged otherwise; the POT is marked invalid, nothing is emitted, and the
candidate queue is exactly as it was, also when a candidate holds a result of the
removed processor; the thresholds are unchanged. -/
theorem remove_deregisters (l : Linker) (procId : ProcessorIdType) :
    (l.remove procId).processors.lookup procId = none ∧
    (∀ q, q ≠ procId → (l.remove procId).processors.lookup q = l.processors.lookup q) ∧
    ((l.processors.lookup procId).isSome →
      (l.remove procId).processorCount = l.processorCount - 1 ∧ 0 < l.processorCount) ∧
    (l.processors.lookup procId = none →
      (l.remove procId).processorCount = l.processorCount) ∧
    (l.remove procId).potValid = false ∧
    (l.step (Op.remove procId)).2 = [] ∧
    (l.remove procId).queue = l.queue ∧
    (l.remove procId).thresArrivalOffset = l.thresArrivalOffset ∧
    (l.remove procId).thresAssociation = l.thresAssociation ∧
    (l.remove procId).minArrivals = l.minArrivals ∧
    (l.remove procId).onHold = l.onHold := by
  refine ⟨AList.lookup_erase procId l.processors, ?_, ?_, ?_, rfl, rfl, rfl, rfl, rfl, rfl, rfl⟩
  · intro q hq
    exact AList.lookup_erase_ne hq
  · intro h
    constructor
    · simp only [processorCount, remove]
      rw [length_entries_erase, if_pos h]
    · have hmem : procId ∈ l.processors.keys := AList.mem_keys.1 (AList.lookup_isSome.1 h)
      have := List.length_pos_of_mem hmem
      simpa [processorCount, AList.keys, List.keys] using this
  · intro h
    simp only [processorCount, remove]
    rw [length_entries_erase, h]
    simp

/-- Three processors are registered and a candidate holds results of `A` and `B`:
removing `B` lowers `processorCount` from 3 to 2 and leaves that candidate queued. -/
theorem remove_deregisters_witness :
    (((create 5000000 1000).run Scenario.buildOps).1.remove "B").processorCount =
        ((create 5000000 1000).run Scenario.buildOps).1.processorCount - 1 ∧
      0 < ((create 5000000 1000).run Scenario.buildOps).1.processorCount :=
  (remove_deregisters ((create 5000000 1000).run Scenario.buildOps).1 "B").2.2.1 (by decide!)

/-- Claim C13 fails as stated. In the state of scenario S5 the processor `A` is
registered and the POT is valid (a result was processed); adding `A` again leaves the
registrations as they are but marks the POT invalid. -/
theorem add_again_invalidates_pot :
    (Scenario.s5Linker.processors.lookup "A").isSome = true ∧
    Scenario.s5Linker.potValid = true ∧
    (Scenario.s5Linker.add (some Scenario.procA) Scenario.arrivalA none).potValid = false ∧
    (Scenario.s5Linker.add (some Scenario.procA) Scenario.arrivalA none).processors =
      Scenario.s5Linker.processors := by
  refine ⟨by decide!, by decide!, by decide!, by decide!⟩

/-- Claim C13, amended. For a non-null processor whose id is not registered, `add`
registers it with the given arrival and merging threshold, leaves the other
registrations as they are, increases `processorCount` by one and marks the POT
invalid. For a processor whose id is already registered, `add` changes nothing (the
registration entry with its arrival and merging threshold, the queue, the thresholds)
except that it marks the POT invalid. For a null processor `add` changes nothing. -/
theorem add_registers (l : Linker) (p : TemplateWaveformProcessor) (arrival : Arrival)
    (mergingThreshold : Option ℚ) :
    (l.processors.lookup p.id = none →
      (l.add (some p) arrival mergingThreshold).processors.lookup p.id =
        some { proc := p, arrival := arrival, mergingThreshold := mergingThreshold } ∧
      (∀ q, q ≠ p.id →
        (l.add (some p) arrival mergingThreshold).processors.lookup q =
          l.processors.lookup q) ∧
      (l.add (some p) arrival mergingThreshold).processorCount = l.processorCount + 1 ∧
      (l.add (some p) arrival mergingThreshold).potValid = false ∧
      (l.add (some p) arrival mergingThreshold).queue = l.queue) ∧
    (∀ e, l.processors.lookup p.id = some e →
      l.add (some p) arrival mergingThreshold = { l with potValid := false }) ∧
    l.add none arrival mergingThreshold = l := by
  refine ⟨?_, ?_, rfl⟩
  · intro h
    refine ⟨?_, ?_, ?_, rfl, rfl⟩
    · simp only [add]
      rw [lookup_emplace_self, h]
      rfl
    · intro q hq
      simp only [add]
      exact lookup_emplace_ne _ _ _ _ hq
    · simp only [add, processorCount]
      rw [length_emplace, h]
      simp
  · intro e h
    simp only [add]
    rw [emplace_of_lookup_some _ _ e _ h]

/-- Adding `A` to a fresh linker registers it: one processor is registered. -/
theorem add_registers_witness :
    ((create 5000000 1000).add (some Scenario.procA) Scenario.arrivalA none).processorCount =
      (create 5000000 1000).processorCount + 1 :=
  ((add_registers (create 5000000 1000) Scenario.procA Scenario.arrivalA none).1
    (by decide!)).2.2.1

end Linker

namespace Linker

theorem dropped_default (l : Linker) (hms : l.mergingStrategy = some defaultMergingStrategy)
    (thres : ℚ) (hthres : l.thresAssociation = some thres) (linkerProc : Processor)
    (res : TemplateResult) :
    l.dropped linkerProc res = decide (res.resultIt.coefficient < thres) := by
  simp only [dropped, hms, hthres, defaultMergingStrategy]
  by_cases h : res.resultIt.coefficient < thres
  · simp [h]
  · simp [h, not_lt.1 h]

theorem dropped_of_null (l : Linker) (hnull : l.thresAssociation = none)
    (linkerProc : Processor) (res : TemplateResult) : l.dropped linkerProc res = false := by
  unfold dropped
  rw [hnull]
  cases l.mergingStrategy <;> rfl

end Linker

namespace Linker

/-! ## The template result of a local maximum -/

theorem templateResultOf_eq (linkerProc : Processor) (matchResult : MatchResult)
    (value : LocalMaxima) :
    templateResultOf linkerProc matchResult value =
      projectedResult linkerProc.arrival linkerProc.proc.templateWaveformStartTime
        matchResult value :=
  rfl

theorem dropped_iff (l : Linker) (linkerProc : Processor) (res : TemplateResult) :
    l.dropped linkerProc res = true ↔
      ∃ (strategy : MergingStrategy) (thres : ℚ), l.mergingStrategy = some strategy ∧
        l.thresAssociation = some thres ∧
        strategy res thres (linkerProc.mergingThreshold.getD thres) = false := by
  unfold dropped
  cases hs : l.mergingStrategy with
  | none => simp
  | some strategy =>
    cases ht : l.thresAssociation with
    | none => simp
    | some thres => simp

/-- Claim C15. For a registered processor, `feed` runs its loop over the local maxima
of the match result with the registration of that processor, and for every local
maximum the template result that the merging strategy is evaluated at and that is
handed to `process` is the one of the specification: its pick time is
`timeWindow.start + lag + (templateArrival.pick.time − templateWaveform.startTime)`,
the stream id, the phase and the weight of its arrival are those of the registered
template arrival, and it carries the local maximum and the match result. -/
theorem pick_time_projection (l : Linker) (clock : Nat → Time)
    (proc : TemplateWaveformProcessor) (matchResult : MatchResult) (linkerProc : Processor)
    (hreg : l.processors.lookup proc.id = some linkerProc) :
    l.feed clock proc matchResult =
      feedLoop proc linkerProc matchResult clock 0 matchResult.localMaxima (l, []) ∧
    (∀ (i : Nat) (value : LocalMaxima) (rest : List LocalMaxima)
        (s : Linker × List Association),
      feedLoop proc linkerProc matchResult clock i (value :: rest) s =
        if s.1.dropped linkerProc
            (projectedResult linkerProc.arrival linkerProc.proc.templateWaveformStartTime
              matchResult value) then
          feedLoop proc linkerProc matchResult clock (i + 1) rest s
        else
          feedLoop proc linkerProc matchResult clock (i + 1) rest
            ((s.1.process (clock i) proc
                (projectedResult linkerProc.arrival
                  linkerProc.proc.templateWaveformStartTime matchResult value)).1,
              s.2 ++ (s.1.process (clock i) proc
                (projectedResult linkerProc.arrival
                  linkerProc.proc.templateWaveformStartTime matchResult value)).2)) ∧
    (∀ (s : Linker) (res : TemplateResult),
      s.dropped linkerProc res = true ↔
        ∃ (strategy : MergingStrategy) (thres : ℚ), s.mergingStrategy = some strategy ∧
          s.thresAssociation = some thres ∧
          strategy res thres (linkerProc.mergingThreshold.getD thres) = false) ∧
    (∀ value : LocalMaxima,
      (templateResultOf linkerProc matchResult value).arrival.pick.time =
          matchResult.timeWindow.startTime + value.lag +
            (linkerProc.arrival.pick.time - linkerProc.proc.templateWaveformStartTime) ∧
        (templateResultOf linkerProc matchResult value).arrival.pick.waveformStreamId =
          linkerProc.arrival.pick.waveformStreamId ∧
        (templateResultOf linkerProc matchResult value).arrival.phase =
          linkerProc.arrival.phase ∧
        (templateResultOf linkerProc matchResult value).arrival.weight =
          linkerProc.arrival.weight ∧
        (templateResultOf linkerProc matchResult value).resultIt = value ∧
        (templateResultOf linkerProc matchResult value).matchResult = matchResult) := by
  refine ⟨?_, ?_, ?_, ?_⟩
  · simp [feed, hreg]
  · intro i value rest s
    rw [← templateResultOf_eq]
    simp only [feedLoop]
  · intro s res
    exact dropped_iff s linkerProc res
  · intro value
    exact ⟨rfl, rfl, rfl, rfl, rfl, rfl⟩

/-- The single processor `A`, template pick at 0 and template start at 0: a local
maximum at lag 0 of a window starting at 7 gives the pick time 7. -/
theorem pick_time_projection_witness :
    Scenario.singleLinker.feed (Scenario.clockAt 100) Scenario.procA
        (Scenario.matchAt 7 (3 / 5)) =
      feedLoop Scenario.procA ⟨Scenario.procA, Scenario.arrivalA, none⟩
        (Scenario.matchAt 7 (3 / 5)) (Scenario.clockAt 100) 0
        (Scenario.matchAt 7 (3 / 5)).localMaxima (Scenario.singleLinker, []) :=
  (pick_time_projection Scenario.singleLinker (Scenario.clockAt 100) Scenario.procA
    (Scenario.matchAt 7 (3 / 5)) ⟨Scenario.procA, Scenario.arrivalA, none⟩ (by decide!)).1

/-! ## A single registered processor -/

/-- Claim C20 fails as stated. With the single processor `A`, the association
threshold 0.7 and a merging strategy that accepts every result, a local maximum of
coefficient 0.6 is accepted and no association is emitted. And after `B` and `C` have
been removed only `A` is registered, and a feed of `A` with one accepted local maximum
emits two associations and leaves a candidate in the queue. -/
theorem single_processor_emission_fails :
    Scenario.customLinker.processorCount = 1 ∧
    Scenario.customLinker.queue = [] ∧
    Scenario.customLinker.dropped ⟨Scenario.procA, Scenario.arrivalA, none⟩
      (Scenario.resultA 7 (3 / 5)) = false ∧
    (Scenario.customLinker.feed (Scenario.clockAt 100) Scenario.procA
      (Scenario.matchAt 7 (3 / 5))).2 = [] ∧
    Scenario.removalLinker.processorCount = 1 ∧
    Scenario.removalLinker.dropped ⟨Scenario.procA, Scenario.arrivalA, none⟩
      (Scenario.resultA 7 (3 / 5)) = false ∧
    ((Scenario.removalLinker.feed (Scenario.clockAt 300) Scenario.procA
      (Scenario.matchAt 7 (3 / 5))).2).length = 2 ∧
    (Scenario.removalLinker.feed (Scenario.clockAt 300) Scenario.procA
      (Scenario.matchAt 7 (3 / 5))).1.queue ≠ [] := by
  refine ⟨by decide!, by decide!, by decide!, by decide!, by decide!, by decide!, by decide!,
    by decide!⟩

theorem score_seed (l : Linker) (now : Time) (procId : ProcessorIdType)
    (result : TemplateResult) :
    (l.seed now procId result).association.score = result.resultIt.coefficient := by
  have h := feed_score (Candidate.create (now + l.onHold)) procId result
  have he : (l.seed now procId result).association.results.entries = [⟨procId, result⟩] := by
    simp [seed, Candidate.feed, Candidate.create, emplace]
  rw [seed, h]
  rw [seed] at he
  simp [Association.coefficients, he, mean]

theorem entries_seed (l : Linker) (now : Time) (procId : ProcessorIdType)
    (result : TemplateResult) :
    (l.seed now procId result).association.results.entries = [⟨procId, result⟩] := by
  simp [seed, Candidate.feed, Candidate.create, emplace]

/-- Claim C20, amended. For a linker with exactly one registered processor and an empty
queue, feeding for that processor a match result with one local maximum that the
merging strategy accepts and whose coefficient is at least the association threshold,
when one is set, emits exactly one association; it has one result, a score equal to
that coefficient and the pick time `window.start + lag + pickOffset`, and the queue is
empty afterwards. -/
theorem single_processor_emission (l : Linker) (clock : Nat → Time)
    (proc : TemplateWaveformProcessor) (matchResult : MatchResult) (linkerProc : Processor)
    (value : LocalMaxima) (hN : l.processorCount = 1) (hq : l.queue = [])
    (hreg : l.processors.lookup proc.id = some linkerProc)
    (hmax : matchResult.localMaxima = [value])
    (hacc : l.dropped linkerProc (templateResultOf linkerProc matchResult value) = false)
    (hthres : ∀ thres, l.thresAssociation = some thres → thres ≤ value.coefficient) :
    ∃ a : Association,
      (l.feed clock proc matchResult).2 = [a] ∧
      a.results.entries = [⟨proc.id, templateResultOf linkerProc matchResult value⟩] ∧
      a.score = value.coefficient ∧
      (∀ res, a.results.lookup proc.id = some res →
        res.arrival.pick.time = matchResult.timeWindow.startTime + value.lag +
          (linkerProc.arrival.pick.time - linkerProc.proc.templateWaveformStartTime)) ∧
      (l.feed clock proc matchResult).1.queue = [] := by
  have hfeed : l.feed clock proc matchResult =
      l.process (clock 0) proc (templateResultOf linkerProc matchResult value) := by
    simp [feed, hreg, hmax, feedLoop, hacc]
  have hpos : 0 < l.processorCount := by omega
  have hs : l.sweepQueue (clock 0) proc.id (templateResultOf linkerProc matchResult value) =
      [l.seed (clock 0) proc.id (templateResultOf linkerProc matchResult value)] := by
    simp [sweepQueue, hq]
  have hready : l.sweepReady (clock 0)
      (l.seed (clock 0) proc.id (templateResultOf linkerProc matchResult value)) = true := by
    simp [sweepReady, count_seed, hN]
  have hscore := score_seed l (clock 0) proc.id (templateResultOf linkerProc matchResult value)
  have hsurp : l.surpassesThreshold
      (l.seed (clock 0) proc.id (templateResultOf linkerProc matchResult value)) = true := by
    unfold surpassesThreshold
    cases ht : l.thresAssociation with
    | none => rfl
    | some thres =>
      rw [hscore]
      simpa using hthres thres ht
  refine ⟨(l.seed (clock 0) proc.id
    (templateResultOf linkerProc matchResult value)).association, ?_, ?_, ?_, ?_, ?_⟩
  · rw [hfeed, process_emitted l _ proc _ hpos, hs]
    simp [hready, hsurp]
  · exact entries_seed l _ _ _
  · exact hscore
  · intro res hres
    rw [lookup_seed] at hres
    cases hres
    rfl
  · rw [hfeed, process_queue l _ proc _ hpos, hs]
    simp [hready]

/-- A fresh linker with the single processor `A`: the feed of one local maximum emits
one association. -/
theorem single_processor_emission_witness :
    ∃ a : Association,
      (Scenario.singleLinker.feed (Scenario.clockAt 100) Scenario.procA
        (Scenario.matchAt 7 (3 / 5))).2 = [a] ∧
      a.results.entries = [⟨"A", Scenario.resultA 7 (3 / 5)⟩] ∧
      a.score = 3 / 5 ∧
      (∀ res, a.results.lookup "A" = some res → res.arrival.pick.time = 7 + 0 + (0 - 0)) ∧
      (Scenario.singleLinker.feed (Scenario.clockAt 100) Scenario.procA
        (Scenario.matchAt 7 (3 / 5))).1.queue = [] :=
  single_processor_emission Scenario.singleLinker (Scenario.clockAt 100) Scenario.procA
    (Scenario.matchAt 7 (3 / 5)) ⟨Scenario.procA, Scenario.arrivalA, none⟩ ⟨3 / 5, 0⟩
    (by decide!) (by decide!) (by decide!) rfl (by decide!)
    (fun thres h => Option.noConfusion (h : (none : Option ℚ) = some thres))

end Linker

namespace Linker

/-! ## Order of emission -/

theorem filter_map_split {α β : Type} (p : α → Bool) (f : α → β) (pre mid post : List α)
    (c1 c2 : α) (h1 : p c1 = true) (h2 : p c2 = true) :
    ((pre ++ c1 :: (mid ++ c2 :: post)).filter p).map f =
      (pre.filter p).map f ++ f c1 :: ((mid.filter p).map f ++ f c2 :: (post.filter p).map f) := by
  simp [List.filter_append, List.filter_cons, h1, h2]

theorem process_emitted_sublist (l : Linker) (now : Time) (proc : TemplateWaveformProcessor)
    (result : TemplateResult) :
    ∃ emitted : List Candidate, emitted.Sublist (l.sweepQueue now proc.id result) ∧
      (l.process now proc result).2 = emitted.map Candidate.association := by
  rcases Nat.eq_zero_or_pos l.processorCount with h | h
  · rw [process_of_empty l now proc result h]
    exact ⟨[], List.nil_sublist _, rfl⟩
  · rw [process_emitted l now proc result h]
    exact ⟨_, List.filter_sublist _, rfl⟩

theorem mergeCandidate_of_empty (l : Linker) (procId : ProcessorIdType)
    (result : TemplateResult) (c : Candidate) (h : l.processorCount = 0) :
    l.mergeCandidate procId result c = c := by
  simp [mergeCandidate, h]

theorem process_queue_sublist (l : Linker) (now : Time) (proc : TemplateWaveformProcessor)
    (result : TemplateResult) :
    (l.process now proc result).1.queue.Sublist (l.sweepQueue now proc.id result) := by
  rcases Nat.eq_zero_or_pos l.processorCount with h | h
  · rw [process_of_empty l now proc result h]
    have hmap : l.queue.map (l.prepare.mergeCandidate proc.id result) = l.queue := by
      conv_rhs => rw [← List.map_id l.queue]
      exact List.map_congr_left
        (fun c _ => mergeCandidate_of_empty l.prepare proc.id result c (by simpa using h))
    simp only [sweepQueue, prepare_queue, hmap]
    exact List.sublist_append_left _ _
  · rw [process_queue l now proc result h]
    exact List.filter_sublist _

/-- Claim C18. Across `process` the candidates that stay in the queue keep their
relative order and the new candidate is appended at the back; the sweep runs over the
queue in that order (each candidate in the state the merge loop left it in, the new
candidate last), and the associations emitted by one `process` are those of a
subsequence of that queue, in the same order. The associations emitted by one `flush`
are those of a subsequence of the queue, in the same order. -/
theorem fifo_within_call (l : Linker) (now : Time) (proc : TemplateWaveformProcessor)
    (result : TemplateResult) :
    l.sweepQueue now proc.id result =
      l.queue.map (l.prepare.mergeCandidate proc.id result) ++ [l.seed now proc.id result] ∧
    (∀ c : Candidate, c.Evolves (l.prepare.mergeCandidate proc.id result c)) ∧
    (∃ emitted : List Candidate, emitted.Sublist (l.sweepQueue now proc.id result) ∧
      (l.process now proc result).2 = emitted.map Candidate.association) ∧
    (l.process now proc result).1.queue.Sublist (l.sweepQueue now proc.id result) ∧
    (∃ emitted : List Candidate, emitted.Sublist l.queue ∧
      l.flush.2 = emitted.map Candidate.association) := by
  refine ⟨by simp [sweepQueue], fun c => evolves_mergeCandidate _ _ _ c,
    process_emitted_sublist l now proc result, process_queue_sublist l now proc result, ?_⟩
  · rw [flush_emitted]
    exact ⟨_, List.filter_sublist _, rfl⟩

theorem step_tracks (l : Linker) (op : Op) :
    Candidate.Tracks (fun _ => True) l.queue (l.step op).1.queue := by
  have hnil : Candidate.Tracks (fun _ => True) l.queue [] :=
    ⟨[], [], [], List.nil_sublist _, List.Forall₂.nil, rfl, fun _ _ => trivial⟩
  cases op with
  | setThresArrivalOffset thres => exact Candidate.tracks_refl _ _
  | setThresAssociation thres => exact Candidate.tracks_refl _ _
  | setMinArrivals n => exact Candidate.tracks_refl _ _
  | setOnHold d => exact Candidate.tracks_refl _ _
  | setMergingStrategy ms => exact Candidate.tracks_refl _ _
  | add proc arrival mergingThreshold =>
    simp only [step, add_queue]
    exact Candidate.tracks_refl _ _
  | remove procId => exact Candidate.tracks_refl _ _
  | reset => exact hnil
  | flush =>
    simp only [step, flush_queue]
    exact hnil
  | feed clock proc matchResult =>
    exact Candidate.tracks_mono (feed_tracks l clock proc matchResult) (fun _ _ => trivial)

theorem run_tracks (ops : List Op) :
    ∀ l : Linker, Candidate.Tracks (fun _ => True) l.queue (l.run ops).1.queue := by
  induction ops with
  | nil => intro l; exact Candidate.tracks_refl _ _
  | cons op ops ih =>
    intro l
    simp only [run]
    exact Candidate.tracks_trans (fun _ _ _ _ => trivial) (step_tracks l op) (ih (l.step op).1)

/-! ## The fate of a queued candidate across calls -/

theorem step_queue_track (l : Linker) (op : Op) :
    (l.step op).1.queue = l.queue.filterMap (l.stepTrack op) ++ l.stepAppended op := by
  cases op with
  | setThresArrivalOffset thres =>
    show l.queue = l.queue.filterMap (fun c => some c) ++ []
    simp
  | setThresAssociation thres =>
    show l.queue = l.queue.filterMap (fun c => some c) ++ []
    simp
  | setMinArrivals n =>
    show l.queue = l.queue.filterMap (fun c => some c) ++ []
    simp
  | setOnHold d =>
    show l.queue = l.queue.filterMap (fun c => some c) ++ []
    simp
  | setMergingStrategy ms =>
    show l.queue = l.queue.filterMap (fun c => some c) ++ []
    simp
  | add proc arrival mergingThreshold =>
    show (l.add proc arrival mergingThreshold).queue =
      l.queue.filterMap (fun c => some c) ++ []
    rw [add_queue]
    simp
  | remove procId =>
    show l.queue = l.queue.filterMap (fun c => some c) ++ []
    simp
  | reset =>
    show ([] : List Candidate) = l.queue.filterMap (fun _ => none) ++ []
    simp
  | flush =>
    show l.flush.1.queue = l.queue.filterMap (fun _ => none) ++ []
    rw [flush_queue]
    simp
  | feed clock proc matchResult => exact feed_queue_track l clock proc matchResult

theorem evolves_stepTrack (l : Linker) (op : Op) (c c2 : Candidate)
    (h : l.stepTrack op c = some c2) : c.Evolves c2 := by
  cases op with
  | reset => cases h
  | flush => cases h
  | feed clock proc matchResult => exact evolves_feedTrack l clock proc matchResult c c2 h
  | setThresArrivalOffset thres => cases h; exact Candidate.evolves_refl c
  | setThresAssociation thres => cases h; exact Candidate.evolves_refl c
  | setMinArrivals n => cases h; exact Candidate.evolves_refl c
  | setOnHold d => cases h; exact Candidate.evolves_refl c
  | setMergingStrategy ms => cases h; exact Candidate.evolves_refl c
  | add proc arrival mergingThreshold => cases h; exact Candidate.evolves_refl c
  | remove procId => cases h; exact Candidate.evolves_refl c

/-- The queue after a sequence of calls: the old candidates that are not erased, each
as `runTrack` gives it, in their order, then what the calls have appended. -/
theorem run_queue_track (ops : List Op) :
    ∀ l : Linker,
      (l.run ops).1.queue = l.queue.filterMap (l.runTrack ops) ++ l.runAppended ops := by
  induction ops with
  | nil =>
    intro l
    have : l.runTrack [] = some := by
      funext c
      rfl
    simp [run, runAppended, this]
  | cons op ops ih =>
    intro l
    have ht : l.runTrack (op :: ops) =
        fun c => (l.stepTrack op c).bind ((l.step op).1.runTrack ops) := by
      funext c
      rfl
    simp only [run]
    rw [ih (l.step op).1, step_queue_track l op, ht]
    simp [runAppended, List.filterMap_append, List.filterMap_filterMap, List.append_assoc]

theorem evolves_runTrack (ops : List Op) :
    ∀ (l : Linker) (c c2 : Candidate), l.runTrack ops c = some c2 → c.Evolves c2 := by
  induction ops with
  | nil =>
    intro l c c2 h
    cases h
    exact Candidate.evolves_refl c
  | cons op ops ih =>
    intro l c c2 h
    obtain ⟨c1, h1, h2⟩ := Option.bind_eq_some.1 h
    exact Candidate.evolves_trans (evolves_stepTrack l op c c1 h1) (ih _ c1 c2 h2)

theorem processAppended_cases (l : Linker) (now : Time) (proc : TemplateWaveformProcessor)
    (result : TemplateResult) :
    l.processAppended now proc result = [] ∨
      l.processAppended now proc result = [l.seed now proc.id result] := by
  unfold processAppended
  split
  · exact Or.inl rfl
  · dsimp only
    split
    · exact Or.inl rfl
    · split
      · exact Or.inl rfl
      · exact Or.inr rfl

/-- Claim C19 fails as stated. The first feed appends `firstCandidate`, the second
appends `secondCandidate` behind it; the third feed completes `secondCandidate`, whose
association is emitted while `firstCandidate` stays in the queue, and the flush then
emits the association of `firstCandidate`: the candidate appended first is emitted
second. -/
theorem later_candidate_emitted_first :
    ((Scenario.overtakeLinker.run (Scenario.overtakeOps.take 1)).1.queue =
      [Scenario.firstCandidate]) ∧
    ((Scenario.overtakeLinker.run (Scenario.overtakeOps.take 2)).1.queue =
      [Scenario.firstCandidate, Scenario.secondCandidate]) ∧
    ((Scenario.overtakeLinker.run (Scenario.overtakeOps.take 3)).1.queue =
      [Scenario.firstCandidate, Scenario.thirdCandidate]) ∧
    ((Scenario.overtakeLinker.run (Scenario.overtakeOps.take 3)).2 =
      [(Scenario.secondCandidate.feed "A" (Scenario.resultA 500007 (3 / 5))).association]) ∧
    ((Scenario.overtakeLinker.run Scenario.overtakeOps).2 =
      [(Scenario.secondCandidate.feed "A" (Scenario.resultA 500007 (3 / 5))).association,
        Scenario.firstCandidate.association, Scenario.thirdCandidate.association]) ∧
    Scenario.firstCandidate.association ≠
      (Scenario.secondCandidate.feed "A" (Scenario.resultA 500007 (3 / 5))).association := by
  refine ⟨by decide!, by decide!, by decide!, by decide!, by decide!, by decide!⟩

/-- Claim C19, amended. Within one sweep of `process` and within one `flush`,
associations are emitted in the order of their candidates in the queue: when `c1`
stands before `c2` and both are emitted, the association of `c1` is emitted before that
of `c2`. The output of a sequence of calls is the output of its calls put one after the
other. Across a sequence of calls the candidates that stay in the queue keep their
order: the queue after the calls is made of the candidates of the queue before that are
not erased, in their order and each a later state of itself (`runTrack`), followed by
the candidates appended by the first call that are not erased, followed by those of the
later calls. -/
theorem emission_order_within_call (l : Linker) :
    (∀ (now : Time) (proc : TemplateWaveformProcessor) (result : TemplateResult)
        (pre mid post : List Candidate) (c1 c2 : Candidate),
      0 < l.processorCount →
      l.sweepQueue now proc.id result = pre ++ c1 :: (mid ++ c2 :: post) →
      l.sweepReady now c1 = true → l.surpassesThreshold c1 = true →
      l.sweepReady now c2 = true → l.surpassesThreshold c2 = true →
      (l.process now proc result).2 =
        ((pre.filter (fun c => l.sweepReady now c && l.surpassesThreshold c)).map
            Candidate.association) ++
          c1.association ::
            (((mid.filter (fun c => l.sweepReady now c && l.surpassesThreshold c)).map
              Candidate.association) ++
            c2.association ::
              ((post.filter (fun c => l.sweepReady now c && l.surpassesThreshold c)).map
                Candidate.association))) ∧
    (∀ (pre mid post : List Candidate) (c1 c2 : Candidate),
      l.queue = pre ++ c1 :: (mid ++ c2 :: post) →
      l.flushEmits c1 = true → l.flushEmits c2 = true →
      l.flush.2 =
        ((pre.filter l.flushEmits).map Candidate.association) ++
          c1.association ::
            (((mid.filter l.flushEmits).map Candidate.association) ++
            c2.association :: ((post.filter l.flushEmits).map Candidate.association))) ∧
    (∀ ops1 ops2 : List Op,
      (l.run (ops1 ++ ops2)).2 = (l.run ops1).2 ++ ((l.run ops1).1.run ops2).2) ∧
    (∀ ops : List Op,
      (l.run ops).1.queue = l.queue.filterMap (l.runTrack ops) ++ l.runAppended ops ∧
      (∀ c c2 : Candidate, l.runTrack ops c = some c2 → c.Evolves c2)) ∧
    (∀ (op : Op) (ops : List Op),
      l.runAppended (op :: ops) =
        (l.stepAppended op).filterMap ((l.step op).1.runTrack ops) ++
          (l.step op).1.runAppended ops) := by
  refine ⟨?_, ?_, ?_, ?_, fun _ _ => rfl⟩
  · intro now proc result pre mid post c1 c2 hpos hq h1 h1t h2 h2t
    rw [process_emitted l now proc result hpos, hq]
    exact filter_map_split _ _ pre mid post c1 c2 (by simp [h1, h1t]) (by simp [h2, h2t])
  · intro pre mid post c1 c2 hq h1 h2
    rw [flush_emitted, hq]
    exact filter_map_split _ _ pre mid post c1 c2 h1 h2
  · intro ops1 ops2
    rw [run_append]
  · intro ops
    exact ⟨run_queue_track ops l, fun c c2 h => evolves_runTrack ops l c c2 h⟩

/-- The queue of `overtakeLinker` after the three feeds holds `firstCandidate` and
`thirdCandidate`; the flush emits their associations in that order. After the first
feed the queue holds `firstCandidate`; across the second and the third feed it stays,
the candidate of the second feed is appended and erased again, and `thirdCandidate` is
appended. -/
theorem emission_order_within_call_witness :
    (Scenario.overtakeLinker.run (Scenario.overtakeOps.take 1)).1.runTrack
        ((Scenario.overtakeOps.take 3).drop 1) Scenario.firstCandidate =
      some Scenario.firstCandidate ∧
    (Scenario.overtakeLinker.run (Scenario.overtakeOps.take 1)).1.runAppended
        ((Scenario.overtakeOps.take 3).drop 1) = [Scenario.thirdCandidate] ∧
    ((Scenario.overtakeLinker.run (Scenario.overtakeOps.take 1)).1.run
        ((Scenario.overtakeOps.take 3).drop 1)).1.queue =
      (Scenario.overtakeLinker.run (Scenario.overtakeOps.take 1)).1.queue.filterMap
          ((Scenario.overtakeLinker.run (Scenario.overtakeOps.take 1)).1.runTrack
            ((Scenario.overtakeOps.take 3).drop 1)) ++
        (Scenario.overtakeLinker.run (Scenario.overtakeOps.take 1)).1.runAppended
          ((Scenario.overtakeOps.take 3).drop 1) ∧
    ((Scenario.overtakeLinker.run (Scenario.overtakeOps.take 3)).1.flush).2 =
      (([] : List Candidate).filter
          (Scenario.overtakeLinker.run (Scenario.overtakeOps.take 3)).1.flushEmits).map
          Candidate.association ++
        Scenario.firstCandidate.association ::
          ((([] : List Candidate).filter
            (Scenario.overtakeLinker.run (Scenario.overtakeOps.take 3)).1.flushEmits).map
            Candidate.association ++
          Scenario.thirdCandidate.association ::
            (([] : List Candidate).filter
              (Scenario.overtakeLinker.run (Scenario.overtakeOps.take 3)).1.flushEmits).map
              Candidate.association) :=
  ⟨by decide!, by decide!,
    ((emission_order_within_call
      (Scenario.overtakeLinker.run (Scenario.overtakeOps.take 1)).1).2.2.2.1
      ((Scenario.overtakeOps.take 3).drop 1)).1,
    (emission_order_within_call
      (Scenario.overtakeLinker.run (Scenario.overtakeOps.take 3)).1).2.1 [] [] []
      Scenario.firstCandidate Scenario.thirdCandidate (by decide!) (by decide!) (by decide!)⟩

end Linker

namespace config

/-! ## Configuration validators -/

/-- Claim C22 fails as stated. The threshold `-1` s lies below the floor of `2e-6` s and
`validateArrivalOffsetThreshold` returns `true` for it. -/
theorem negative_threshold_accepted :
    (-1 : ℚ) < arrivalOffsetThresholdFloor ∧ validateArrivalOffsetThreshold (-1) = true := by
  refine ⟨by decide!, by decide!⟩

/-- Claim C22, amended. `validateArrivalOffsetThreshold` returns `false` for every
threshold from 0 up to, but not including, the floor of `2e-6` s, `true` for every
threshold that is at least the floor, and `true` for every negative threshold. -/
theorem arrival_offset_threshold_floor (thres : ℚ) :
    arrivalOffsetThresholdFloor = 2 / 1000000 ∧
    (validateArrivalOffsetThreshold thres = false ↔
      (0 ≤ thres ∧ thres < arrivalOffsetThresholdFloor)) ∧
    (validateArrivalOffsetThreshold thres = true ↔
      (thres < 0 ∨ arrivalOffsetThresholdFloor ≤ thres)) := by
  refine ⟨rfl, ?_, ?_⟩
  · simp [validateArrivalOffsetThreshold]
  · simp [validateArrivalOffsetThreshold]

/-- What `validateMinArrivals` computes: the upper bound is never compared with `n`
when `numStreamConfigs > 0`. -/
theorem validateMinArrivals_iff (n numStreamConfigs : Int) :
    validateMinArrivals n numStreamConfigs = true ↔ (n < 0 ∨ (0 < numStreamConfigs ∧ 1 ≤ n)) := by
  unfold validateMinArrivals
  by_cases h1 : n < 0
  · simp [h1]
  · by_cases h2 : numStreamConfigs > 0
    · simp [h1, h2]
    · have h3 : ¬ (1 ≤ n ∧ n ≤ numStreamConfigs) := by omega
      have h4 : ¬ 0 < numStreamConfigs := h2
      simp only [h1, h2, if_false, Bool.and_eq_true, decide_eq_true_eq, ge_iff_le, h4,
        false_and, or_self, iff_false]
      exact h3

/-- Claim C28, at the input `n = 5`, `numStreamConfigs = 2`. The claim requires `false`,
because 5 is greater than the number of stream configurations, and
`validateMinArrivals` returns `true`; so it does at `n = 3`, `numStreamConfigs = 2` and
at `n = 1000`, `numStreamConfigs = 1`. The other parts of the claim hold at these
inputs: `n = 0` is rejected, a negative `n` and `n` within the bounds are accepted. -/
theorem min_arrivals_upper_bound_not_checked :
    validateMinArrivals 5 2 = true ∧ ¬ ((5 : Int) < 0 ∨ (1 ≤ (5 : Int) ∧ (5 : Int) ≤ 2)) ∧
    validateMinArrivals 3 2 = true ∧ validateMinArrivals 1000 1 = true ∧
    validateMinArrivals 0 2 = false ∧ validateMinArrivals (-1) 2 = true ∧
    validateMinArrivals 1 2 = true ∧ validateMinArrivals 2 2 = true := by
  refine ⟨by decide, by decide, by decide, by decide, by decide, by decide, by decide,
    by decide⟩

end config

namespace Linker

/-! ## `minArrivals`, unregistered processors and the new candidate -/

theorem setMinArrivals_ne_zero (l : Linker) (n : Option Nat) :
    (l.setMinArrivals n).minArrivals ≠ some 0 := by
  cases n with
  | none => simp [setMinArrivals]
  | some k =>
    by_cases hk : 1 > k
    · simp [setMinArrivals, hk]
    · simp only [setMinArrivals, hk, if_false]
      intro h
      exact hk (by have := Option.some.inj h; omega)

theorem step_minArrivals_ne_zero (l : Linker) (op : Op) (h : l.minArrivals ≠ some 0) :
    (l.step op).1.minArrivals ≠ some 0 := by
  cases op with
  | setThresArrivalOffset thres => exact h
  | setThresAssociation thres => exact h
  | setMinArrivals n => exact setMinArrivals_ne_zero l n
  | setOnHold d => exact h
  | setMergingStrategy ms => exact h
  | add proc arrival mergingThreshold =>
    cases proc with
    | none => exact h
    | some p => exact h
  | remove procId => exact h
  | reset => exact h
  | flush =>
    simp only [step, flush_state]
    exact h
  | feed clock proc matchResult =>
    exact (feed_induct (fun s => s.minArrivals ≠ some 0) (fun _ => True)
      (fun s now p r hs => ⟨by simpa using hs, fun _ _ => trivial⟩) l clock proc matchResult h).1

/-- Claim C23. After `setMinArrivals(n)` the stored value is null when `n` is null or
`n < 1` and `n` otherwise, so it is never 0, in no state reached from a fresh linker;
and when it is null the sweep of `process` and `flush` both require `processorCount`
arrivals. -/
theorem min_arrivals_positive_or_null (l : Linker) (n : Option Nat) :
    (n = none → (l.setMinArrivals n).minArrivals = none) ∧
    (∀ k, n = some k → k < 1 → (l.setMinArrivals n).minArrivals = none) ∧
    (∀ k, n = some k → 1 ≤ k → (l.setMinArrivals n).minArrivals = some k) ∧
    (l.setMinArrivals n).minArrivals ≠ some 0 ∧
    (∀ (onHold arrivalOffsetThres : TimeSpan) (ops : List Op),
      ((create onHold arrivalOffsetThres).run ops).1.minArrivals ≠ some 0) ∧
    (l.minArrivals = none → ∀ (now : Time) (c : Candidate),
      l.sweepReady now c =
        (c.associatedProcessorCount == l.processorCount ||
          (decide (now ≥ c.expired) &&
            decide (c.associatedProcessorCount ≥ l.processorCount)))) ∧
    (l.minArrivals = none → ∀ c : Candidate,
      l.flushEmits c =
        (decide (c.associatedProcessorCount ≥ l.processorCount) &&
          l.surpassesThreshold c)) := by
  refine ⟨?_, ?_, ?_, setMinArrivals_ne_zero l n, ?_, ?_, ?_⟩
  · rintro rfl
    rfl
  · rintro k rfl hk
    simp [setMinArrivals, hk]
  · rintro k rfl hk
    have : ¬ 1 > k := by omega
    simp [setMinArrivals, this]
  · intro onHold arrivalOffsetThres ops
    exact (run_induct (fun _ => True) (fun s => s.minArrivals ≠ some 0) (fun _ => True)
      (fun s op _ hs => ⟨step_minArrivals_ne_zero s op hs, fun _ _ => trivial⟩) ops
      (create onHold arrivalOffsetThres) (fun _ _ => trivial) (by simp [create])).1
  · intro h now c
    simp [sweepReady, h]
  · intro h c
    simp [flushEmits, surpassesThreshold, h]

/-- `setMinArrivals(0)` stores null, `setMinArrivals(2)` stores 2. -/
theorem min_arrivals_positive_or_null_witness :
    ((create 5000000 1000).setMinArrivals (some 0)).minArrivals = none ∧
    ((create 5000000 1000).setMinArrivals (some 2)).minArrivals = some 2 :=
  ⟨(min_arrivals_positive_or_null (create 5000000 1000) (some 0)).2.1 0 rfl (by decide),
    (min_arrivals_positive_or_null (create 5000000 1000) (some 2)).2.2.1 2 rfl (by decide)⟩

/-- Claim C29. `feed` with a processor whose id is not registered returns the state as
it is (queue, registrations and POT validity included) and emits nothing; this is so
for an id that was never added and for an id that has just been removed. -/
theorem feed_unregistered_noop (l : Linker) (clock : Nat → Time)
    (proc : TemplateWaveformProcessor) (matchResult : MatchResult)
    (h : l.processors.lookup proc.id = none) :
    l.feed clock proc matchResult = (l, []) ∧
    (l.feed clock proc matchResult).1.queue = l.queue ∧
    (l.feed clock proc matchResult).1.processors = l.processors ∧
    (l.feed clock proc matchResult).1.potValid = l.potValid ∧
    (l.feed clock proc matchResult).1.pot = l.pot ∧
    (l.feed clock proc matchResult).2 = [] ∧
    (l.remove proc.id).feed clock proc matchResult = (l.remove proc.id, []) ∧
    (∀ onHold arrivalOffsetThres : TimeSpan,
      (create onHold arrivalOffsetThres).feed clock proc matchResult =
        (create onHold arrivalOffsetThres, [])) := by
  have hf : l.feed clock proc matchResult = (l, []) := by
    simp [feed, h]
  refine ⟨hf, by rw [hf], by rw [hf], by rw [hf], by rw [hf], by rw [hf], ?_, ?_⟩
  · simp [feed, remove]
  · intro onHold arrivalOffsetThres
    simp [feed, create]

/-- In the linker with the processors `A` and `B` the processor `C` is not registered:
its feed changes nothing. -/
theorem feed_unregistered_noop_witness :
    (Scenario.s5Linker.feed (Scenario.clockAt 300) Scenario.procC
      (Scenario.matchAt 7 (4 / 5))) = (Scenario.s5Linker, []) :=
  (feed_unregistered_noop Scenario.s5Linker (Scenario.clockAt 300) Scenario.procC
    (Scenario.matchAt 7 (4 / 5)) (by decide!)).1

theorem processorCount_pos_of_lookup (l : Linker) (procId : ProcessorIdType)
    (linkerProc : Processor) (h : l.processors.lookup procId = some linkerProc) :
    0 < l.processorCount := by
  rcases Nat.eq_zero_or_pos l.processorCount with h0 | h0
  · have he : l.processors.entries = [] := List.length_eq_zero.1 h0
    simp [AList.lookup, he] at h
  · exact h0

theorem expired_mergeCandidate (l : Linker) (procId : ProcessorIdType) (result : TemplateResult)
    (c : Candidate) : (l.mergeCandidate procId result c).expired = c.expired :=
  (evolves_mergeCandidate l procId result c).1

/-- Claim C21. A `process` call made by `feed` (the feeding processor is registered)
runs its sweep over the queue in which every old candidate is in the state the merge
loop left it in and exactly one new candidate stands at the back; the new candidate
holds only the given result, under the id of the feeding processor, its score is the
coefficient of the result and its expiry time is `now + onHold`, whatever the merge
loop did. The merge loop and every operation of the linker leave the expiry time of a
candidate that stays in the queue as it is: the queue after a sequence of calls, and
after one `process`, is made of the candidates of the queue before that are not erased,
in their order and each with the expiry time it had (`runTrack`, `processTrack`),
followed by the candidates appended since; `process` appends the new candidate or,
when its own sweep erases it, nothing. -/
theorem new_seed_rule (l : Linker) (now : Time) (proc : TemplateWaveformProcessor)
    (result : TemplateResult) :
    (∀ linkerProc, l.processors.lookup proc.id = some linkerProc →
      0 < l.processorCount ∧
      (l.process now proc result).1.processors = l.processors ∧
      l.process now proc result =
        ({ l.prepare with
            queue := (l.prepare.sweepLoop now
              (l.queue.map (l.prepare.mergeCandidate proc.id result) ++
                [l.seed now proc.id result])).2 },
          (l.prepare.sweepLoop now
            (l.queue.map (l.prepare.mergeCandidate proc.id result) ++
              [l.seed now proc.id result])).1)) ∧
    (l.seed now proc.id result).association.results.entries = [⟨proc.id, result⟩] ∧
    (l.seed now proc.id result).association.score = result.resultIt.coefficient ∧
    (l.seed now proc.id result).expired = now + l.onHold ∧
    (∀ c : Candidate, (l.prepare.mergeCandidate proc.id result c).expired = c.expired) ∧
    (∀ ops : List Op,
      (l.run ops).1.queue = l.queue.filterMap (l.runTrack ops) ++ l.runAppended ops ∧
      (∀ c c2 : Candidate, l.runTrack ops c = some c2 → c2.expired = c.expired)) ∧
    (l.process now proc result).1.queue =
      l.queue.filterMap (l.processTrack now proc result) ++ l.processAppended now proc result ∧
    (∀ c c2 : Candidate, l.processTrack now proc result c = some c2 →
      c2.expired = c.expired) ∧
    (l.processAppended now proc result = [] ∨
      l.processAppended now proc result = [l.seed now proc.id result]) := by
  refine ⟨?_, entries_seed l now proc.id result, score_seed l now proc.id result, rfl,
    fun c => expired_mergeCandidate _ _ _ c, ?_, process_queue_track l now proc result,
    fun c c2 h => (evolves_processTrack l now proc result c c2 h).1,
    processAppended_cases l now proc result⟩
  · intro linkerProc hreg
    have hpos := processorCount_pos_of_lookup l proc.id linkerProc hreg
    refine ⟨hpos, process_processors l now proc result, ?_⟩
    rw [process_of_pos l now proc result hpos]
    simp [sweepQueue]
  · intro ops
    exact ⟨run_queue_track ops l, fun c c2 h => (evolves_runTrack ops l c c2 h).1⟩

/-- The linker of scenario S5 holds one candidate; a feed of `B` is processed with the
new candidate at the back of the queue of the sweep. Across a feed of `A` and a change
of `onHold` the candidate stays with the expiry time it had. -/
theorem new_seed_rule_witness :
    Scenario.s5Linker.runTrack
        [Op.feed (Scenario.clockAt 200) Scenario.procA (Scenario.matchAt 7 (1 / 2)),
          Op.setOnHold 1] Scenario.s5Candidate = some Scenario.s5Candidate ∧
    0 < Scenario.s5Linker.processorCount ∧
    (Scenario.s5Linker.process 200 Scenario.procB (Scenario.resultB 7 (4 / 5))).1.processors =
      Scenario.s5Linker.processors ∧
    Scenario.s5Linker.process 200 Scenario.procB (Scenario.resultB 7 (4 / 5)) =
      ({ Scenario.s5Linker.prepare with
          queue := (Scenario.s5Linker.prepare.sweepLoop 200
            (Scenario.s5Linker.queue.map
              (Scenario.s5Linker.prepare.mergeCandidate Scenario.procB.id
                (Scenario.resultB 7 (4 / 5))) ++
              [Scenario.s5Linker.seed 200 Scenario.procB.id (Scenario.resultB 7 (4 / 5))])).2 },
        (Scenario.s5Linker.prepare.sweepLoop 200
          (Scenario.s5Linker.queue.map
            (Scenario.s5Linker.prepare.mergeCandidate Scenario.procB.id
              (Scenario.resultB 7 (4 / 5))) ++
            [Scenario.s5Linker.seed 200 Scenario.procB.id (Scenario.resultB 7 (4 / 5))])).1) :=
  ⟨by decide!,
    (new_seed_rule Scenario.s5Linker 200 Scenario.procB (Scenario.resultB 7 (4 / 5))).1
      ⟨Scenario.procB, Scenario.arrivalB, none⟩ (by decide!)⟩

end Linker

namespace MLx

/-! ## `MLx::max` -/

theorem maxElementLoop_spec {α : Type} (value : α → ℚ) :
    ∀ (rest pre : List α) (largest : α) (mid : List α),
      (∀ y ∈ pre, value y < value largest) → (∀ y ∈ mid, value y ≤ value largest) →
      ∃ pre2 post2 : List α,
        pre ++ largest :: mid ++ rest =
          pre2 ++ maxElementLoop (fun lhs rhs => decide (value lhs < value rhs)) largest rest ::
            post2 ∧
        (∀ y ∈ pre2,
          value y < value (maxElementLoop (fun lhs rhs => decide (value lhs < value rhs))
            largest rest)) ∧
        (∀ y ∈ post2,
          value y ≤ value (maxElementLoop (fun lhs rhs => decide (value lhs < value rhs))
            largest rest)) := by
  intro rest
  induction rest with
  | nil =>
    intro pre largest mid hpre hmid
    exact ⟨pre, mid, by simp [maxElementLoop], hpre, hmid⟩
  | cons x rest ih =>
    intro pre largest mid hpre hmid
    simp only [maxElementLoop]
    by_cases hx : value largest < value x
    · have hif : (if decide (value largest < value x) = true then x else largest) = x := by
        simp [hx]
      rw [hif]
      obtain ⟨pre2, post2, h1, h2, h3⟩ := ih (pre ++ largest :: mid) x [] (by
        intro y hy
        rcases List.mem_append.1 hy with h | h
        · exact lt_trans (hpre y h) hx
        · rcases List.mem_cons.1 h with h | h
          · rw [h]; exact hx
          · exact lt_of_le_of_lt (hmid y h) hx) (by simp)
      exact ⟨pre2, post2, by rw [← h1]; simp, h2, h3⟩
    · have hif : (if decide (value largest < value x) = true then x else largest) = largest := by
        simp [hx]
      rw [hif]
      obtain ⟨pre2, post2, h1, h2, h3⟩ := ih pre largest (mid ++ [x]) hpre (by
        intro y hy
        rcases List.mem_append.1 hy with h | h
        · exact hmid y h
        · rw [List.mem_singleton.1 h]; exact not_lt.1 hx)
      exact ⟨pre2, post2, by rw [← h1]; simp, h2, h3⟩

theorem getElem?_append_cons {α : Type} (pre : List α) (a : α) (post : List α) :
    (pre ++ a :: post)[pre.length]? = some a := by
  induction pre with
  | nil => simp
  | cons x pre ih => simpa using ih

/-- Claim C30. For every non-empty list of amplitudes `MLx::max` assigns to `combined`
an element of the list whose value is at least the value of every element, and it is
the first such element: every element before it has a strictly smaller value. -/
theorem max_is_first_maximum {α : Type} (value : α → ℚ) (amplitudes : List α)
    (hne : amplitudes ≠ []) :
    ∃ (combined : α) (before after : List α),
      max value amplitudes = some combined ∧
      amplitudes = before ++ combined :: after ∧
      amplitudes[before.length]? = some combined ∧
      (∀ y ∈ amplitudes, value y ≤ value combined) ∧
      (∀ y ∈ before, value y < value combined) := by
  cases amplitudes with
  | nil => exact absurd rfl hne
  | cons x rest =>
    obtain ⟨pre2, post2, h1, h2, h3⟩ := maxElementLoop_spec value rest [] x [] (by simp) (by simp)
    replace h1 : x :: rest =
        pre2 ++ maxElementLoop (fun lhs rhs => decide (value lhs < value rhs)) x rest :: post2 := by
      simpa using h1
    refine ⟨_, pre2, post2, rfl, h1, ?_, ?_, h2⟩
    · rw [h1]
      exact getElem?_append_cons pre2 _ post2
    · intro y hy
      rw [h1] at hy
      rcases List.mem_append.1 hy with h | h
      · exact le_of_lt (h2 y h)
      · rcases List.mem_cons.1 h with h | h
        · rw [h]
        · exact h3 y h

/-- Amplitudes given as pairs of a name and a value: of the values 1, 3, 3, 2 the first
3 is taken. -/
theorem max_is_first_maximum_witness :
    ∃ (combined : String × ℚ) (before after : List (String × ℚ)),
      max Prod.snd [("a", 1), ("b", 3), ("c", 3), ("d", 2)] = some combined ∧
      [("a", (1 : ℚ)), ("b", 3), ("c", 3), ("d", 2)] = before ++ combined :: after ∧
      [("a", (1 : ℚ)), ("b", 3), ("c", 3), ("d", 2)][before.length]? = some combined ∧
      (∀ y ∈ [("a", (1 : ℚ)), ("b", 3), ("c", 3), ("d", 2)], Prod.snd y ≤ Prod.snd combined) ∧
      (∀ y ∈ before, Prod.snd y < Prod.snd combined) :=
  max_is_first_maximum Prod.snd [("a", 1), ("b", 3), ("c", 3), ("d", 2)] (by simp)

end MLx

namespace Template

/-! ## `Template::Process` -/

theorem scan_spec (start : Nat) :
    ∀ (rest : List ℚ) (i : Nat) (pre : List ℚ) (c : ℚ) (mid : List ℚ),
      i = start + pre.length + 1 + mid.length →
      (∀ y ∈ pre, y < c) → (∀ y ∈ mid, y ≤ c) →
      ∃ (pre2 : List ℚ) (c2 : ℚ) (post2 : List ℚ),
        scan rest i (some c, start + pre.length) = (some c2, start + pre2.length) ∧
        pre ++ c :: mid ++ rest = pre2 ++ c2 :: post2 ∧
        (∀ y ∈ pre2, y < c2) ∧ (∀ y ∈ post2, y ≤ c2) := by
  intro rest
  induction rest with
  | nil =>
    intro i pre c mid _ hpre hmid
    exact ⟨pre, c, mid, rfl, by simp, hpre, hmid⟩
  | cons v rest ih =>
    intro i pre c mid hi hpre hmid
    simp only [scan]
    by_cases hv : c < v
    · rw [if_pos hv]
      have hidx : i = start + (pre ++ c :: mid).length := by
        simp only [List.length_append, List.length_cons]
        omega
      rw [hidx]
      obtain ⟨pre2, c2, post2, h1, h2, h3, h4⟩ := ih (start + (pre ++ c :: mid).length + 1)
        (pre ++ c :: mid) v [] (by simp) (by
          intro y hy
          rcases List.mem_append.1 hy with h | h
          · exact lt_trans (hpre y h) hv
          · rcases List.mem_cons.1 h with h | h
            · rw [h]; exact hv
            · exact lt_of_le_of_lt (hmid y h) hv) (by simp)
      exact ⟨pre2, c2, post2, h1, by rw [← h2]; simp, h3, h4⟩
    · rw [if_neg hv]
      obtain ⟨pre2, c2, post2, h1, h2, h3, h4⟩ := ih (i + 1) pre c (mid ++ [v])
        (by simp only [List.length_append, List.length_singleton]; omega) hpre (by
          intro y hy
          rcases List.mem_append.1 hy with h | h
          · exact hmid y h
          · rw [List.mem_singleton.1 h]; exact not_lt.1 hv)
      exact ⟨pre2, c2, post2, h1, by rw [← h2]; simp, h3, h4⟩

/-- The loop of `Template::Process` on a non-empty range: the first maximum of the
range and its index. -/
theorem firstMaximum_spec (filtered_data : List ℚ) (start_idx : Nat)
    (hne : start_idx < filtered_data.length) :
    ∃ (coefficient : ℚ) (before after : List ℚ),
      filtered_data.drop start_idx = before ++ coefficient :: after ∧
      (∀ y ∈ before, y < coefficient) ∧ (∀ y ∈ after, y ≤ coefficient) ∧
      firstMaximum filtered_data start_idx = (some coefficient, start_idx + before.length) := by
  unfold firstMaximum
  cases hd : filtered_data.drop start_idx with
  | nil =>
    have := congrArg List.length hd
    simp only [List.length_drop, List.length_nil] at this
    omega
  | cons v rest =>
    obtain ⟨pre2, c2, post2, h1, h2, h3, h4⟩ :=
      scan_spec start_idx rest (start_idx + 1) [] v [] (by simp) (by simp) (by simp)
    refine ⟨c2, pre2, post2, by simpa using h2, h3, h4, ?_⟩
    simpa [scan] using h1

/-- Claim C26. For every non-empty range `filtered_data[start_idx..n)` of finite values
the loop of `Template::Process` ends with the coefficient equal to the maximum of the
range and the lag index equal to the smallest index of the range at which the maximum
is attained, and the one match result that `Process` emits carries that coefficient. -/
theorem single_global_maximum (filtered_data : List ℚ) (start_idx : Nat)
    (hne : start_idx < filtered_data.length) :
    ∃ (coefficient : ℚ) (lag_idx : Nat),
      firstMaximum filtered_data start_idx = (some coefficient, lag_idx) ∧
      start_idx ≤ lag_idx ∧ lag_idx < filtered_data.length ∧
      filtered_data[lag_idx]? = some coefficient ∧
      (∀ (j : Nat) (v : ℚ), start_idx ≤ j → filtered_data[j]? = some v → v ≤ coefficient) ∧
      (∀ (j : Nat) (v : ℚ), start_idx ≤ j → j < lag_idx → filtered_data[j]? = some v →
        v < coefficient) ∧
      (∀ (stream_state : StreamState) (record : Record) (template_size : Nat)
          (template_length : ℚ),
        startIdx stream_state filtered_data.length = start_idx →
        (process stream_state record filtered_data template_size template_length).coefficient =
          some coefficient) := by
  obtain ⟨c, before, after, hd, hb, ha, hf⟩ := firstMaximum_spec filtered_data start_idx hne
  have hget : ∀ j : Nat, filtered_data[start_idx + j]? = (before ++ c :: after)[j]? := by
    intro j
    rw [← hd, List.getElem?_drop]
  have hlen : filtered_data.length = start_idx + (before.length + 1 + after.length) := by
    have := congrArg List.length hd
    simp only [List.length_drop, List.length_append, List.length_cons] at this
    omega
  refine ⟨c, start_idx + before.length, hf, by omega, by omega, ?_, ?_, ?_, ?_⟩
  · rw [hget]
    exact MLx.getElem?_append_cons before c after
  · intro j v hj hv
    obtain ⟨d, rfl⟩ := Nat.exists_eq_add_of_le hj
    rw [hget] at hv
    have hmem : v ∈ before ++ c :: after := List.getElem?_mem hv
    rcases List.mem_append.1 hmem with h | h
    · exact le_of_lt (hb v h)
    · rcases List.mem_cons.1 h with h | h
      · rw [h]
      · exact ha v h
  · intro j v hj hlt hv
    obtain ⟨d, rfl⟩ := Nat.exists_eq_add_of_le hj
    rw [hget] at hv
    have hd2 : d < before.length := by omega
    rw [List.getElem?_append_left hd2] at hv
    exact hb v (List.getElem?_mem hv)
  · intro stream_state record template_size template_length hs
    simp only [process, hs, hf]

/-- The values 1, 4, 2, 4 from index 1 on: the maximum 4 is found at index 1. -/
theorem single_global_maximum_witness :
    ∃ (coefficient : ℚ) (lag_idx : Nat),
      firstMaximum [1, 4, 2, 4] 1 = (some coefficient, lag_idx) ∧
      1 ≤ lag_idx ∧ lag_idx < [(1 : ℚ), 4, 2, 4].length ∧
      [(1 : ℚ), 4, 2, 4][lag_idx]? = some coefficient ∧
      (∀ (j : Nat) (v : ℚ), 1 ≤ j → [(1 : ℚ), 4, 2, 4][j]? = some v → v ≤ coefficient) ∧
      (∀ (j : Nat) (v : ℚ), 1 ≤ j → j < lag_idx → [(1 : ℚ), 4, 2, 4][j]? = some v →
        v < coefficient) ∧
      (∀ (stream_state : StreamState) (record : Record) (template_size : Nat)
          (template_length : ℚ),
        startIdx stream_state [(1 : ℚ), 4, 2, 4].length = 1 →
        (process stream_state record [1, 4, 2, 4] template_size template_length).coefficient =
          some coefficient) :=
  single_global_maximum [1, 4, 2, 4] 1 (by decide)

end Template

namespace Template

/-- Claim C27 fails as stated. A record of one second with the two values 1, 0 and a
template of one sample: the maximum is at index 0, the lag is a third of a second
before the start of the time window. -/
theorem lag_before_window_start :
    (process ⟨true, 0, 0⟩ ⟨0, 1⟩ [1, 0] 1 0).lag = -1 / 3 ∧
    (process ⟨true, 0, 0⟩ ⟨0, 1⟩ [1, 0] 1 0).timeWindowStart = 0 ∧
    (process ⟨true, 0, 0⟩ ⟨0, 1⟩ [1, 0] 1 0).timeWindowEnd = 1 ∧
    ¬ (0 ≤ (process ⟨true, 0, 0⟩ ⟨0, 1⟩ [1, 0] 1 0).lag) := by
  refine ⟨by decide!, by decide!, by decide!, by decide!⟩

theorem startTime_of_lt (stream_state : StreamState) (record : Record) (n : Nat)
    (hne : startIdx stream_state n < n) :
    startTime stream_state record n = record.startTime := by
  unfold startTime
  split
  · rw [Nat.div_eq_of_lt hne]
    simp
  · rfl

/-- Claim C27, amended. For a record of positive length and a non-empty range, the
match result of `Template::Process` has the lag
`(end − start) · (lag_idx − template_size) / (n + template_size)` of its own time window,
where `lag_idx` is the index of the maximum. The lag is smaller than `end − start` and
greater than `−(end − start)`, and it is at least 0 exactly when the maximum is found
at an index that is at least the template size. -/
theorem lag_range (stream_state : StreamState) (record : Record) (filtered_data : List ℚ)
    (template_size : Nat) (template_length : ℚ)
    (hne : startIdx stream_state filtered_data.length < filtered_data.length)
    (hlen : record.startTime < record.endTime) :
    (process stream_state record filtered_data template_size template_length).timeWindowEnd -
        (process stream_state record filtered_data template_size template_length).timeWindowStart =
      record.endTime - record.startTime ∧
    (process stream_state record filtered_data template_size template_length).lag =
      (record.endTime - record.startTime) *
        ((((firstMaximum filtered_data (startIdx stream_state filtered_data.length)).2 : ℚ) -
            template_size) / ((filtered_data.length : ℚ) + template_size)) ∧
    (firstMaximum filtered_data (startIdx stream_state filtered_data.length)).2 <
      filtered_data.length ∧
    (process stream_state record filtered_data template_size template_length).lag <
      record.endTime - record.startTime ∧
    -(record.endTime - record.startTime) <
      (process stream_state record filtered_data template_size template_length).lag ∧
    (0 ≤ (process stream_state record filtered_data template_size template_length).lag ↔
      template_size ≤
        (firstMaximum filtered_data (startIdx stream_state filtered_data.length)).2) := by
  obtain ⟨c, before, after, hd, _, _, hf⟩ :=
    firstMaximum_spec filtered_data (startIdx stream_state filtered_data.length) hne
  have hk : (firstMaximum filtered_data (startIdx stream_state filtered_data.length)).2 <
      filtered_data.length := by
    rw [hf]
    have := congrArg List.length hd
    simp only [List.length_drop, List.length_append, List.length_cons] at this
    show startIdx stream_state filtered_data.length + before.length < filtered_data.length
    omega
  have hstart := startTime_of_lt stream_state record filtered_data.length hne
  have hL : 0 < record.endTime - record.startTime := sub_pos.2 hlen
  have hn : (0 : ℚ) < (filtered_data.length : ℚ) + template_size := by
    have h0 : 0 < filtered_data.length := by omega
    have h1 : (0 : ℚ) < (filtered_data.length : ℚ) := by exact_mod_cast h0
    have h2 : (0 : ℚ) ≤ (template_size : ℚ) := by exact_mod_cast Nat.zero_le _
    linarith
  have hkq : (((firstMaximum filtered_data (startIdx stream_state filtered_data.length)).2 : ℕ) : ℚ) <
      (filtered_data.length : ℚ) := by exact_mod_cast hk
  have hk0 : (0 : ℚ) ≤
      (((firstMaximum filtered_data (startIdx stream_state filtered_data.length)).2 : ℕ) : ℚ) := by
    exact_mod_cast Nat.zero_le _
  have hts : (0 : ℚ) ≤ (template_size : ℚ) := by exact_mod_cast Nat.zero_le _
  have hlag : (process stream_state record filtered_data template_size template_length).lag =
      (record.endTime - record.startTime) *
        ((((firstMaximum filtered_data (startIdx stream_state filtered_data.length)).2 : ℚ) -
            template_size) / ((filtered_data.length : ℚ) + template_size)) := by
    simp only [process, hstart]
    ring
  have ht1 : (((firstMaximum filtered_data (startIdx stream_state filtered_data.length)).2 : ℚ) -
      template_size) / ((filtered_data.length : ℚ) + template_size) < 1 := by
    rw [div_lt_one hn]
    linarith
  have ht2 : -1 < (((firstMaximum filtered_data
      (startIdx stream_state filtered_data.length)).2 : ℚ) -
      template_size) / ((filtered_data.length : ℚ) + template_size) := by
    rw [lt_div_iff₀ hn]
    have h0 : 0 < filtered_data.length := by omega
    have h1 : (0 : ℚ) < (filtered_data.length : ℚ) := by exact_mod_cast h0
    linarith
  refine ⟨?_, hlag, hk, ?_, ?_, ?_⟩
  · simp only [process, hstart]
    ring
  · rw [hlag]
    calc (record.endTime - record.startTime) * _ < (record.endTime - record.startTime) * 1 :=
          mul_lt_mul_of_pos_left ht1 hL
      _ = record.endTime - record.startTime := mul_one _
  · rw [hlag]
    calc -(record.endTime - record.startTime) = (record.endTime - record.startTime) * (-1) := by
          ring
      _ < _ := mul_lt_mul_of_pos_left ht2 hL
  · rw [hlag]
    constructor
    · intro h
      have h1 : 0 ≤ (((firstMaximum filtered_data
          (startIdx stream_state filtered_data.length)).2 : ℚ) -
          template_size) / ((filtered_data.length : ℚ) + template_size) := by
        by_contra hneg
        have := mul_neg_of_pos_of_neg hL (not_le.1 hneg)
        linarith
      have h2 := (div_nonneg_iff.1 h1)
      rcases h2 with ⟨h3, _⟩ | ⟨_, h4⟩
      · have : (template_size : ℚ) ≤
            ((firstMaximum filtered_data (startIdx stream_state filtered_data.length)).2 : ℚ) := by
          linarith
        exact_mod_cast this
      · linarith
    · intro h
      have h1 : (template_size : ℚ) ≤
          ((firstMaximum filtered_data (startIdx stream_state filtered_data.length)).2 : ℚ) := by
        exact_mod_cast h
      exact mul_nonneg (le_of_lt hL) (div_nonneg (by linarith) (le_of_lt hn))

/-- A record of one second with the values 0, 1 and a template of one sample: the
maximum is at index 1, the lag is 0. -/
theorem lag_range_witness :
    (process ⟨true, 0, 0⟩ ⟨0, 1⟩ [0, 1] 1 0).lag < (1 : ℚ) - 0 ∧
    -((1 : ℚ) - 0) < (process ⟨true, 0, 0⟩ ⟨0, 1⟩ [0, 1] 1 0).lag :=
  ⟨(lag_range ⟨true, 0, 0⟩ ⟨0, 1⟩ [0, 1] 1 0 (by decide) (by decide!)).2.2.2.1,
    (lag_range ⟨true, 0, 0⟩ ⟨0, 1⟩ [0, 1] 1 0 (by decide) (by decide!)).2.2.2.2.1⟩

end Template

namespace MagnitudeRange

/-! ## `MagnitudeRange::computeMagnitude` -/

/-- What the condition of `computeMagnitude` amounts to: no bound is set, or the lower
bound is set and satisfied, or the upper bound is set and satisfied. -/
theorem withinRange_iff (range : Range) (magnitude : ℚ) :
    withinRange range magnitude = true ↔
      (range.rangeBegin = none ∧ range.rangeEnd = none) ∨
      (∃ b, range.rangeBegin = some b ∧ b ≤ magnitude) ∨
      (∃ e, range.rangeEnd = some e ∧ magnitude ≤ e) := by
  obtain ⟨rb, re⟩ := range
  cases rb with
  | none =>
    cases re with
    | none => simp [withinRange]
    | some e => simp [withinRange]
  | some b =>
    cases re with
    | none => simp [withinRange]
    | some e =>
      simp only [withinRange, Option.isNone_some, Bool.false_and, Bool.false_or, Bool.or_eq_true,
        Bool.and_eq_true, decide_eq_true_eq, ge_iff_le, false_and, false_or, Option.some.injEq,
        exists_eq_left', reduceCtorEq]
      constructor
      · rintro ((⟨h, _⟩ | h) | h)
        · exact Or.inl h
        · exact Or.inl h
        · exact Or.inr h
      · rintro (h | h)
        · exact Or.inl (Or.inr h)
        · exact Or.inr h

/-- Claim C24, at the limits `lower = 1`, `upper = 3` registered for the detector and
the sensor location of the amplitude. The magnitude 5 violates the upper bound and the
magnitude 0 violates the lower bound; the claim requires `MagnitudeOutOfRange` for
both, and `computeMagnitude` returns both unchanged. With only one bound set the
violation is reported. -/
theorem both_bounds_not_enforced :
    computeMagnitude (addLimits ∅ "detector" "CH.GRIMS." (some 1) (some 3)) 5
      (some "detector") (some "CH.GRIMS.") = .ok 5 ∧
    expectedMagnitude ⟨some 1, some 3⟩ 5 = .error ⟨5, some 1, some 3⟩ ∧
    computeMagnitude (addLimits ∅ "detector" "CH.GRIMS." (some 1) (some 3)) 0
      (some "detector") (some "CH.GRIMS.") = .ok 0 ∧
    expectedMagnitude ⟨some 1, some 3⟩ 0 = .error ⟨0, some 1, some 3⟩ ∧
    computeMagnitude (addLimits ∅ "detector" "CH.GRIMS." (some 1) (some 3)) 2
      (some "detector") (some "CH.GRIMS.") = .ok 2 ∧
    computeMagnitude (addLimits ∅ "detector" "CH.GRIMS." (some 1) none) 0
      (some "detector") (some "CH.GRIMS.") = .error ⟨0, some 1, none⟩ ∧
    computeMagnitude (addLimits ∅ "detector" "CH.GRIMS." none (some 3)) 5
      (some "detector") (some "CH.GRIMS.") = .error ⟨5, none, some 3⟩ ∧
    computeMagnitude (addLimits ∅ "detector" "CH.GRIMS." (some 1) (some 3)) 5
      (some "other") (some "CH.GRIMS.") = .ok 5 ∧
    computeMagnitude (addLimits ∅ "detector" "CH.GRIMS." (some 1) (some 3)) 5
      none (some "CH.GRIMS.") = .ok 5 := by
  refine ⟨by decide!, by decide!, by decide!, by decide!, by decide!, by decide!, by decide!,
    by decide!, by decide!⟩

end MagnitudeRange

namespace Linker

/-! ## NaN coefficients in `feed` -/

/-- The loop of `feed` of the linker is the loop `feedLoopOver` on the state of the
linker and the associations emitted so far. -/
theorem feedLoop_eq_feedLoopOver (proc : TemplateWaveformProcessor) (linkerProc : Processor)
    (matchResult : MatchResult) (clock : Nat → Time) :
    ∀ (values : List LocalMaxima) (i : Nat) (s : Linker × List Association),
      feedLoop proc linkerProc matchResult clock i values s =
        feedLoopOver (fun (t : Linker × List Association) r => t.1.dropped linkerProc r)
          (fun t j r => ((t.1.process (clock j) proc r).1, t.2 ++ (t.1.process (clock j) proc r).2))
          i (values.map (templateResultOf linkerProc matchResult)) s := by
  intro values
  induction values with
  | nil => intro i s; rfl
  | cons value rest ih =>
    intro i s
    simp only [feedLoop, List.map_cons, feedLoopOver]
    split
    · exact ih (i + 1) s
    · exact ih (i + 1) _

theorem feedLoopOver_calls {ρ : Type} (dropped : ρ → Bool) :
    ∀ (results : List ρ) (i : Nat) (calls : List ρ),
      feedLoopOver (fun _ r => dropped r) (fun (calls : List ρ) _ r => calls ++ [r]) i results
          calls =
        calls ++ results.filter (fun r => !dropped r) := by
  intro results
  induction results with
  | nil => intro i calls; simp [feedLoopOver]
  | cons r rest ih =>
    intro i calls
    simp only [feedLoopOver]
    by_cases h : dropped r = true
    · simp [h, ih]
    · simp [h, ih]

/-- Claim C25 fails as stated. With the association threshold null and the default
merging strategy, `feed` hands the template result of a local maximum whose
coefficient is NaN to `process`; with the association threshold 0.7 and a merging
strategy that accepts every result it does so too, after the strategy has been
evaluated on it. -/
theorem nan_reaches_process :
    feedCalls (some floatDefaultMergingStrategy) none
        (some ⟨Scenario.procA, Scenario.arrivalA, none⟩) (Scenario.matchNaN 7) =
      [floatTemplateResultOf ⟨Scenario.procA, Scenario.arrivalA, none⟩ (Scenario.matchNaN 7)
        ⟨.nan, 0⟩] ∧
    feedCalls (some Scenario.floatAcceptAll) (some (7 / 10))
        (some ⟨Scenario.procA, Scenario.arrivalA, none⟩) (Scenario.matchNaN 7) =
      [floatTemplateResultOf ⟨Scenario.procA, Scenario.arrivalA, none⟩ (Scenario.matchNaN 7)
        ⟨.nan, 0⟩] ∧
    (floatTemplateResultOf ⟨Scenario.procA, Scenario.arrivalA, none⟩ (Scenario.matchNaN 7)
      ⟨.nan, 0⟩).resultIt.coefficient = .nan := by
  refine ⟨by decide!, by decide!, by decide!⟩

/-- Claim C25, amended. `feed` has no test for NaN of its own: the template results it
hands to `process` are those of the local maxima that the merging strategy does not
drop, in order. A local maximum whose coefficient is NaN is dropped exactly when the
association threshold and the merging strategy are set and the strategy returns false
for it, which the default strategy does for every threshold; with the association
threshold null every local maximum, NaN or not, is handed to `process`. -/
theorem nan_dropped_by_strategy_only (mergingStrategy : Option FloatMergingStrategy)
    (thresAssociation : Option ℚ) (linkerProc : Processor) (matchResult : FloatMatchResult) :
    feedCalls mergingStrategy thresAssociation (some linkerProc) matchResult =
      (matchResult.localMaxima.map (floatTemplateResultOf linkerProc matchResult)).filter
        (fun r => !floatDropped mergingStrategy thresAssociation linkerProc r) ∧
    (∀ value ∈ matchResult.localMaxima, value.coefficient = .nan →
      (floatTemplateResultOf linkerProc matchResult value ∈
          feedCalls mergingStrategy thresAssociation (some linkerProc) matchResult ↔
        ¬ ∃ (strategy : FloatMergingStrategy) (thres : ℚ),
          mergingStrategy = some strategy ∧ thresAssociation = some thres ∧
          strategy (floatTemplateResultOf linkerProc matchResult value) thres
            (linkerProc.mergingThreshold.getD thres) = false)) ∧
    (∀ (thres : ℚ) (value : FloatLocalMaxima), value.coefficient = .nan →
      floatDropped (some floatDefaultMergingStrategy) (some thres) linkerProc
        (floatTemplateResultOf linkerProc matchResult value) = true) ∧
    (thresAssociation = none →
      feedCalls mergingStrategy thresAssociation (some linkerProc) matchResult =
        matchResult.localMaxima.map (floatTemplateResultOf linkerProc matchResult)) ∧
    feedCalls mergingStrategy thresAssociation none matchResult = [] := by
  have hcalls : feedCalls mergingStrategy thresAssociation (some linkerProc) matchResult =
      (matchResult.localMaxima.map (floatTemplateResultOf linkerProc matchResult)).filter
        (fun r => !floatDropped mergingStrategy thresAssociation linkerProc r) := by
    simp only [feedCalls]
    rw [feedLoopOver_calls (fun r => floatDropped mergingStrategy thresAssociation linkerProc r)]
    simp
  refine ⟨hcalls, ?_, ?_, ?_, rfl⟩
  · intro value hv _
    rw [hcalls]
    have hd : floatDropped mergingStrategy thresAssociation linkerProc
        (floatTemplateResultOf linkerProc matchResult value) = true ↔
        ∃ (strategy : FloatMergingStrategy) (thres : ℚ),
          mergingStrategy = some strategy ∧ thresAssociation = some thres ∧
          strategy (floatTemplateResultOf linkerProc matchResult value) thres
            (linkerProc.mergingThreshold.getD thres) = false := by
      unfold floatDropped
      cases mergingStrategy with
      | none => simp
      | some strategy =>
        cases thresAssociation with
        | none => simp
        | some thres => simp
    rw [← hd]
    constructor
    · intro h
      have := (List.mem_filter.1 h).2
      simpa using this
    · intro h
      refine List.mem_filter.2 ⟨List.mem_map.2 ⟨value, hv, rfl⟩, ?_⟩
      simpa using h
  · intro thres value hnan
    simp [floatDropped, floatDefaultMergingStrategy, floatTemplateResultOf, hnan, Coefficient.ge]
  · intro hnone
    rw [hcalls, hnone]
    have : ∀ r, floatDropped mergingStrategy none linkerProc r = false := by
      intro r
      unfold floatDropped
      cases mergingStrategy <;> rfl
    simp [this]

/-- The default strategy with the association threshold 0.7 drops the NaN local
maximum; with the threshold null it is handed to `process`. -/
theorem nan_dropped_by_strategy_only_witness :
    floatDropped (some floatDefaultMergingStrategy) (some (7 / 10))
        ⟨Scenario.procA, Scenario.arrivalA, none⟩
        (floatTemplateResultOf ⟨Scenario.procA, Scenario.arrivalA, none⟩ (Scenario.matchNaN 7)
          ⟨.nan, 0⟩) = true ∧
    feedCalls (some floatDefaultMergingStrategy) none
        (some ⟨Scenario.procA, Scenario.arrivalA, none⟩) (Scenario.matchNaN 7) =
      (Scenario.matchNaN 7).localMaxima.map
        (floatTemplateResultOf ⟨Scenario.procA, Scenario.arrivalA, none⟩ (Scenario.matchNaN 7)) :=
  ⟨(nan_dropped_by_strategy_only (some floatDefaultMergingStrategy) (some (7 / 10))
      ⟨Scenario.procA, Scenario.arrivalA, none⟩ (Scenario.matchNaN 7)).2.2.1 (7 / 10) ⟨.nan, 0⟩ rfl,
    (nan_dropped_by_strategy_only (some floatDefaultMergingStrategy) none
      ⟨Scenario.procA, Scenario.arrivalA, none⟩ (Scenario.matchNaN 7)).2.2.2.1 rfl⟩

end Linker

end Scdetect
